import Mathlib

/-!
# CFF: parallel-directive compiler and code generator

A shallow embedding of `internal/compile_parallel.go` and of the type-ID and
splicing parts of `internal/gen.go`, with the properties proved about them.

Conventions of the embedding:

* A Go function that mutates the compiler takes the compiler state and returns
  the new one next to its result.
* A Go `nil` pointer result is `none`.
* A Go run-time panic (an index out of range) is the outer `none` of a result
  of type `Option (_ × compiler)`.
* Go's `int` is a 64-bit two's-complement integer: `x++` is `wrapInt (x + 1)`.
-/

namespace Cff

/-! ## Syntax trees (`go/ast`) -/

/-- An expression node of `go/ast`, kept to the shapes the compiler looks at:
parenthesised expressions, call expressions, and every other node. -/
inductive Expr where
  | Leaf (id : Nat)
  | ParenExpr (X : Expr)
  | CallExpr (Fun : Expr) (Args : List Expr)

/-- The result of `astutil.Unparen`: the expression with enclosing parentheses stripped. -/
def Unparen : Expr → Expr
  | .ParenExpr x => Unparen x
  | e => e

/-! ## Types (`go/types`) -/

/-- The constants of `types.BasicKind`. -/
inductive BasicKind where
  | Invalid | Bool | Int | Int8 | Int16 | Int32 | Int64
  | Uint | Uint8 | Uint16 | Uint32 | Uint64 | Uintptr
  | Float32 | Float64 | Complex64 | Complex128 | String | UnsafePointer
  | UntypedBool | UntypedInt | UntypedRune | UntypedFloat | UntypedComplex
  | UntypedString | UntypedNil
deriving DecidableEq, Repr

/-- A type of `go/types`, up to `types.Identical`: basic types are identified by
their kind, a named type by its declaration (`obj`), composite types by their
components.  `Interface n` is an interface with the method set numbered `n`,
`Interface 0` being the empty interface. -/
inductive Ty where
  | Basic (kind : BasicKind)
  | Slice (elem : Ty)
  | Pointer (base : Ty)
  | Interface (methods : Nat)
  | Named (obj : Nat) (underlying : Ty)
deriving DecidableEq, Repr

/-- A `*types.Package`. -/
structure Package where
  Path : String
  Name : String
deriving DecidableEq, Repr

/-- A `*types.Func`: the declaring package (nil for universe objects) and the name. -/
structure Func where
  Pkg : Option Package
  Name : String
deriving DecidableEq, Repr

/-- A `*types.Signature`. -/
structure Signature where
  Params : List Ty
  Results : List Ty
deriving DecidableEq, Repr

/-! ## Intermediate representation -/

/-- Source position record; it is derived from the node it describes. -/
structure PosInfo where
  node : Expr

/-- The struct `compiledFunc`: `Inputs` leave out a leading context, `Outputs`
leave out a trailing error. -/
structure compiledFunc where
  Node : Expr
  Sig : Signature
  Inputs : List Ty
  Outputs : List Ty
  WantCtx : Bool
  HasError : Bool
  PosInfo : PosInfo

/-- The struct `function` as `compileParallelTaskFn` fills it. -/
structure function where
  Node : Expr
  Sig : Signature
  WantCtx : Bool
  HasError : Bool
  PosInfo : PosInfo

/-- The struct `instrument`: the name expression given to `cff.Instrument`. -/
structure instrument where
  Name : Expr

/-- The struct `parallelTask`. -/
structure parallelTask where
  Function : function
  Serial : Int
  Instrument : Option instrument
  PosInfo : PosInfo

/-- The struct `sliceTask`. -/
structure sliceTask where
  Function : compiledFunc
  Slice : Expr
  ElemType : Ty
  Serial : Int
  PosInfo : PosInfo

/-- The struct `parallel`. -/
structure parallel where
  Node : Expr
  Ctx : Expr
  Concurrency : Option Expr
  ContinueOnError : Option Expr
  Emitters : List Expr
  Tasks : List parallelTask
  SliceTasks : List sliceTask
  Instrument : Option instrument
  PosInfo : PosInfo

/-! ## Diagnostics and compiler state -/

/-- An argument handed to `c.errf` after the format string. -/
inductive FmtArg where
  | descr (e : Expr)
  | object (o : Option Func)
  | type (t : Ty)
  | err (msg : String)

/-- One call `c.errf(c.nodePosition(n), format, args...)`. -/
structure Diag where
  pos : Expr
  format : String
  args : List FmtArg

/-- The mutable part of the struct `compiler`. -/
structure compiler where
  taskSerial : Int
  errors : List Diag

/-- Go's 64-bit `int` arithmetic: the two's-complement value of `x`. -/
def wrapInt (x : Int) : Int :=
  (x + 9223372036854775808) % 18446744073709551616 - 9223372036854775808

/-- The import path of the DSL package. -/
def cffImportPath : String := "go.uber.org/cff"

/-- The read-only surroundings of the compiler: the type information of the
loader (`c.info`, `go/types`) and the compiler methods that are defined in
other files of the package (`compileFunction`, `compileInstrument`,
`identifyOption`, `getPosInfo`, `isPackagePathEquivalent`), taken as
parameters.  Each compiler method yields its result together with the
diagnostics it records; recording diagnostics is its only effect on the
compiler. -/
structure Env where
  TypeOf : Expr → Option Ty
  StaticCallee : Expr → Option Func
  Callee : Expr → Option Func
  AssignableTo : Ty → Ty → Bool
  isPackagePathEquivalent : Option Package → String → Bool
  compileFunction : Expr → Option compiledFunc × List Diag
  compileInstrument : Expr → Option instrument × List Diag
  identifyOption : Expr → Except String (Expr × Func)
  getPosInfo : Expr → PosInfo

/-- The method `c.errf`: append one diagnostic. -/
def errf (c : compiler) (pos : Expr) (format : String) (args : List FmtArg) : compiler :=
  { c with errors := c.errors ++ [{ pos := pos, format := format, args := args }] }

/-- Diagnostics recorded by a compiler method that lives in another file. -/
def record (c : compiler) (ds : List Diag) : compiler :=
  { c with errors := c.errors ++ ds }

/-! ## `compile_parallel.go` -/

/-- The function `checkParallelTask`; `none` is the nil error. -/
def checkParallelTask (fn : compiledFunc) : Option String :=
  if fn.Inputs.length ≠ 0 then
    some "the only allowed argument is a single context.Context parameter"
  else if fn.Outputs.length ≠ 0 then
    some "the only allowed return value is an error"
  else
    none

/-- The method `compileParallelTaskFn`. -/
def compileParallelTaskFn (env : Env) (c : compiler) (_p : parallel) (arg : Expr) :
    Option parallelTask × compiler :=
  let r := env.compileFunction arg
  let c := record c r.2
  match r.1 with
  | none => (none, errf c arg "parallel tasks function failed to compile" [])
  | some taskF =>
    match checkParallelTask taskF with
    | some err => (none, errf c arg "parallel tasks function is invalid: %v" [.err err])
    | none =>
      let fn : function :=
        { Node := taskF.Node, Sig := taskF.Sig, WantCtx := taskF.WantCtx,
          HasError := taskF.HasError, PosInfo := taskF.PosInfo }
      let t : parallelTask :=
        { Function := fn, Serial := c.taskSerial, Instrument := none, PosInfo := taskF.PosInfo }
      (some t, { c with taskSerial := wrapInt (c.taskSerial + 1) })

/-- One iteration of the option loop of `compileParallelTask`. -/
def compileParallelTaskOpt (env : Env) (tc : parallelTask × compiler) (opt : Expr) :
    parallelTask × compiler :=
  match env.identifyOption opt with
  | .error err => (tc.1, errf tc.2 opt err [])
  | .ok (call, fn) =>
    if fn.Name = "Instrument" then
      let r := env.compileInstrument call
      ({ tc.1 with Instrument := r.1 }, record tc.2 r.2)
    else
      tc

/-- The method `compileParallelTask`. -/
def compileParallelTask (env : Env) (c : compiler) (p : parallel) (call : Expr)
    (opts : List Expr) : Option parallelTask × compiler :=
  match compileParallelTaskFn env c p call with
  | (none, c) => (none, errf c call "parallel task failed to compile" [])
  | (some t, c) =>
    let tc := opts.foldl (compileParallelTaskOpt env) (t, c)
    (some tc.1, tc.2)

/-- The loop of `compileParallelTasks` over the arguments still to be visited. -/
def compileParallelTasksLoop (env : Env) (p : parallel) :
    List Expr → List parallelTask → compiler → List parallelTask × compiler
  | [], tasks, c => (tasks, c)
  | arg :: rest, tasks, c =>
    match compileParallelTaskFn env c p arg with
    | (some t, c) => compileParallelTasksLoop env p rest (tasks ++ [t]) c
    | (none, c) => compileParallelTasksLoop env p rest tasks c

/-- The method `compileParallelTasks`, given the arguments of the `cff.Tasks` call. -/
def compileParallelTasks (env : Env) (c : compiler) (p : parallel) (callArgs : List Expr) :
    List parallelTask × compiler :=
  compileParallelTasksLoop env p callArgs [] c

/-- The method `compileSlice`, given the arguments of the `cff.Slice` call `ce`. -/
def compileSlice (env : Env) (c : compiler) (_p : parallel) (ce : Expr) (ceArgs : List Expr) :
    Option (Option sliceTask × compiler) :=
  match ceArgs with
  | sliceFn :: slce :: _ =>
    let r := env.compileFunction sliceFn
    let c := record c r.2
    match r.1 with
    | none => some (none, errf c sliceFn "slice function failed to compile" [])
    | some fn =>
      if fn.Outputs.length ≠ 0 then
        some (none, errf c sliceFn "the only allowed return value is an error" [])
      else if fn.Inputs.length ≠ 2 then
        some (none, errf c slce
          "slice function expects two non-context arguments: slice index and slice element" [])
      else
        match fn.Inputs with
        | in0 :: in1 :: _ =>
          if in0 ≠ Ty.Basic BasicKind.Int then
            some (none, errf c slce
              "the first non-context argument of the slice function must be an int, got %v"
              [.type in0])
          else
            match env.TypeOf slce with
            | none => some (none, errf c slce "type of the slice argument is not found" [])
            | some typ =>
              match typ with
              | Ty.Slice elem =>
                if !env.AssignableTo in1 elem then
                  some (none, errf c slce
                    "slice element of type %v cannot be passed as a parameter to function expecting %v"
                    [.type in1, .type elem])
                else
                  let s : sliceTask :=
                    { Function := fn, Slice := slce, ElemType := elem,
                      Serial := c.taskSerial, PosInfo := env.getPosInfo ce }
                  some (some s, { c with taskSerial := wrapInt (c.taskSerial + 1) })
              | _ =>
                some (none, errf c slce
                  "the second argument to cff.Slice must be a slice, got %v" [.type typ])
        | _ => none
  | _ => none

/-- The method `validateParallelInstrument`. -/
def validateParallelInstrument (c : compiler) (p : parallel) : compiler :=
  if p.Emitters.length > 0 then
    c
  else
    let c :=
      if p.Instrument.isSome then
        errf c p.Node
          "cff.InstrumentParallel requires a cff.Emitter to be provided: use cff.WithEmitter" []
      else
        c
    p.Tasks.foldl
      (fun c t =>
        if t.Instrument.isSome then
          errf c p.Node
            "cff.Instrument requires a cff.Emitter to be provided: use cff.WithEmitter" []
        else
          c)
      c

/-- The body of the loop of `compileParallel` for one argument after the context. -/
def compileParallelArg (env : Env) (p : parallel) (c : compiler) (arg0 : Expr) :
    Option (parallel × compiler) :=
  let arg := Unparen arg0
  match arg with
  | .CallExpr _ ceArgs =>
    match env.StaticCallee arg with
    | none => some (p, errf c arg "expected cff call but got %v" [.object (env.Callee arg)])
    | some f =>
      if !env.isPackagePathEquivalent f.Pkg cffImportPath then
        some (p, errf c arg "expected cff call but got %v" [.object (env.Callee arg)])
      else if f.Name = "Task" then
        match ceArgs with
        | [] => none
        | fnArg :: opts =>
          let r := compileParallelTask env c p fnArg opts
          match r.1 with
          | some t => some ({ p with Tasks := p.Tasks ++ [t] }, r.2)
          | none => some (p, r.2)
      else if f.Name = "Tasks" then
        let r := compileParallelTasks env c p ceArgs
        some ({ p with Tasks := p.Tasks ++ r.1 }, r.2)
      else if f.Name = "Concurrency" then
        match ceArgs with
        | [] => none
        | a :: _ => some ({ p with Concurrency := some a }, c)
      else if f.Name = "ContinueOnError" then
        match ceArgs with
        | [] => none
        | a :: _ => some ({ p with ContinueOnError := some a }, c)
      else if f.Name = "InstrumentParallel" then
        let r := env.compileInstrument arg
        some ({ p with Instrument := r.1 }, record c r.2)
      else if f.Name = "Slice" then
        match compileSlice env c p arg ceArgs with
        | none => none
        | some (some st, c) => some ({ p with SliceTasks := p.SliceTasks ++ [st] }, c)
        | some (none, c) => some (p, c)
      else if f.Name = "WithEmitter" then
        match ceArgs with
        | [] => none
        | a :: _ => some ({ p with Emitters := p.Emitters ++ [a] }, c)
      else
        some (p, c)
  | _ => some (p, errf c arg "expected a function call, got %v" [.descr arg])

/-- The loop of `compileParallel` over `call.Args[1:]`. -/
def compileParallelLoop (env : Env) : List Expr → parallel → compiler →
    Option (parallel × compiler)
  | [], p, c => some (p, c)
  | arg :: rest, p, c =>
    match compileParallelArg env p c arg with
    | none => none
    | some (p, c) => compileParallelLoop env rest p c

/-- The method `compileParallel`, given the `cff.Parallel` call and its arguments. -/
def compileParallel (env : Env) (c : compiler) (call : Expr) (callArgs : List Expr) :
    Option (Option parallel × compiler) :=
  if callArgs.length = 1 then
    some (none, errf c call "cff.Parallel expects at least one function" [])
  else
    match callArgs with
    | [] => none
    | ctx :: rest =>
      let p : parallel :=
        { Node := call, Ctx := ctx, Concurrency := none, ContinueOnError := none,
          Emitters := [], Tasks := [], SliceTasks := [], Instrument := none,
          PosInfo := env.getPosInfo call }
      match compileParallelLoop env rest p c with
      | none => none
      | some (p, c) => some (some p, validateParallelInstrument c p)

/-- The inputs of a function `func(int, string)`. -/
def sliceFnExampleInputs : List Ty := [Ty.Basic BasicKind.Int, Ty.Basic BasicKind.String]

/-- The conditions on a call `cff.Slice(sliceFn, slce)`: the function compiles,
has exactly two non-context inputs of which the first is the basic type `int`,
has no outputs besides an optional error, and `slce` has a slice type. -/
def sliceShape (env : Env) (sliceFn slce : Expr) : Prop :=
  ∃ fn elem, (env.compileFunction sliceFn).1 = some fn ∧ fn.Inputs.length = 2 ∧
    fn.Inputs.head? = some (Ty.Basic BasicKind.Int) ∧ fn.Outputs.length = 0 ∧
    env.TypeOf slce = some (Ty.Slice elem)

/-! ### A concrete `cff.Slice` call -/

/-- A fragment of `types.AssignableTo(V, T)`, enough for the examples: a value of
type `V` is assignable to a variable of type `T` when the two types are
identical or `T` is the empty interface. -/
def assignableToExample (V T : Ty) : Bool :=
  V == T || T == Ty.Interface 0

/-- The compiled form of a function literal `func(int, param) error` at node `Leaf 1`. -/
def sliceFnExample (param : Ty) : compiledFunc :=
  { Node := .Leaf 1,
    Sig := { Params := [Ty.Basic BasicKind.Int, param], Results := [Ty.Named 0 (Ty.Interface 1)] },
    Inputs := [Ty.Basic BasicKind.Int, param], Outputs := [], WantCtx := false, HasError := true,
    PosInfo := { node := .Leaf 1 } }

/-- The cff function `cff.name`. -/
def cffFuncExample (name : String) : Func :=
  { Pkg := some { Path := "go.uber.org/cff", Name := "cff" }, Name := name }

/-- The surroundings of the examples.  A call whose function is the node
`Leaf 10`, ..., `Leaf 17` is a call of `cff.Task`, `cff.Tasks`,
`cff.Concurrency`, `cff.ContinueOnError`, `cff.InstrumentParallel`,
`cff.Slice`, `cff.WithEmitter`, `cff.Results`; a call of `Leaf 20` is a call of
`fmt.Println`; other callees are unresolved.  The node `Leaf 1` is a function
`func(int, param) error`, the node `Leaf 3` a function `func() error`, and the
node `Leaf 2` has type `[]elem`. -/
def sliceEnvExample (param elem : Ty) : Env :=
  { TypeOf := fun e => match e with
      | .Leaf 2 => some (Ty.Slice elem)
      | _ => none,
    StaticCallee := fun e => match e with
      | .CallExpr (.Leaf 10) _ => some (cffFuncExample "Task")
      | .CallExpr (.Leaf 11) _ => some (cffFuncExample "Tasks")
      | .CallExpr (.Leaf 12) _ => some (cffFuncExample "Concurrency")
      | .CallExpr (.Leaf 13) _ => some (cffFuncExample "ContinueOnError")
      | .CallExpr (.Leaf 14) _ => some (cffFuncExample "InstrumentParallel")
      | .CallExpr (.Leaf 15) _ => some (cffFuncExample "Slice")
      | .CallExpr (.Leaf 16) _ => some (cffFuncExample "WithEmitter")
      | .CallExpr (.Leaf 17) _ => some (cffFuncExample "Results")
      | .CallExpr (.Leaf 20) _ =>
        some { Pkg := some { Path := "fmt", Name := "fmt" }, Name := "Println" }
      | _ => none,
    Callee := fun _ => none,
    AssignableTo := assignableToExample,
    isPackagePathEquivalent := fun pkg path => match pkg with
      | some q => q.Path == path
      | none => false,
    compileFunction := fun e => match e with
      | .Leaf 1 => (some (sliceFnExample param), [])
      | .Leaf 3 =>
        (some { Node := .Leaf 3,
                Sig := { Params := [], Results := [Ty.Named 0 (Ty.Interface 1)] },
                Inputs := [], Outputs := [], WantCtx := false, HasError := true,
                PosInfo := { node := .Leaf 3 } }, [])
      | _ => (none, []),
    compileInstrument := fun e => (some { Name := e }, []),
    identifyOption := fun _ => .error "not an option",
    getPosInfo := fun e => { node := e } }

/-- The call expression `cff.Slice(f, s)`. -/
def sliceCallExample : Expr := .CallExpr (.Leaf 15) [.Leaf 1, .Leaf 2]

/-- A `parallel` with every field empty, for the call node `Leaf 9`. -/
def parallelExample : parallel :=
  { Node := .Leaf 9, Ctx := .Leaf 8, Concurrency := none, ContinueOnError := none,
    Emitters := [], Tasks := [], SliceTasks := [], Instrument := none,
    PosInfo := { node := .Leaf 9 } }

/-- The slice task built for `func(int, string) error` over a `[]string`. -/
def sliceTaskExample : sliceTask :=
  { Function := sliceFnExample (Ty.Basic BasicKind.String), Slice := .Leaf 2,
    ElemType := Ty.Basic BasicKind.String, Serial := 0, PosInfo := { node := sliceCallExample } }

/-! ### Sequences of task creations -/

/-- A request to create a task on a compiler: a call of `compileParallelTaskFn`
or a call of `compileSlice`. -/
inductive TaskOp where
  | taskFn (p : parallel) (arg : Expr)
  | slice (p : parallel) (ce : Expr) (ceArgs : List Expr)

/-- A `cff.Slice` call that passed the type checker has its two arguments. -/
def TaskOp.wellTyped : TaskOp → Prop
  | .taskFn _ _ => True
  | .slice _ _ ceArgs => 2 ≤ ceArgs.length

/-- Run one request; the result is the `Serial` of the task that was created,
or nil when none was. -/
def TaskOp.run (env : Env) (c : compiler) : TaskOp → Option (Option Int × compiler)
  | .taskFn p arg =>
    let r := compileParallelTaskFn env c p arg
    some (r.1.map (fun t => t.Serial), r.2)
  | .slice p ce ceArgs =>
    (compileSlice env c p ce ceArgs).map (fun r => (r.1.map (fun st => st.Serial), r.2))

/-- Run the requests in order on one compiler, collecting the result of each. -/
def runTaskOps (env : Env) : List TaskOp → compiler → Option (List (Option Int) × compiler)
  | [], c => some ([], c)
  | op :: ops, c =>
    match op.run env c with
    | none => none
    | some (r, c) =>
      match runTaskOps env ops c with
      | none => none
      | some (rs, c) => some (r :: rs, c)

/-- The serials handed out, in order of creation. -/
def createdSerials (rs : List (Option Int)) : List Int :=
  rs.filterMap id

/-- Three requests on the surroundings of the example: a task function that
does not compile, then two `cff.Slice` calls. -/
def taskOpsExample : List TaskOp :=
  [.taskFn parallelExample (.Leaf 5),
   .slice parallelExample sliceCallExample [.Leaf 1, .Leaf 2],
   .slice parallelExample sliceCallExample [.Leaf 1, .Leaf 2]]

/-! ### Arguments of `cff.Parallel` that are not cff calls -/

/-- The arguments that the loop of `compileParallel` rejects before the switch
on the callee name: once unparenthesised the argument is not a call
expression, or it is a call whose static callee is unresolved or lies outside
the cff package. -/
def offendingArg (env : Env) (arg0 : Expr) : Bool :=
  match Unparen arg0 with
  | .CallExpr _ _ =>
    match env.StaticCallee (Unparen arg0) with
    | none => true
    | some f => !env.isPackagePathEquivalent f.Pkg cffImportPath
  | _ => true

/-- The fields of a `parallel` that are filled from the arguments after the context. -/
def parallel.fields (p : parallel) :
    List parallelTask × List sliceTask × List Expr × Option Expr × Option Expr ×
      Option instrument :=
  (p.Tasks, p.SliceTasks, p.Emitters, p.Concurrency, p.ContinueOnError, p.Instrument)

/-- What is observed of a result of `compileParallel`: whether it is nil, the
fields filled from the arguments, and the task counter. -/
def observe (r : Option parallel × compiler) :
    Option (List parallelTask × List sliceTask × List Expr × Option Expr × Option Expr ×
      Option instrument) × Int :=
  (r.1.map parallel.fields, r.2.taskSerial)

/-- The arguments of `cff.Parallel(ctx, x, cff.Task(f))` where `x` is not a call. -/
def parallelArgsExample : List Expr :=
  [.Leaf 8, .Leaf 7, .CallExpr (.Leaf 10) [.Leaf 3]]

/-- The arguments of `cff.Parallel(ctx, cff.Concurrency(n))`. -/
def concurrencyOnlyArgsExample : List Expr :=
  [.Leaf 8, .CallExpr (.Leaf 12) [.Leaf 6]]

/-- The diagnostic recorded for an argument that is not a cff call. -/
def offendingDiag (env : Env) (arg0 : Expr) : Diag :=
  match Unparen arg0 with
  | .CallExpr _ _ =>
    { pos := Unparen arg0, format := "expected cff call but got %v",
      args := [.object (env.Callee (Unparen arg0))] }
  | _ =>
    { pos := Unparen arg0, format := "expected a function call, got %v",
      args := [.descr (Unparen arg0)] }

/-! ## `gen.go`: type IDs -/

/-- A value of the interface `types.Type`: a pointer to a type object.  `ptr` is
the identity of the object and `ty` the type it describes. -/
structure TypeObj where
  ptr : Nat
  ty : Ty
deriving DecidableEq, Repr

/-- The relation `types.Identical`: the two objects describe the same type. -/
def Identical (a b : TypeObj) : Bool :=
  decide (a.ty = b.ty)

/-- A `typeutil.Map` with integer values: its entries in insertion order.  The
keys of a `typeutil.Map` are compared with `types.Identical`. -/
structure TypeMap where
  entries : List (TypeObj × Int)
deriving DecidableEq, Repr

/-- The method `(*typeutil.Map).At`: the value of the entry whose key is
identical to `key`, nil when there is none. -/
def TypeMap.At (m : TypeMap) (key : TypeObj) : Option Int :=
  (m.entries.find? (fun e => Identical key e.1)).map Prod.snd

/-- The method `(*typeutil.Map).Set`: update the entry whose key is identical to
`key`, or add a new entry. -/
def TypeMap.Set (m : TypeMap) (key : TypeObj) (value : Int) : TypeMap :=
  if m.entries.any (fun e => Identical key e.1) then
    { entries := m.entries.map (fun e => if Identical key e.1 then (e.1, value) else e) }
  else
    { entries := m.entries ++ [(key, value)] }

/-- The struct `generator` (the file set is not modelled). -/
structure generator where
  typeIDs : TypeMap
  nextTypeID : Int
  outputPath : String
deriving DecidableEq, Repr

/-- The function `newGenerator`. -/
def newGenerator (outputPath : String) : generator :=
  { typeIDs := { entries := [] }, nextTypeID := 1, outputPath := outputPath }

/-- The method `generator.typeID`. -/
def typeID (g : generator) (t : TypeObj) : Int × generator :=
  match g.typeIDs.At t with
  | some i => (i, g)
  | none =>
    let id := g.nextTypeID
    (id, { g with nextTypeID := wrapInt (g.nextTypeID + 1), typeIDs := g.typeIDs.Set t id })

/-- The method `generator.printTypeHash`: the decimal form (`strconv.Itoa`) of the type ID. -/
def printTypeHash (g : generator) (t : TypeObj) : String × generator :=
  let r := typeID g t
  (toString r.1, r.2)

/-- A call on the generator that asks for the ID of a type. -/
inductive IDCall where
  | typeID (t : TypeObj)
  | printTypeHash (t : TypeObj)
deriving DecidableEq, Repr

/-- The type a call is given. -/
def IDCall.type : IDCall → TypeObj
  | .typeID t => t
  | .printTypeHash t => t

/-- What a call returns: the `int` of `typeID` or the `string` of
`printTypeHash`. -/
inductive IDResult where
  | int (i : Int)
  | string (s : String)
deriving DecidableEq, Repr

/-- Run one call: the value the method returns and the generator after it. -/
def IDCall.run (g : generator) : IDCall → IDResult × generator
  | .typeID t => (.int (Cff.typeID g t).1, (Cff.typeID g t).2)
  | .printTypeHash t => (.string (Cff.printTypeHash g t).1, (Cff.printTypeHash g t).2)

/-- The value with which a call returns the type ID `id`: `typeID` returns the
integer, `printTypeHash` its decimal form. -/
def IDCall.returns (call : IDCall) (id : Int) : IDResult :=
  match call with
  | .typeID _ => .int id
  | .printTypeHash _ => .string (toString id)

/-- The number that a list of decimal digits denotes. -/
def decimalValue (digits : List Char) : Nat :=
  digits.foldl (fun acc c => 10 * acc + (c.toNat - 48)) 0

/-- Run the calls in order on one generator, collecting what they return. -/
def runIDCalls : generator → List IDCall → List IDResult × generator
  | g, [] => ([], g)
  | g, call :: calls =>
    let r := call.run g
    let rs := runIDCalls r.2 calls
    (r.1 :: rs.1, rs.2)

/-- Two type objects for the type `[]int`, at different addresses. -/
def sliceOfIntExample (ptr : Nat) : TypeObj :=
  { ptr := ptr, ty := Ty.Slice (Ty.Basic BasicKind.Int) }

/-- The state of a generator between calls: every stored ID lies between 1 and
the next ID to hand out, and two keys with the same ID are the same type. -/
def generator.wellFormed (g : generator) : Prop :=
  (∀ t id, g.typeIDs.At t = some id → 1 ≤ id ∧ id < g.nextTypeID) ∧
  (∀ t u id, g.typeIDs.At t = some id → g.typeIDs.At u = some id → t.ty = u.ty) ∧
  1 ≤ g.nextTypeID

/-- Three calls: `typeID` and `printTypeHash` on two objects for `[]int`, then
`typeID` on `string`. -/
def idCallsExample : List IDCall :=
  [.typeID (sliceOfIntExample 1), .printTypeHash (sliceOfIntExample 2),
   .typeID { ptr := 3, ty := Ty.Basic BasicKind.String }]

/-- Four calls: `printTypeHash` on `[]int`, `typeID` on another object for
`[]int`, `printTypeHash` on `string`, and `printTypeHash` on `[]int` again. -/
def hashCallsExample : List IDCall :=
  [.printTypeHash (sliceOfIntExample 1), .typeID (sliceOfIntExample 2),
   .printTypeHash { ptr := 3, ty := Ty.Basic BasicKind.String },
   .printTypeHash (sliceOfIntExample 2)]

/-- A type object for the named type of declaration `obj` whose underlying type is the
empty interface. -/
def namedExample (ptr obj : Nat) : TypeObj :=
  { ptr := ptr, ty := Ty.Named obj (Ty.Interface 0) }

/-! ## `gen.go`: splicing the generated text into the source -/

/-- A byte of the source file. -/
abbrev Byte := Nat

/-- A `*token.File`: the range of positions `[base, base + size]` of one file. -/
structure TokenFile where
  base : Int
  size : Int
deriving DecidableEq, Repr

/-- The method `(*token.File).Offset`: the offset of position `p` in the file;
it panics for a position outside the file. -/
def TokenFile.Offset (f : TokenFile) (p : Int) : Option Int :=
  if p < f.base ∨ p > f.base + f.size then none else some (p - f.base)

/-- The slice expression `bs[lo:hi]`, a run-time panic unless `0 ≤ lo ≤ hi ≤ len(bs)`
(the capacity of the bytes read is taken to be their length). -/
def sliceBytes (bs : List Byte) (lo hi : Int) : Option (List Byte) :=
  if 0 ≤ lo ∧ lo ≤ hi ∧ hi ≤ bs.length then some ((bs.take hi.toNat).drop lo.toNat) else none

/-- The part of the struct `flow` that `GenerateFile` reads: the positions of
the `cff.Flow` call (`flow.Pos()`, `flow.End()`); `id` tells flows apart. -/
structure flow where
  id : Nat
  Pos : Int
  End : Int
deriving DecidableEq, Repr

/-- The loop of `GenerateFile` over `f.Flows`.  `generateFlow st fl` is the text
that `g.generateFlow` writes for `fl`, or its error, with the state `st` it
works on (type IDs, added imports).  The result is `none` for a run-time panic,
an error when `generateFlow` fails, and otherwise the buffer, `lastOff` and the
state after the last flow. -/
def generateFileLoop {σ : Type} (generateFlow : σ → flow → Except String (List Byte × σ))
    (posFile : TokenFile) (bs : List Byte) :
    List flow → List Byte → Int → σ → Option (Except String (List Byte × Int × σ))
  | [], buff, lastOff, st => some (.ok (buff, lastOff, st))
  | fl :: rest, buff, lastOff, st =>
    match posFile.Offset fl.Pos with
    | none => none
    | some off =>
      match sliceBytes bs lastOff off with
      | none => none
      | some seg =>
        match generateFlow st fl with
        | .error e => some (.error e)
        | .ok (text, st) =>
          match posFile.Offset fl.End with
          | none => none
          | some lastOff =>
            generateFileLoop generateFlow posFile bs rest (buff ++ seg ++ text) lastOff st

/-- The statement after the loop: write `bs[lastOff:]`. -/
def generateFileRest {σ : Type} (bs : List Byte) :
    Option (Except String (List Byte × Int × σ)) → Option (Except String (List Byte × σ))
  | none => none
  | some (.error e) => some (.error e)
  | some (.ok (buff, lastOff, st)) =>
    match sliceBytes bs lastOff bs.length with
    | none => none
    | some seg => some (.ok (buff ++ seg, st))

/-- The buffer that `GenerateFile` has built when it starts re-parsing, from the
bytes `bs` read from the source file. -/
def generateFileBuffer {σ : Type} (generateFlow : σ → flow → Except String (List Byte × σ))
    (posFile : TokenFile) (bs : List Byte) (flows : List flow) (st : σ) :
    Option (Except String (List Byte × σ)) :=
  generateFileRest bs (generateFileLoop generateFlow posFile bs flows [] 0 st)

/-- The texts generated for the flows, in order, or the first error. -/
def generatedTexts {σ : Type} (generateFlow : σ → flow → Except String (List Byte × σ)) :
    List flow → σ → Except String (List (List Byte) × σ)
  | [], st => .ok ([], st)
  | fl :: rest, st =>
    match generateFlow st fl with
    | .error e => .error e
    | .ok (text, st) =>
      match generatedTexts generateFlow rest st with
      | .error e => .error e
      | .ok (texts, st) => .ok (text :: texts, st)

/-- The bytes `bs` with the range `[lo, hi)` replaced by `text`. -/
def replaceRange (bs : List Byte) (lo hi : Nat) (text : List Byte) : List Byte :=
  bs.take lo ++ text ++ bs.drop hi

/-- The source with the byte range `[Pos, End)` of each flow call replaced by
the text paired with the flow; the sites are in ascending order and the last
one is replaced first, so that the offsets of the others still apply. -/
def spliceSpec (posFile : TokenFile) (bs : List Byte) : List (flow × List Byte) → List Byte
  | [] => bs
  | (fl, text) :: rest =>
    replaceRange (spliceSpec posFile bs rest)
      (fl.Pos - posFile.base).toNat (fl.End - posFile.base).toNat text

/-- The flows lie in `bs` in ascending source order without overlapping: each
starts at or after `lastOff`, the end of the one before, and ends within the
`len` bytes of the file. -/
def flowsInOrder (posFile : TokenFile) (len : Nat) : Int → List flow → Prop
  | lastOff, [] => lastOff ≤ len
  | lastOff, fl :: rest =>
    lastOff ≤ fl.Pos - posFile.base ∧ fl.Pos ≤ fl.End ∧ fl.End - posFile.base ≤ len ∧
      flowsInOrder posFile len (fl.End - posFile.base) rest

/-- A source of six bytes, parsed at base position 100. -/
def sourceExample : List Byte := [10, 11, 12, 13, 14, 15]

/-- The file of `sourceExample`. -/
def posFileExample : TokenFile := { base := 100, size := 6 }

/-- One flow call, at the positions 102 to 104 (offsets 2 to 4). -/
def flowsExample : List flow := [{ id := 0, Pos := 102, End := 104 }]

/-- A generator of text for the example: three bytes `7`, counting the flows in its state. -/
def generateFlowExample (st : Nat) (_fl : flow) : Except String (List Byte × Nat) :=
  .ok ([7, 7, 7], st + 1)

/-! ## `gen.go`: `GenerateFile` -/

/-- The predicate `unicode.IsSpace`. -/
def isSpace (c : Char) : Bool :=
  let n := c.toNat
  n = 9 || n = 10 || n = 11 || n = 12 || n = 13 || n = 32 || n = 133 || n = 160 ||
    n = 5760 || (8192 ≤ n && n ≤ 8202) || n = 8232 || n = 8233 || n = 8239 || n = 8287 ||
    n = 12288

/-- The function `strings.TrimSpace`. -/
def TrimSpace (s : String) : String :=
  String.mk (((s.data.dropWhile isSpace).reverse.dropWhile isSpace).reverse)

/-- The function `strings.TrimPrefix`. -/
def TrimPrefix (s pre : String) : String :=
  if pre.data.isPrefixOf s.data then String.mk (s.data.drop pre.data.length) else s

/-- An `*ast.Comment`: the position of its slash and its text. -/
structure Comment where
  Slash : Int
  Text : String
deriving DecidableEq, Repr

/-- An `*ast.CommentGroup`. -/
structure CommentGroup where
  List : List Comment
deriving DecidableEq, Repr

/-- The method `(*ast.CommentGroup).Pos`, the position of the first comment; an
index out of range for an empty group. -/
def CommentGroup.Pos (cg : CommentGroup) : Option Int :=
  match cg.List with
  | c :: _ => some c.Slash
  | [] => none

/-- The `*ast.File` parsed from the buffer: the position of the package
keyword, the comment groups, and the rest of the tree. -/
structure AstFile where
  Package : Int
  Comments : List CommentGroup
  tree : Nat
deriving DecidableEq, Repr

/-- The inner loop of the build-tag rewriting over `cg.List`: the first comment
whose trimmed text is `+build cff` gets a new text, and the loop breaks. -/
def rewriteComments : List Comment → List Comment
  | [] => []
  | c :: rest =>
    if TrimSpace (TrimPrefix c.Text "//") = "+build cff" then
      { c with Text := "// @g" ++ "enerated by CFF" } :: rest
    else
      c :: rewriteComments rest

/-- The outer loop of the build-tag rewriting over `file.Comments`: it stops at
the first group that does not precede the package clause. -/
def rewriteBuildTags (package : Int) : List CommentGroup → Option (List CommentGroup)
  | [] => some []
  | cg :: rest =>
    match cg.Pos with
    | none => none
    | some pos =>
      if pos ≥ package then
        some (cg :: rest)
      else
        (rewriteBuildTags package rest).map
          (fun r => { cg with List := rewriteComments cg.List } :: r)

/-- The map `addImports`: import path to name, the empty name for an implicit one. -/
abbrev AddImports := List (String × String)

/-- The struct `file` of the compiler, as far as the generator reads it:
`posFile` is `g.fset.File(f.AST.Pos())` and `posName` its `Name()`. -/
structure file where
  Filepath : String
  Flows : List flow
  posFile : TokenFile
  posName : String
  UnnamedImports : List String
  Imports : String → List String

/-- An effect of `GenerateFile` on the file system. -/
inductive FileOp where
  | ReadFile (path : String)
  | WriteFile (path : String) (data : List Byte)
  | TempFile (name : String)
  | WriteTo (name : String) (data : List Byte)
deriving DecidableEq, Repr

/-- The file-system effects so far, oldest first. -/
structure World where
  ops : List FileOp
deriving DecidableEq, Repr

/-- Record one effect. -/
def World.log (w : World) (op : FileOp) : World :=
  { ops := w.ops ++ [op] }

/-- What `GenerateFile` calls outside `gen.go`: the file system (`ioutil`), the
template run of `generateFlow`, `go/parser`, `astutil`, `sort.Strings` and
`go/format`.  `formatNode` gives the bytes written to the buffer and the error. -/
structure GenEnv where
  ReadFile : String → Except String (List Byte)
  generateFlow : file → generator × AddImports → flow →
    Except String (List Byte × (generator × AddImports))
  ParseFile : String → List Byte → Except String AstFile
  TempFile : Except String String
  WriteTo : String → List Byte → Option String
  DeleteImport : AstFile → String → AstFile
  DeleteNamedImport : AstFile → String → String → AstFile
  AddNamedImport : AstFile → String → String → AstFile
  sortStrings : List String → List String
  formatNode : AstFile → List Byte × Option String
  WriteFile : String → List Byte → Option String

/-- The method `generator.GenerateFile`: the error it returns (nil is `none`)
and the file-system effects; the outer `none` is a run-time panic. -/
def GenerateFile (env : GenEnv) (g : generator) (f : file) (w : World) :
    Option (Option String × World) :=
  if f.Flows.length = 0 then
    some (none, w)
  else
    let w := w.log (.ReadFile f.Filepath)
    match env.ReadFile f.Filepath with
    | .error e => some (some e, w)
    | .ok bs =>
      match generateFileBuffer (env.generateFlow f) f.posFile bs f.Flows (g, []) with
      | none => none
      | some (.error e) => some (some e, w)
      | some (.ok (buff, st)) =>
        match env.ParseFile f.posName buff with
        | .error err =>
          match env.TempFile with
          | .error _ => some (some err, w)
          | .ok tmp =>
            let w := w.log (.TempFile tmp)
            let w := w.log (.WriteTo tmp buff)
            match env.WriteTo tmp buff with
            | some _ => some (some err, w)
            | none => some (some (err ++ "\noutputted temporary file to " ++ tmp), w)
        | .ok parsed =>
          let parsed :=
            if cffImportPath ∈ f.UnnamedImports then env.DeleteImport parsed cffImportPath
            else parsed
          let parsed := (f.Imports cffImportPath).foldl
            (fun p name => env.DeleteNamedImport p name cffImportPath) parsed
          let newImports := env.sortStrings (st.2.map Prod.fst)
          let parsed := newImports.foldl
            (fun p importPath =>
              env.AddNamedImport p ((st.2.lookup importPath).getD "") importPath) parsed
          match rewriteBuildTags parsed.Package parsed.Comments with
          | none => none
          | some comments =>
            let parsed := { parsed with Comments := comments }
            let out := (env.formatNode parsed).1
            let w := w.log (.WriteFile g.outputPath out)
            some (env.WriteFile g.outputPath out, w)

/-- A file with no flows. -/
def fileNoFlowsExample : file :=
  { Filepath := "a.go", Flows := [], posFile := { base := 1, size := 0 }, posName := "a.go",
    UnnamedImports := [], Imports := fun _ => [] }

/-- Surroundings in which nothing can be read and every write fails. -/
def genEnvExample : GenEnv :=
  { ReadFile := fun _ => .error "no such file",
    generateFlow := fun _ st _ => .ok ([], st),
    ParseFile := fun _ _ => .error "parse error",
    TempFile := .error "no temporary file",
    WriteTo := fun _ _ => some "write failed",
    DeleteImport := fun p _ => p,
    DeleteNamedImport := fun p _ _ => p,
    AddNamedImport := fun p _ _ => p,
    sortStrings := fun l => l,
    formatNode := fun _ => ([], none),
    WriteFile := fun _ _ => some "write failed" }

/-- Comment groups of a file whose build constraint `// +build cff` stands at
position 1, before the package clause at position 30. -/
def buildTagCommentsExample : List CommentGroup :=
  [{ List := [{ Slash := 1, Text := "// +build cff" }] }]

/-- The function `filepath.Base` for slash-separated paths: the last element of
the path, `.` for the empty path and `/` for a path of slashes only. -/
def Base (path : String) : String :=
  if path = "" then
    "."
  else
    let stripped := (path.data.reverse.dropWhile (fun c => c = '/')).reverse
    let last := (stripped.reverse.takeWhile (fun c => c ≠ '/')).reverse
    if last = [] then "/" else String.mk last

/-- The template function `import` that `generateFlow` registers, with the map
`addImports` it updates. -/
def importFunc (f : file) (addImports : AddImports) (importPath : String) :
    String × AddImports :=
  match f.Imports importPath with
  | n :: _ => (n, addImports)
  | [] =>
    let name := (addImports.lookup importPath).getD ""
    let addImports :=
      if (addImports.lookup importPath).isSome then addImports
      else addImports ++ [(importPath, "")]
    let name := if name = "" then Base importPath else name
    (name, addImports)

/-- A file that imports `context` under the names `ctx` and `context`. -/
def fileImportsExample : file :=
  { Filepath := "a.go", Flows := [], posFile := { base := 1, size := 0 }, posName := "a.go",
    UnnamedImports := [],
    Imports := fun p => if p = "context" then ["ctx", "context"] else [] }

/-! ## `process.go` -/

/-- The generation mode, as far as `Process` asks: the result of `Modifier()`. -/
structure GenerationMode where
  Modifier : Bool
deriving DecidableEq, Repr

/-- The struct `Processor` (the file set is not modelled). -/
structure Processor where
  InstrumentAllTasks : Bool
  GenMode : GenerationMode
deriving DecidableEq, Repr

/-- What `Process` calls outside `process.go` and `gen.go`: the compiler
(`newCompiler(...).CompileFile`, which gives a compiled file or an error for the
source file numbered `src`) and the generator of the modifier mode
(`newGeneratorV2(...).GenerateFile`, with its output path). -/
structure ProcessEnv where
  CompileFile : Processor → Nat → Except String file
  GenerateFileV2 : String → file → World → Option (Option String × World)
  gen : GenEnv

/-- The method `Processor.Process`. -/
def Process (env : ProcessEnv) (p : Processor) (src : Nat) (outputPath : String) (w : World) :
    Option (Option String × World) :=
  match env.CompileFile p src with
  | .error err => some (some err, w)
  | .ok f =>
    if p.GenMode.Modifier then
      match env.GenerateFileV2 outputPath f w with
      | none => none
      | some (some err, w) => some (some err, w)
      | some (none, w) => some (none, w)
    else
      match GenerateFile env.gen (newGenerator outputPath) f w with
      | none => none
      | some (some err, w) => some (some err, w)
      | some (none, w) => some (none, w)

/-- Surroundings in which the compiler reports an error for every file. -/
def processEnvExample : ProcessEnv :=
  { CompileFile := fun _ _ => .error "a.go:3:2: cff.Instrument requires a cff.Emitter",
    GenerateFileV2 := fun path _ w => some (none, w.log (.WriteFile path [])),
    gen := genEnvExample }

/-! ## The generated flow code (`examples/magic_gen.go`) -/

/-- A value held by a variable of the generated code; `0` is the zero value. -/
abbrev Val := Nat

/-- A call on a task emitter or on the flow emitter, with the task it is for. -/
inductive Event where
  | TaskSuccess (task : Nat)
  | TaskError (task : Nat) (err : String)
  | TaskErrorRecovered (task : Nat) (err : String)
  | TaskPanic (task : Nat) (v : String)
  | TaskPanicRecovered (task : Nat) (v : String)
  | TaskSkipped (task : Nat) (err : Option String)
  | TaskDone (task : Nat)
  | FlowSuccess
  | FlowError (err : String)
  | FlowDone
deriving DecidableEq, Repr

/-- How a call of the user's function ends: it returns its outputs and an error
(nil is `none`), or it panics with a value, given by its `%v` form. -/
inductive CallResult where
  | returned (out : List Val) (err : Option String)
  | panicked (v : String)
deriving DecidableEq, Repr

/-- A task of the generated code: the variables its function reads and assigns,
whether the function returns an error, the predicate variable that gates it,
the values of `FallbackWith`, and the user's function. -/
structure FlowTask where
  id : Nat
  inputs : List Nat
  outputs : List Nat
  hasError : Bool
  predicate : Option Nat
  fallback : Option (List Val)
  fn : List Val → CallResult

/-- The variables of the flow function: the values `v1, v2, ...`, the predicate
results `p0, ...`, the `ran` flag of each task, and the emitter calls so far. -/
structure FlowState where
  vars : Nat → Val
  preds : Nat → Bool
  ran : Nat → Bool
  events : List Event

/-- Call the emitter. -/
def FlowState.emit (st : FlowState) (e : Event) : FlowState :=
  { st with events := st.events ++ [e] }

/-- The assignment `x1, x2, ... = v1, v2, ...`. -/
def assign (vars : Nat → Val) : List Nat → List Val → Nat → Val
  | x :: xs, v :: vs => assign (Function.update vars x v) xs vs
  | _, _ => vars

/-- How the body of a function ends: with a `return`, or panicking. -/
inductive Exit where
  | returning (err : Option String)
  | panicking (v : String)
deriving DecidableEq, Repr

/-- The deferred calls of `task.run`, in the order of their `defer` statements. -/
inductive Deferred where
  | TaskDone
  | recover
  | ranStore
deriving DecidableEq, Repr

/-- Run one deferred call of `task.run`; `err` is the named result. -/
def runDeferred (t : FlowTask) : Deferred → Exit × FlowState → Exit × FlowState
  | .TaskDone, (x, st) => (x, if st.ran t.id then st.emit (.TaskDone t.id) else st)
  | .recover, (.returning err, st) => (.returning err, st)
  | .recover, (.panicking v, st) =>
    match t.fallback with
    | none => (.returning (some ("task panic: " ++ v)), st.emit (.TaskPanic t.id v))
    | some fb =>
      (.returning none,
        { st.emit (.TaskPanicRecovered t.id v) with vars := assign st.vars t.outputs fb })
  | .ranStore, (x, st) => (x, { st with ran := Function.update st.ran t.id true })

/-- The body of `task.run`: the deferred calls registered, how the body ends,
and the state it leaves. -/
def taskBody (t : FlowTask) (st : FlowState) : List Deferred × Exit × FlowState :=
  let gated :=
    match t.predicate with
    | some p => !st.preds p
    | none => false
  if gated then
    ([.TaskDone, .recover], .returning none, st)
  else
    match t.fn (t.inputs.map st.vars) with
    | .panicked v => ([.TaskDone, .recover, .ranStore], .panicking v, st)
    | .returned out err =>
      let st := { st with vars := assign st.vars t.outputs out }
      match (if t.hasError then err else none) with
      | some e =>
        match t.fallback with
        | none =>
          ([.TaskDone, .recover, .ranStore], .returning (some e), st.emit (.TaskError t.id e))
        | some fb =>
          ([.TaskDone, .recover, .ranStore], .returning none,
            { st.emit (.TaskErrorRecovered t.id e) with vars := assign st.vars t.outputs fb })
      | none =>
        ([.TaskDone, .recover, .ranStore], .returning none, st.emit (.TaskSuccess t.id))

/-- The function `task.run`: the body, then the deferred calls, last one first. -/
def runTask (t : FlowTask) (st : FlowState) : Exit × FlowState :=
  let b := taskBody t st
  b.1.reverse.foldl (fun acc d => runDeferred t d acc) (b.2.1, b.2.2)

/-- A predicate of the generated code: the variable it sets and its function. -/
structure FlowPredicate where
  var : Nat
  inputs : List Nat
  fn : List Val → Bool

/-- The function `pred.run`. -/
def runPredicate (p : FlowPredicate) (st : FlowState) : FlowState :=
  { st with preds := Function.update st.preds p.var (p.fn (p.inputs.map st.vars)) }

/-- A job handed to `sched.Enqueue`. -/
inductive Job where
  | task (t : FlowTask)
  | predicate (p : FlowPredicate)

/-- Run one job; the result is the error it returns to the scheduler. -/
def Job.run : Job → FlowState → Exit × FlowState
  | .task t, st => runTask t st
  | .predicate p, st => (.returning none, runPredicate p st)

/-- Modelled from the spec: the scheduler of the runtime library
(`cff.BeginFlow`, `Enqueue`, `Wait`) is not among the sources.  Every job is
executed once, after the jobs it depends on, which were enqueued before it;
here jobs run one at a time in enqueue order.  After the first error no new job
starts and `Wait` returns that error; with a cancelled context (`ctxErr`) no
job is started and `Wait` returns the context's error. -/
def scheduleJobs : List Job → FlowState → Option String × FlowState
  | [], st => (none, st)
  | j :: rest, st =>
    match j.run st with
    | (.returning none, st) => scheduleJobs rest st
    | (.returning (some e), st) => (some e, st)
    | (.panicking v, st) => (some ("panic: " ++ v), st)

/-- Modelled from the spec: `sched.Wait(ctx)` of the runtime library, see `scheduleJobs`. -/
def schedWait (ctxErr : Option String) (jobs : List Job) (st : FlowState) :
    Option String × FlowState :=
  match ctxErr with
  | some e => (some e, st)
  | none => scheduleJobs jobs st

/-- A generated flow function: its jobs in enqueue order, and for each declared
output the caller's variable and the flow variable assigned to it. -/
structure Flow where
  jobs : List Job
  results : List (Nat × Nat)

/-- The slice `tasks` of the flow function: the tasks in enqueue order. -/
def Flow.tasks (fl : Flow) : List FlowTask :=
  fl.jobs.filterMap (fun j => match j with
    | .task t => some t
    | .predicate _ => none)

/-- The first deferred function of the flow: `TaskSkipped` for each task that did not run. -/
def skippedEvents (tasks : List FlowTask) (ran : Nat → Bool) (err : Option String) :
    List Event :=
  (tasks.filter (fun t => !ran t.id)).map (fun t => Event.TaskSkipped t.id err)

/-- The end of the flow function, from `sched.Wait` on: given what `Wait`
returned, the error of the flow, the caller's variables and the state.  The two
deferred functions run after the body, last one first: the loop over `tasks`,
then `FlowDone`. -/
def flowEpilogue (fl : Flow) (waitErr : Option String) (st : FlowState) (dest : Nat → Val) :
    Option String × (Nat → Val) × FlowState :=
  let body : Option String × (Nat → Val) × FlowState :=
    match waitErr with
    | some e => (some e, dest, st.emit (.FlowError e))
    | none =>
      (none, assign dest (fl.results.map Prod.fst) (fl.results.map (fun r => st.vars r.2)),
        st.emit .FlowSuccess)
  let st := body.2.2
  let st := { st with events := st.events ++ skippedEvents fl.tasks st.ran body.1 }
  (body.1, body.2.1, st.emit .FlowDone)

/-- The flow function from the first `Enqueue` on. -/
def runFlow (fl : Flow) (ctxErr : Option String) (st : FlowState) (dest : Nat → Val) :
    Option String × (Nat → Val) × FlowState :=
  let s := schedWait ctxErr fl.jobs st
  flowEpilogue fl s.1 s.2 dest

/-- The state at the start of a flow function whose inputs hold `vars`. -/
def initialState (vars : Nat → Val) : FlowState :=
  { vars := vars, preds := fun _ => false, ran := fun _ => false, events := [] }

/-! ### The flow of `HandleFoo`, with numbers for its values -/

/-- The task `task0`: `v2, v3` from the request `v1`. -/
def task0Example : FlowTask :=
  { id := 0, inputs := [1], outputs := [2, 3], hasError := false, predicate := none,
    fallback := none, fn := fun args => .returned [args.headD 0, args.headD 0] none }

/-- The task `task1`: `v4, err = h.mgr.Get(v2)`, whose call ends as `call`. -/
def task1Example (call : CallResult) : FlowTask :=
  { id := 1, inputs := [2], outputs := [4], hasError := true, predicate := none,
    fallback := none, fn := fun _ => call }

/-- The task `task4`: `v5, err = h.users.List(v3)` with `FallbackWith`, whose call ends as `call`. -/
def task4Example (call : CallResult) : FlowTask :=
  { id := 4, inputs := [3], outputs := [5], hasError := true, predicate := none,
    fallback := some [60], fn := fun _ => call }

/-- The predicate `pred1`: the group of `v2` is not the group numbered 7. -/
def pred1Example : FlowPredicate :=
  { var := 0, inputs := [2], fn := fun args => args.headD 0 != 7 }

/-- The task `task5`: `v6` from `v4, v5`, gated by `p0`. -/
def task5Example : FlowTask :=
  { id := 5, inputs := [4, 5], outputs := [6], hasError := false, predicate := some 0,
    fallback := none, fn := fun args => .returned [args.sum] none }

/-- The task `task2`: `v7, err = h.ses.BatchSendEmail(v6)`. -/
def task2Example : FlowTask :=
  { id := 2, inputs := [6], outputs := [7], hasError := true, predicate := none,
    fallback := none, fn := fun args => .returned [args.headD 0 + 100] none }

/-- The task `task3`: `v8` from `v7`. -/
def task3Example : FlowTask :=
  { id := 3, inputs := [7], outputs := [8], hasError := false, predicate := none,
    fallback := none, fn := fun args => .returned [args.headD 0 + 1000] none }

/-- The flow of `HandleFoo`: the jobs in the order of their `Enqueue`, and the
result `res` (the caller's variable 0) taken from `v8`. -/
def handleFooExample : Flow :=
  { jobs := [.task task0Example, .task (task1Example (.returned [50] none)),
             .task (task4Example (.returned [2] none)), .predicate pred1Example,
             .task task5Example, .task task2Example, .task task3Example],
    results := [(0, 8)] }

/-- The request `v1` of a group: group 7 makes the predicate false. -/
def requestExample (group : Nat) : Nat → Val :=
  fun x => if x = 1 then group else 0

/-! ## The emitter stack -/

/-- An info record (`FlowInfo`, `TaskInfo`, `DirectiveInfo`): name, file, line, column. -/
structure Info where
  Name : String
  File : String
  Line : Int
  Column : Int
deriving DecidableEq, Repr

/-- A method of a flow emitter that returns nothing, with its arguments. -/
inductive FlowSignal where
  | FlowSuccess
  | FlowError (err : String)
  | FlowSkipped (err : String)
  | FlowDone (elapsed : Nat)
deriving DecidableEq, Repr

/-- A method of a task emitter, with its arguments. -/
inductive TaskSignal where
  | TaskSuccess
  | TaskError (err : String)
  | TaskErrorRecovered (err : String)
  | TaskSkipped (err : String)
  | TaskPanic (v : String)
  | TaskPanicRecovered (v : String)
  | TaskRecovered (v : String)
  | TaskDone (elapsed : Nat)
deriving DecidableEq, Repr

/-- A method call received by a member: an emitter, a flow emitter or a task
emitter, each named by a number. -/
inductive EmitterCall where
  | FlowInit (emitter : Nat) (info : Info)
  | TaskInit (emitter : Nat) (task : Info) (directive : Info)
  | flow (flowEmitter : Nat) (signal : FlowSignal)
  | FlowFailedTask (flowEmitter : Nat) (task : String) (err : String)
  | task (taskEmitter : Nat) (signal : TaskSignal)
deriving DecidableEq, Repr

/-- What the members return: the flow emitter of `FlowInit`, the task emitter of
`TaskInit`, and the replacement flow emitter of `FlowFailedTask`. -/
structure Members where
  FlowInit : Nat → Info → Nat
  TaskInit : Nat → Info → Info → Nat
  FlowFailedTask : Nat → String → String → Nat

/-- Modelled from the spec: the emitter stack (`cff.MetricsEmitterStack`,
`cff.EmitterStack`) is not among the sources, only its test is.  A stack is the
list of its members; a method that returns an emitter calls the method on each
member in order and returns the stack of what the members returned.  The result
is the stack returned and the calls received so far. -/
def stackInit (call : Nat → EmitterCall) (ret : Nat → Nat) :
    List Nat → List Nat × List EmitterCall → List Nat × List EmitterCall
  | [], acc => acc
  | e :: rest, (out, calls) => stackInit call ret rest (out ++ [ret e], calls ++ [call e])

/-- Modelled from the spec: a method of a stack that returns nothing calls the
method on each member in order. -/
def stackSignal (call : Nat → EmitterCall) : List Nat → List EmitterCall → List EmitterCall
  | [], calls => calls
  | e :: rest, calls => stackSignal call rest (calls ++ [call e])

/-- Modelled from the spec: `FlowInit` on an emitter stack. -/
def stackFlowInit (m : Members) (stack : List Nat) (info : Info) (calls : List EmitterCall) :
    List Nat × List EmitterCall :=
  stackInit (fun e => .FlowInit e info) (fun e => m.FlowInit e info) stack ([], calls)

/-- Modelled from the spec: `TaskInit` on an emitter stack. -/
def stackTaskInit (m : Members) (stack : List Nat) (task directive : Info)
    (calls : List EmitterCall) : List Nat × List EmitterCall :=
  stackInit (fun e => .TaskInit e task directive) (fun e => m.TaskInit e task directive) stack
    ([], calls)

/-- Modelled from the spec: `FlowFailedTask` on a stack of flow emitters. -/
def stackFlowFailedTask (m : Members) (flows : List Nat) (task err : String)
    (calls : List EmitterCall) : List Nat × List EmitterCall :=
  stackInit (fun f => .FlowFailedTask f task err) (fun f => m.FlowFailedTask f task err) flows
    ([], calls)

/-- Modelled from the spec: a signal on a stack of flow emitters. -/
def stackFlowSignal (flows : List Nat) (signal : FlowSignal) (calls : List EmitterCall) :
    List EmitterCall :=
  stackSignal (fun f => .flow f signal) flows calls

/-- Modelled from the spec: a signal on a stack of task emitters. -/
def stackTaskSignal (tasks : List Nat) (signal : TaskSignal) (calls : List EmitterCall) :
    List EmitterCall :=
  stackSignal (fun t => .task t signal) tasks calls

/-- The members of the test: the emitters 1 and 2 return the flow emitters 11
and 12 and the task emitters 21 and 22; a flow emitter `f` is replaced by
`f + 100` when a task fails. -/
def membersExample : Members :=
  { FlowInit := fun e _ => e + 10,
    TaskInit := fun e _ _ => e + 20,
    FlowFailedTask := fun f _ _ => f + 100 }

/-! ## `cmd/cff/main.go`: the `--file` option -/

/-- The scan of `strings.IndexByte` from position `k` on. -/
def indexByteFrom (c : Char) : List Char → Nat → Int
  | [], _ => -1
  | x :: xs, k => if x = c then (k : Int) else indexByteFrom c xs (k + 1)

/-- The function `strings.IndexByte`: the index of the first `c` in `s`, or `-1`.
The only byte looked for is `=`, an ASCII character, so positions are counted
in characters. -/
def IndexByte (s : String) (c : Char) : Int :=
  indexByteFrom c s.data 0

/-- A Go `string`. -/
abbrev GoString := String

/-- The struct `file` of package `main`, the value of the `--file` option. -/
structure Main.file where
  Name : String
  OutputPath : String
deriving DecidableEq, Repr

/-- The method `file.String`. -/
def Main.file.String (f : Main.file) : GoString :=
  if f.OutputPath.length = 0 then f.Name else f.Name ++ "=" ++ f.OutputPath

/-- The first statement of `UnmarshalFlag`: the values of `name` and `output`
after the split at the first `=`. -/
def Main.splitFlag (name : String) : String × String :=
  let i := IndexByte name '='
  if i ≥ 0 then
    (String.mk (name.data.take i.toNat), String.mk (name.data.drop (i.toNat + 1)))
  else
    (name, "")

/-- The method `file.UnmarshalFlag`: the error (nil is `none`) and the receiver afterwards. -/
def Main.file.UnmarshalFlag (f : Main.file) (name : GoString) :
    Option GoString × Main.file :=
  let parts := Main.splitFlag name
  if parts.1.length = 0 then
    (some "file name cannot be empty", f)
  else
    (none, { f with Name := parts.1, OutputPath := parts.2 })

/-- Two values of the `--file` option. -/
def fileOptionExample : Main.file := { Name := "foo.go", OutputPath := "_gen/foo=1.go" }

/-- The parsed file of `GenerateFile` after its import edits: the cff import
deleted, the added imports inserted in sorted order. -/
def importsEdited (env : GenEnv) (f : file) (addImports : AddImports) (parsed : AstFile) :
    AstFile :=
  (env.sortStrings (addImports.map Prod.fst)).foldl
    (fun p importPath =>
      env.AddNamedImport p ((addImports.lookup importPath).getD "") importPath)
    ((f.Imports cffImportPath).foldl
      (fun p name => env.DeleteNamedImport p name cffImportPath)
      (if cffImportPath ∈ f.UnnamedImports then env.DeleteImport parsed cffImportPath
       else parsed))

/-- A file with one flow, at the positions 102 to 104 of `sourceExample`. -/
def fileOneFlowExample : file :=
  { Filepath := "a.go", Flows := flowsExample, posFile := posFileExample, posName := "a.go",
    UnnamedImports := [], Imports := fun _ => [] }

/-- Surroundings in which formatting fails after writing the bytes `[1, 2]`,
and the write of the output file succeeds. -/
def genEnvFormatFailsExample : GenEnv :=
  { ReadFile := fun _ => .ok sourceExample,
    generateFlow := fun _ st _ => .ok ([7, 7, 7], st),
    ParseFile := fun _ _ => .ok { Package := 1, Comments := [], tree := 0 },
    TempFile := .error "no temporary file",
    WriteTo := fun _ _ => none,
    DeleteImport := fun p _ => p,
    DeleteNamedImport := fun p _ _ => p,
    AddNamedImport := fun p _ _ => p,
    sortStrings := fun l => l,
    formatNode := fun _ => ([1, 2], some "format: invalid syntax tree"),
    WriteFile := fun _ _ => none }

/-! ## `cmd/cff/main.go`: `run` -/

/-- The function `filepath.Ext` for slash-separated paths: the suffix of the
last element of the path that begins at its final dot, empty without a dot. -/
def Ext (path : String) : String :=
  let last := path.data.reverse.takeWhile (fun c => c ≠ '/')
  if '.' ∈ last then String.mk ('.' :: (last.takeWhile (fun c => c ≠ '.')).reverse) else ""

/-- The function `strings.TrimSuffix`. -/
def TrimSuffix (s suffix : String) : String :=
  if suffix.data.isSuffixOf s.data then
    String.mk (s.data.take (s.data.length - suffix.data.length))
  else
    s

/-- A package given by the loader: the paths of its compiled Go files and the
syntax tree of each, by number. -/
structure LoadedPackage where
  CompiledGoFiles : List String
  Syntax : List Nat
deriving DecidableEq, Repr

/-- The struct `options`. -/
structure Main.options where
  Files : List Main.file
  InstrumentAllTasks : Bool
  GenMode : GenerationMode
  Quiet : Bool
  ImportPath : String
deriving DecidableEq, Repr

/-- A call of `log.Printf`: the format and its integer arguments. -/
structure Printf where
  format : String
  args : List Int
deriving DecidableEq, Repr

/-- A call of `processor.Process` made by `run`: the path of the file, its
syntax tree, the output path, and the error returned. -/
structure ProcessCall where
  path : String
  src : Nat
  output : String
  result : Option String
deriving DecidableEq, Repr

/-- What `run` does to the outside: the file-system effects of `Process`,
the import paths handed to `loader.Load`, the lines logged, and the calls of
`Process` with their results. -/
structure RunState where
  world : World
  loads : List String
  printed : List Printf
  calls : List ProcessCall
deriving DecidableEq, Repr

/-- What `run` calls outside `main.go`: the loader factory (`RegisterFlags`
gives an error or none), the flag parser, the loader, `filepath.Dir`,
`filepath.Join`, and the surroundings of `Process`. -/
structure Main.RunEnv where
  RegisterFlags : Option String
  ParseArgs : List String → Except String Main.options
  Load : String → Except String (List LoadedPackage)
  Dir : String → String
  Join : String → String → String
  proc : ProcessEnv

/-- The verb `%v` on a `file` value: `String` has a pointer receiver, so the
struct is printed field by field. -/
def Main.fmtV (f : Main.file) : String :=
  "\x7b" ++ f.Name ++ " " ++ f.OutputPath ++ "\x7d"

/-- The loop of `run` that fills the map `outputs`; the error is the `--file`
value whose name was already a key. -/
def Main.buildOutputs :
    List Main.file → List (String × String) → Except Main.file (List (String × String))
  | [], outputs => .ok outputs
  | f :: rest, outputs =>
    if (outputs.lookup f.Name).isSome then .error f
    else Main.buildOutputs rest (outputs ++ [(f.Name, f.OutputPath)])

/-- The output path `run` hands to `Process` for the compiled file `path`. -/
def Main.outputPath (env : Main.RunEnv) (outputs : List (String × String)) (path : String) :
    String :=
  let name := Base path
  let output := (outputs.lookup name).getD ""
  if output.length = 0 then
    env.Join (env.Dir path) (TrimSuffix name (Ext name) ++ "_gen.go")
  else
    output

/-- The files of one package in the order of the inner loop of `run`: each path
with `pkg.Syntax[i]`, which is `none` when the index is out of range. -/
def Main.packageFiles : List String → List Nat → List (String × Option Nat)
  | [], _ => []
  | path :: rest, syntaxes => (path, syntaxes.head?) :: Main.packageFiles rest syntaxes.tail

/-- The files of all packages in the order of the two loops of `run`. -/
def Main.compiledFiles : List LoadedPackage → List (String × Option Nat)
  | [] => []
  | pkg :: rest =>
    Main.packageFiles pkg.CompiledGoFiles pkg.Syntax ++ Main.compiledFiles rest

/-- The variables of the loops of `run`. -/
structure Main.LoopState where
  processed : Int
  errored : Int
  err : List String
  rs : RunState

/-- The loops of `run` over the compiled files.  The error `err` is the list of
the errors combined by `multierr.Append`, the empty list being nil. -/
def Main.runLoop (env : Main.RunEnv) (processor : Processor) (hadFiles : Bool)
    (outputs : List (String × String)) :
    List (String × Option Nat) → Main.LoopState → Option Main.LoopState
  | [], s => some s
  | (path, syn) :: rest, s =>
    let name := Base path
    if hadFiles && !(outputs.lookup name).isSome then
      Main.runLoop env processor hadFiles outputs rest s
    else
      let output := Main.outputPath env outputs path
      let processed := wrapInt (s.processed + 1)
      match syn with
      | none => none
      | some src =>
        match Process env.proc processor src output s.rs.world with
        | none => none
        | some (perr, w) =>
          let rs := { s.rs with world := w,
                                calls := s.rs.calls ++ [{ path := path, src := src,
                                                          output := output, result := perr }] }
          match perr with
          | some e =>
            Main.runLoop env processor hadFiles outputs rest
              { processed := processed, errored := wrapInt (s.errored + 1),
                err := s.err ++ [e], rs := rs }
          | none =>
            Main.runLoop env processor hadFiles outputs rest
              { processed := processed, errored := s.errored, err := s.err, rs := rs }

/-- The function `run`: the error returned, as the list of the errors it
combines (nil is the empty list), and the effects.  The outer `none` is a
panic, which the deferred function reports and raises again. -/
def Main.run (env : Main.RunEnv) (args : List String) (rs : RunState) :
    Option (List String × RunState) :=
  match env.RegisterFlags with
  | some err => some ([err], rs)
  | none =>
    match env.ParseArgs args with
    | .error err => some ([err], rs)
    | .ok f =>
      match Main.buildOutputs f.Files [] with
      | .error dup =>
        some (["invalid argument --file=" ++ Main.fmtV dup ++
          ": file already specified before"], rs)
      | .ok outputs =>
        let rs := { rs with loads := rs.loads ++ [f.ImportPath] }
        match env.Load f.ImportPath with
        | .error err => some (["load packages: " ++ err], rs)
        | .ok pkgs =>
          let processor : Processor :=
            { InstrumentAllTasks := f.InstrumentAllTasks, GenMode := f.GenMode }
          let hadFiles := decide (f.Files.length > 0)
          match Main.runLoop env processor hadFiles outputs (Main.compiledFiles pkgs)
              { processed := 0, errored := 0, err := [], rs := rs } with
          | none => none
          | some s =>
            if !f.Quiet then
              some (s.err, { s.rs with printed := s.rs.printed ++
                [{ format := "Processed %d files with %d errors",
                   args := [s.processed, s.errored] }] })
            else
              some (s.err, s.rs)

/-- Whether `run` hands the compiled file `x` to `Process`: no `--file` option
was given, or the base name of the path is a key of `outputs`. -/
def Main.selected (hadFiles : Bool) (outputs : List (String × String))
    (x : String × Option Nat) : Bool :=
  !(hadFiles && !(outputs.lookup (Base x.1)).isSome)

/-- Surroundings of `Process` in which the compiler reports an error for the
files numbered 1 and 3 and the generator of the modifier mode writes the
output of every other file. -/
def processEnvMixedExample : ProcessEnv :=
  { CompileFile := fun _ src =>
      if src = 1 then .error "x/y/a.go:3:2: cff.Instrument requires a cff.Emitter"
      else if src = 3 then .error "x/z/c.go:9:4: cff.Parallel expects at least one function"
      else .ok fileNoFlowsExample,
    GenerateFileV2 := fun path _ w => some (none, w.log (.WriteFile path [])),
    gen := genEnvExample }

/-- On a clean relative path with a directory part, what `filepath.Dir` gives:
the path without its last element and the slash before it. -/
def dirExample (path : String) : String :=
  String.mk ((path.data.reverse.dropWhile (fun c => c ≠ '/')).drop 1).reverse

/-- On a clean directory and a file name, what `filepath.Join` gives. -/
def joinExample (dir name : String) : String :=
  dir ++ "/" ++ name

/-- Two packages of two compiled files each; the last file is not a `.go`
file. -/
def packagesExample : List LoadedPackage :=
  [{ CompiledGoFiles := ["x/y/a.go", "x/y/b.go"], Syntax := [1, 2] },
   { CompiledGoFiles := ["x/z/c.go", "x/z/d.txt"], Syntax := [3, 4] }]

/-- The options of `cff --file=b.go --file=c.go=out/c.go example.com/pkg`. -/
def optionsExample : Main.options :=
  { Files := [⟨"b.go", ""⟩, ⟨"c.go", "out/c.go"⟩], InstrumentAllTasks := false,
    GenMode := { Modifier := true }, Quiet := false, ImportPath := "example.com/pkg" }

/-- The options of `cff example.com/pkg`. -/
def optionsAllFilesExample : Main.options :=
  { Files := [], InstrumentAllTasks := false,
    GenMode := { Modifier := true }, Quiet := false, ImportPath := "example.com/pkg" }

/-- The options of `cff --file=a.go --file=a.go=b.go example.com/pkg`. -/
def optionsDuplicateExample : Main.options :=
  { Files := [⟨"a.go", ""⟩, ⟨"a.go", "b.go"⟩], InstrumentAllTasks := false,
    GenMode := { Modifier := true }, Quiet := false, ImportPath := "example.com/pkg" }

/-- Surroundings of `run` in which the arguments parse to `opts` and the loader
gives `packagesExample`. -/
def runEnvExample (opts : Main.options) : Main.RunEnv :=
  { RegisterFlags := none,
    ParseArgs := fun _ => .ok opts,
    Load := fun _ => .ok packagesExample,
    Dir := dirExample,
    Join := joinExample,
    proc := processEnvMixedExample }

/-- Surroundings of `run` in which the loader fails. -/
def runEnvLoadFailsExample : Main.RunEnv :=
  { RegisterFlags := none,
    ParseArgs := fun _ => .ok optionsAllFilesExample,
    Load := fun _ => .error "no such package",
    Dir := dirExample,
    Join := joinExample,
    proc := processEnvMixedExample }

/-- The state before `run`: nothing written, loaded, printed or processed. -/
def runStateExample : RunState :=
  { world := { ops := [] }, loads := [], printed := [], calls := [] }

/-! # Theorems -/

/-! ## Properties of `checkParallelTask` -/

/-- C1: `checkParallelTask fn` is nil exactly when `fn` has neither inputs nor
outputs; with an input it is the argument error, also when there are outputs;
with no input and an output it is the return-value error. -/
theorem checkParallelTask_spec (fn : compiledFunc) :
    (checkParallelTask fn = none ↔ fn.Inputs.length = 0 ∧ fn.Outputs.length = 0) ∧
    (fn.Inputs.length ≠ 0 → checkParallelTask fn =
      some "the only allowed argument is a single context.Context parameter") ∧
    (fn.Inputs.length = 0 → fn.Outputs.length ≠ 0 → checkParallelTask fn =
      some "the only allowed return value is an error") := by
  unfold checkParallelTask
  refine ⟨?_, ?_, ?_⟩
  · by_cases hi : fn.Inputs.length = 0 <;> by_cases ho : fn.Outputs.length = 0 <;>
      simp [hi, ho]
  · intro hi
    simp [hi]
  · intro hi ho
    simp [hi, ho]

theorem checkParallelTask_spec_witness :
    (sliceFnExampleInputs).length ≠ 0 ∧
    checkParallelTask
      { Node := .Leaf 1, Sig := { Params := [], Results := [] },
        Inputs := sliceFnExampleInputs, Outputs := [Ty.Basic BasicKind.Bool],
        WantCtx := false, HasError := false, PosInfo := { node := .Leaf 1 } } =
      some "the only allowed argument is a single context.Context parameter" :=
  ⟨by decide,
   (checkParallelTask_spec
      { Node := .Leaf 1, Sig := { Params := [], Results := [] },
        Inputs := sliceFnExampleInputs, Outputs := [Ty.Basic BasicKind.Bool],
        WantCtx := false, HasError := false, PosInfo := { node := .Leaf 1 } }).2.1
      (by decide)⟩

/-! ## Properties of `compileSlice` -/

theorem errf_errors_length (c : compiler) (pos : Expr) (format : String) (args : List FmtArg) :
    (errf c pos format args).errors.length = c.errors.length + 1 := by
  simp [errf]

theorem errf_taskSerial (c : compiler) (pos : Expr) (format : String) (args : List FmtArg) :
    (errf c pos format args).taskSerial = c.taskSerial := rfl

theorem record_errors_length (c : compiler) (ds : List Diag) :
    (record c ds).errors.length = c.errors.length + ds.length := by
  simp [record]

theorem record_taskSerial (c : compiler) (ds : List Diag) :
    (record c ds).taskSerial = c.taskSerial := rfl

/-- C2: a slice task returned by `compileSlice` belongs to a function with
exactly two non-context inputs, the first the basic type `int`, and no outputs
besides the error; the second argument of `cff.Slice` has a slice type, the
task's `Slice` is that argument and its `ElemType` the element type of that
slice type.  When one of these conditions fails `compileSlice` returns nil and
records at least one diagnostic. -/
theorem compileSlice_shape (env : Env) (c : compiler) (p : parallel) (ce sliceFn slce : Expr)
    (rest : List Expr) :
    (∀ st c', compileSlice env c p ce (sliceFn :: slce :: rest) = some (some st, c') →
      (env.compileFunction sliceFn).1 = some st.Function ∧
      st.Function.Inputs.length = 2 ∧
      st.Function.Inputs.head? = some (Ty.Basic BasicKind.Int) ∧
      st.Function.Outputs.length = 0 ∧
      env.TypeOf slce = some (Ty.Slice st.ElemType) ∧
      st.Slice = slce) ∧
    (¬ sliceShape env sliceFn slce →
      ∃ c', compileSlice env c p ce (sliceFn :: slce :: rest) = some (none, c') ∧
        c.errors.length < c'.errors.length) := by
  constructor
  · intro st c' h
    simp only [compileSlice] at h
    split at h
    · simp at h
    · rename_i fn hfn
      split at h
      · simp at h
      · split at h
        · simp at h
        · rename_i hout hin
          split at h
          · rename_i in0 in1 tl hins
            split at h
            · simp at h
            · rename_i hint
              split at h
              · simp at h
              · rename_i typ htyp
                split at h
                · rename_i elem
                  split at h
                  · simp at h
                  · simp only [Option.some.injEq, Prod.mk.injEq] at h
                    obtain ⟨hst, -⟩ := h
                    subst hst
                    simp only [ne_eq, Decidable.not_not] at hout hin hint
                    refine ⟨hfn, hin, ?_, hout, htyp, rfl⟩
                    simp [hins, hint]
                · simp at h
          · simp at h
  · intro hns
    simp only [compileSlice]
    split
    · exact ⟨_, rfl, by simp [errf_errors_length, record_errors_length]; omega⟩
    · rename_i fn hfn
      split
      · exact ⟨_, rfl, by simp [errf_errors_length, record_errors_length]; omega⟩
      · split
        · exact ⟨_, rfl, by simp [errf_errors_length, record_errors_length]; omega⟩
        · rename_i hout hin
          simp only [ne_eq, Decidable.not_not] at hout hin
          split
          · rename_i in0 in1 tl hins
            split
            · exact ⟨_, rfl, by simp [errf_errors_length, record_errors_length]; omega⟩
            · rename_i hint
              simp only [ne_eq, Decidable.not_not] at hint
              split
              · exact ⟨_, rfl, by simp [errf_errors_length, record_errors_length]; omega⟩
              · rename_i typ htyp
                split
                · rename_i elem
                  exact absurd ⟨fn, elem, hfn, hin, by simp [hins, hint], hout, htyp⟩ hns
                · exact ⟨_, rfl, by simp [errf_errors_length, record_errors_length]; omega⟩
          · rename_i hins
            exfalso
            match hI : fn.Inputs, hin, hins with
            | [a, b], _, hins => exact hins a b [] rfl

theorem compileSlice_shape_witness :
    compileSlice (sliceEnvExample (Ty.Basic BasicKind.String) (Ty.Basic BasicKind.String))
        { taskSerial := 0, errors := [] } parallelExample sliceCallExample [.Leaf 1, .Leaf 2] =
      some (some sliceTaskExample, { taskSerial := 1, errors := [] }) ∧
    sliceTaskExample.Function.Inputs.length = 2 ∧
    sliceTaskExample.Function.Inputs.head? = some (Ty.Basic BasicKind.Int) ∧
    sliceTaskExample.Function.Outputs.length = 0 ∧
    sliceTaskExample.Slice = .Leaf 2 :=
  have h := (compileSlice_shape
    (sliceEnvExample (Ty.Basic BasicKind.String) (Ty.Basic BasicKind.String))
    { taskSerial := 0, errors := [] } parallelExample sliceCallExample (.Leaf 1) (.Leaf 2) []).1
    sliceTaskExample { taskSerial := 1, errors := [] } rfl
  ⟨rfl, h.2.1, h.2.2.1, h.2.2.2.1, h.2.2.2.2.2⟩

/-- C3: for `func(int, interface{}) error` over a `[]string` the element type
`string` is assignable to the parameter type `interface{}`, yet `compileSlice`
returns nil with a diagnostic, because it asks whether the parameter type is
assignable to the element type; and for `func(int, string) error` over a
`[]interface{}`, where the element type is not assignable to the parameter
type, it returns a slice task. -/
theorem compileSlice_assignable_reversed :
    assignableToExample (Ty.Basic BasicKind.String) (Ty.Interface 0) = true ∧
    compileSlice (sliceEnvExample (Ty.Interface 0) (Ty.Basic BasicKind.String))
        { taskSerial := 0, errors := [] } parallelExample sliceCallExample [.Leaf 1, .Leaf 2] =
      some (none, { taskSerial := 0, errors := [Diag.mk (.Leaf 2)
        "slice element of type %v cannot be passed as a parameter to function expecting %v"
        [.type (Ty.Interface 0), .type (Ty.Basic BasicKind.String)]] }) ∧
    assignableToExample (Ty.Interface 0) (Ty.Basic BasicKind.String) = false ∧
    compileSlice (sliceEnvExample (Ty.Basic BasicKind.String) (Ty.Interface 0))
        { taskSerial := 0, errors := [] } parallelExample sliceCallExample [.Leaf 1, .Leaf 2] =
      some (some { Function := sliceFnExample (Ty.Basic BasicKind.String), Slice := .Leaf 2,
                   ElemType := Ty.Interface 0, Serial := 0,
                   PosInfo := { node := sliceCallExample } },
            { taskSerial := 1, errors := [] }) :=
  ⟨by decide, rfl, by decide, rfl⟩

/-! ## Properties of `validateParallelInstrument` -/

/-- The loop of `validateParallelInstrument` over the tasks records one
diagnostic for each instrumented task and nothing else. -/
theorem validate_tasks_errors_length (node : Expr) (tasks : List parallelTask) (c : compiler) :
    (tasks.foldl
      (fun c t =>
        if t.Instrument.isSome then
          errf c node
            "cff.Instrument requires a cff.Emitter to be provided: use cff.WithEmitter" []
        else
          c)
      c).errors.length = c.errors.length + tasks.countP (fun t => t.Instrument.isSome) := by
  induction tasks generalizing c with
  | nil => simp
  | cons t ts ih =>
    rw [List.foldl_cons, ih]
    by_cases ht : t.Instrument.isSome = true
    · simp [ht, errf_errors_length]
      omega
    · simp [ht]

/-- The number of diagnostics `validateParallelInstrument` records when the
parallel has no emitter. -/
theorem validate_errors_length (c : compiler) (p : parallel) (he : p.Emitters = []) :
    (validateParallelInstrument c p).errors.length =
      c.errors.length + (if p.Instrument.isSome then 1 else 0) +
        p.Tasks.countP (fun t => t.Instrument.isSome) := by
  unfold validateParallelInstrument
  simp only [he, List.length_nil, gt_iff_lt, lt_self_iff_false, if_false]
  rw [validate_tasks_errors_length]
  by_cases hi : p.Instrument.isSome = true
  · simp [hi, errf_errors_length]
  · simp [hi]

/-- C4: `validateParallelInstrument` records a diagnostic exactly when the
parallel has no emitter and the parallel itself or one of its tasks is
instrumented; with an emitter present the compiler is left as it was. -/
theorem validateParallelInstrument_spec (c : compiler) (p : parallel) :
    (c.errors.length < (validateParallelInstrument c p).errors.length ↔
      p.Emitters = [] ∧
        (p.Instrument.isSome = true ∨ ∃ t ∈ p.Tasks, t.Instrument.isSome = true)) ∧
    (p.Emitters ≠ [] → validateParallelInstrument c p = c) := by
  constructor
  · by_cases he : p.Emitters = []
    · rw [validate_errors_length c p he]
      simp only [he, true_and]
      constructor
      · intro h
        by_cases hi : p.Instrument.isSome = true
        · exact Or.inl hi
        · right
          simp only [hi] at h
          have hpos : 0 < p.Tasks.countP (fun t => t.Instrument.isSome) := by
            simpa using h
          obtain ⟨t, ht, hti⟩ := List.countP_pos_iff.mp hpos
          exact ⟨t, ht, hti⟩
      · rintro (hi | ⟨t, ht, hti⟩)
        · simp [hi]
          omega
        · have hpos : 0 < p.Tasks.countP (fun t => t.Instrument.isSome) :=
            List.countP_pos_iff.mpr ⟨t, ht, hti⟩
          omega
    · have hlen : 0 < p.Emitters.length := List.length_pos.mpr he
      simp [validateParallelInstrument, hlen, he]
  · intro he
    have hlen : 0 < p.Emitters.length := List.length_pos.mpr he
    simp [validateParallelInstrument, hlen]

theorem validateParallelInstrument_spec_witness :
    ({ parallelExample with Emitters := [.Leaf 3], Instrument := some { Name := .Leaf 4 } } :
        parallel).Emitters ≠ [] ∧
    validateParallelInstrument { taskSerial := 0, errors := [] }
        { parallelExample with Emitters := [.Leaf 3], Instrument := some { Name := .Leaf 4 } } =
      { taskSerial := 0, errors := [] } :=
  ⟨by simp,
   (validateParallelInstrument_spec { taskSerial := 0, errors := [] }
      { parallelExample with Emitters := [.Leaf 3], Instrument := some { Name := .Leaf 4 } }).2
      (by simp)⟩

/-! ## The task serial counter -/

theorem wrapInt_succ (x : Int) (hlo : -9223372036854775808 ≤ x)
    (hhi : x + 1 < 9223372036854775808) : wrapInt (x + 1) = x + 1 := by
  unfold wrapInt
  omega

/-- The counter after `compileParallelTaskFn`: advanced by one when a task was
created with the old value as its serial, untouched otherwise. -/
theorem compileParallelTaskFn_serial (env : Env) (c : compiler) (p : parallel) (arg : Expr) :
    ((compileParallelTaskFn env c p arg).1 = none ∧
      (compileParallelTaskFn env c p arg).2.taskSerial = c.taskSerial) ∨
    (∃ t, (compileParallelTaskFn env c p arg).1 = some t ∧ t.Serial = c.taskSerial ∧
      (compileParallelTaskFn env c p arg).2.taskSerial = wrapInt (c.taskSerial + 1)) := by
  unfold compileParallelTaskFn
  cases h : (env.compileFunction arg).1 with
  | none => left; simp [h, errf, record]
  | some taskF =>
    cases hc : checkParallelTask taskF with
    | some err => left; simp [h, hc, errf, record]
    | none => right; simp [h, hc, record]

/-- The counter after `compileSlice` on a call with its two arguments. -/
theorem compileSlice_serial (env : Env) (c : compiler) (p : parallel) (ce sliceFn slce : Expr)
    (rest : List Expr) :
    (∃ c', compileSlice env c p ce (sliceFn :: slce :: rest) = some (none, c') ∧
      c'.taskSerial = c.taskSerial) ∨
    (∃ st c', compileSlice env c p ce (sliceFn :: slce :: rest) = some (some st, c') ∧
      st.Serial = c.taskSerial ∧ c'.taskSerial = wrapInt (c.taskSerial + 1)) := by
  simp only [compileSlice]
  split
  · exact Or.inl ⟨_, rfl, rfl⟩
  · rename_i fn hfn
    split
    · exact Or.inl ⟨_, rfl, rfl⟩
    · split
      · exact Or.inl ⟨_, rfl, rfl⟩
      · rename_i hout hin
        simp only [ne_eq, Decidable.not_not] at hin
        split
        · split
          · exact Or.inl ⟨_, rfl, rfl⟩
          · split
            · exact Or.inl ⟨_, rfl, rfl⟩
            · split
              · split
                · exact Or.inl ⟨_, rfl, rfl⟩
                · exact Or.inr ⟨_, _, rfl, rfl, rfl⟩
              · exact Or.inl ⟨_, rfl, rfl⟩
        · rename_i hins
          exfalso
          match hI : fn.Inputs, hin, hins with
          | [a, b], _, hins => exact hins a b [] rfl

/-- One request either creates nothing and leaves the counter, or creates a
task with the current counter value and advances the counter by one. -/
theorem TaskOp.run_serial (env : Env) (c : compiler) (op : TaskOp) (hwt : op.wellTyped)
    (hlo : -9223372036854775808 ≤ c.taskSerial)
    (hhi : c.taskSerial + 1 < 9223372036854775808) :
    ∃ r c', op.run env c = some (r, c') ∧
      ((r = none ∧ c'.taskSerial = c.taskSerial) ∨
       (r = some c.taskSerial ∧ c'.taskSerial = c.taskSerial + 1)) := by
  cases op with
  | taskFn p arg =>
    rcases compileParallelTaskFn_serial env c p arg with ⟨h1, h2⟩ | ⟨t, h1, h2, h3⟩
    · exact ⟨_, _, rfl, Or.inl ⟨by simp [h1], h2⟩⟩
    · refine ⟨_, _, rfl, Or.inr ⟨by simp [h1, h2], ?_⟩⟩
      rw [h3, wrapInt_succ _ hlo hhi]
  | slice p ce ceArgs =>
    match ceArgs, hwt with
    | sliceFn :: slce :: rest, _ =>
      rcases compileSlice_serial env c p ce sliceFn slce rest with
        ⟨c', h1, h2⟩ | ⟨st, c', h1, h2, h3⟩
      · exact ⟨none, c', by simp [TaskOp.run, h1], Or.inl ⟨rfl, h2⟩⟩
      · refine ⟨some st.Serial, c', by simp [TaskOp.run, h1], Or.inr ⟨by rw [h2], ?_⟩⟩
        rw [h3, wrapInt_succ _ hlo hhi]

theorem range_map_offset (s : Int) (n : Nat) :
    s :: (List.range n).map (fun (k : Nat) => s + 1 + (k : Int)) =
      (List.range (n + 1)).map (fun (k : Nat) => s + (k : Int)) := by
  rw [List.range_succ_eq_map, List.map_cons, List.map_map]
  congr 1
  · simp
  · apply List.map_congr_left
    intro k _
    simp only [Function.comp_apply, Nat.cast_succ]
    omega

theorem pairwise_offset (s : Int) (n : Nat) :
    List.Pairwise (fun a b => a < b) ((List.range n).map (fun (k : Nat) => s + (k : Int))) := by
  refine List.pairwise_map.mpr ?_
  refine (List.pairwise_lt_range n).imp ?_
  intro a b hab
  omega

/-- C5: requests run in order on one compiler all return, the serials of the
tasks created are the counter's initial value, that value plus one, and so on
in order of creation, hence strictly increasing and pairwise distinct, and the
counter ends at the initial value plus the number of tasks created: a request
that creates no task does not advance it. -/
theorem serials_consecutive (env : Env) (ops : List TaskOp) (c : compiler)
    (hwt : ∀ op ∈ ops, op.wellTyped)
    (hlo : -9223372036854775808 ≤ c.taskSerial)
    (hhi : c.taskSerial + ops.length < 9223372036854775808) :
    ∃ rs c', runTaskOps env ops c = some (rs, c') ∧ rs.length = ops.length ∧
      createdSerials rs =
        (List.range (createdSerials rs).length).map (fun (k : Nat) => c.taskSerial + (k : Int)) ∧
      c'.taskSerial = c.taskSerial + (createdSerials rs).length ∧
      List.Pairwise (fun a b => a < b) (createdSerials rs) := by
  have key : ∀ (ops : List TaskOp) (c : compiler), (∀ op ∈ ops, op.wellTyped) →
      -9223372036854775808 ≤ c.taskSerial →
      c.taskSerial + ops.length < 9223372036854775808 →
      ∃ rs c', runTaskOps env ops c = some (rs, c') ∧ rs.length = ops.length ∧
        createdSerials rs =
          (List.range (createdSerials rs).length).map (fun (k : Nat) => c.taskSerial + (k : Int)) ∧
        c'.taskSerial = c.taskSerial + (createdSerials rs).length ∧
        (createdSerials rs).length ≤ ops.length := by
    intro ops
    induction ops with
    | nil =>
      intro c _ _ _
      exact ⟨[], c, rfl, rfl, by simp [createdSerials], by simp [createdSerials], by simp [createdSerials]⟩
    | cons op ops ih =>
      intro c hwt hlo hhi
      have hlen : ((op :: ops).length : Int) = (ops.length : Int) + 1 := by simp
      obtain ⟨r, c1, hrun, hcase⟩ := TaskOp.run_serial env c op (hwt op (List.mem_cons_self _ _))
        hlo (by have := hlen; omega)
      have hwt' : ∀ o ∈ ops, o.wellTyped := fun o ho => hwt o (List.mem_cons_of_mem _ ho)
      rcases hcase with ⟨hr, hc1⟩ | ⟨hr, hc1⟩
      · obtain ⟨rs, c2, hrs, hl, hser, hfin, hle⟩ := ih c1 hwt' (by omega) (by omega)
        refine ⟨r :: rs, c2, by simp [runTaskOps, hrun, hrs], by simp [hl], ?_, ?_, ?_⟩
        · subst hr
          simpa [createdSerials, hc1] using hser
        · subst hr
          simpa [createdSerials, hc1] using hfin
        · subst hr
          simp only [createdSerials, List.filterMap_cons, id_eq, List.length_cons] at hle ⊢
          omega
      · obtain ⟨rs, c2, hrs, hl, hser, hfin, hle⟩ := ih c1 hwt' (by omega) (by omega)
        refine ⟨r :: rs, c2, by simp [runTaskOps, hrun, hrs], by simp [hl], ?_, ?_, ?_⟩
        · subst hr
          have hcs : createdSerials (some c.taskSerial :: rs) =
              c.taskSerial :: createdSerials rs := by simp [createdSerials]
          rw [hcs, List.length_cons, ← range_map_offset]
          rw [hc1] at hser
          rw [← hser]
        · subst hr
          have hcs : createdSerials (some c.taskSerial :: rs) =
              c.taskSerial :: createdSerials rs := by simp [createdSerials]
          rw [hcs, List.length_cons, hfin, hc1]
          push_cast
          omega
        · subst hr
          simp only [createdSerials, List.filterMap_cons, id_eq, List.length_cons] at hle ⊢
          omega
  obtain ⟨rs, c', h1, h2, h3, h4, -⟩ := key ops c hwt hlo hhi
  refine ⟨rs, c', h1, h2, h3, h4, ?_⟩
  rw [h3]
  exact pairwise_offset _ _

theorem serials_consecutive_witness :
    (∀ op ∈ taskOpsExample, op.wellTyped) ∧
    runTaskOps (sliceEnvExample (Ty.Basic BasicKind.String) (Ty.Basic BasicKind.String))
        taskOpsExample { taskSerial := 0, errors := [] } =
      some ([none, some 0, some 1],
        { taskSerial := 2,
          errors := [Diag.mk (.Leaf 5) "parallel tasks function failed to compile" []] }) ∧
    ∃ rs c', runTaskOps (sliceEnvExample (Ty.Basic BasicKind.String) (Ty.Basic BasicKind.String))
        taskOpsExample { taskSerial := 0, errors := [] } = some (rs, c') ∧
      rs.length = taskOpsExample.length ∧
      createdSerials rs =
        (List.range (createdSerials rs).length).map (fun (k : Nat) => (0 : Int) + (k : Int)) ∧
      c'.taskSerial = 0 + (createdSerials rs).length ∧
      List.Pairwise (fun a b => a < b) (createdSerials rs) :=
  have hwt : ∀ op ∈ taskOpsExample, op.wellTyped := by
    intro op hop
    simp only [taskOpsExample, List.mem_cons, List.mem_singleton, List.not_mem_nil,
      or_false] at hop
    rcases hop with rfl | rfl | rfl <;> simp [TaskOp.wellTyped]
  ⟨hwt, rfl,
   serials_consecutive (sliceEnvExample (Ty.Basic BasicKind.String) (Ty.Basic BasicKind.String))
     taskOpsExample { taskSerial := 0, errors := [] } hwt (by decide) (by decide)⟩

/-! ## Arguments of `cff.Parallel` that are skipped -/

/-- The task created by `compileParallelTaskFn` and the counter it leaves depend
on the compiler only through the counter. -/
theorem compileParallelTaskFn_congr (env : Env) (c d : compiler) (p q : parallel) (arg : Expr)
    (h : c.taskSerial = d.taskSerial) :
    (compileParallelTaskFn env c p arg).1 = (compileParallelTaskFn env d q arg).1 ∧
    (compileParallelTaskFn env c p arg).2.taskSerial =
      (compileParallelTaskFn env d q arg).2.taskSerial := by
  unfold compileParallelTaskFn
  cases h1 : (env.compileFunction arg).1 with
  | none => simp [h1, errf, record, h]
  | some taskF =>
    cases hc : checkParallelTask taskF with
    | some err => simp [h1, hc, errf, record, h]
    | none => simp [h1, hc, record, h]

theorem compileParallelTaskOpt_congr (env : Env) (t : parallelTask) (c d : compiler) (opt : Expr)
    (h : c.taskSerial = d.taskSerial) :
    (compileParallelTaskOpt env (t, c) opt).1 = (compileParallelTaskOpt env (t, d) opt).1 ∧
    (compileParallelTaskOpt env (t, c) opt).2.taskSerial =
      (compileParallelTaskOpt env (t, d) opt).2.taskSerial := by
  unfold compileParallelTaskOpt
  cases h1 : env.identifyOption opt with
  | error err => simp [errf, h]
  | ok cf =>
    obtain ⟨call, fn⟩ := cf
    by_cases hn : fn.Name = "Instrument"
    · simp [hn, record, h]
    · simp [hn, h]

theorem compileParallelTaskOpts_congr (env : Env) (opts : List Expr) (t : parallelTask)
    (c d : compiler) (h : c.taskSerial = d.taskSerial) :
    (opts.foldl (compileParallelTaskOpt env) (t, c)).1 =
      (opts.foldl (compileParallelTaskOpt env) (t, d)).1 ∧
    (opts.foldl (compileParallelTaskOpt env) (t, c)).2.taskSerial =
      (opts.foldl (compileParallelTaskOpt env) (t, d)).2.taskSerial := by
  induction opts generalizing t c d with
  | nil => exact ⟨rfl, h⟩
  | cons opt opts ih =>
    simp only [List.foldl_cons]
    obtain ⟨h1, h2⟩ := compileParallelTaskOpt_congr env t c d opt h
    have e1 : compileParallelTaskOpt env (t, c) opt =
        ((compileParallelTaskOpt env (t, c) opt).1, (compileParallelTaskOpt env (t, c) opt).2) := rfl
    have e2 : compileParallelTaskOpt env (t, d) opt =
        ((compileParallelTaskOpt env (t, c) opt).1, (compileParallelTaskOpt env (t, d) opt).2) := by
      rw [h1]
    rw [e1, e2]
    exact ih _ _ _ h2

theorem compileParallelTask_congr (env : Env) (c d : compiler) (p q : parallel) (call : Expr)
    (opts : List Expr) (h : c.taskSerial = d.taskSerial) :
    (compileParallelTask env c p call opts).1 = (compileParallelTask env d q call opts).1 ∧
    (compileParallelTask env c p call opts).2.taskSerial =
      (compileParallelTask env d q call opts).2.taskSerial := by
  obtain ⟨h1, h2⟩ := compileParallelTaskFn_congr env c d p q call h
  unfold compileParallelTask
  generalize compileParallelTaskFn env c p call = rc at h1 h2
  generalize compileParallelTaskFn env d q call = rd at h1 h2
  obtain ⟨tc, c1⟩ := rc
  obtain ⟨td, d1⟩ := rd
  simp only at h1 h2
  subst h1
  cases tc with
  | none => simp [errf, h2]
  | some t =>
    obtain ⟨h3, h4⟩ := compileParallelTaskOpts_congr env opts t c1 d1 h2
    simp [h3, h4]

theorem compileParallelTasksLoop_congr (env : Env) (p q : parallel) (args : List Expr)
    (tasks : List parallelTask) (c d : compiler) (h : c.taskSerial = d.taskSerial) :
    (compileParallelTasksLoop env p args tasks c).1 =
      (compileParallelTasksLoop env q args tasks d).1 ∧
    (compileParallelTasksLoop env p args tasks c).2.taskSerial =
      (compileParallelTasksLoop env q args tasks d).2.taskSerial := by
  induction args generalizing tasks c d with
  | nil => exact ⟨rfl, h⟩
  | cons arg args ih =>
    obtain ⟨h1, h2⟩ := compileParallelTaskFn_congr env c d p q arg h
    simp only [compileParallelTasksLoop]
    generalize compileParallelTaskFn env c p arg = rc at h1 h2
    generalize compileParallelTaskFn env d q arg = rd at h1 h2
    obtain ⟨tc, c1⟩ := rc
    obtain ⟨td, d1⟩ := rd
    simp only at h1 h2
    subst h1
    cases tc with
    | none => exact ih _ _ _ h2
    | some t => exact ih _ _ _ h2

theorem compileSlice_congr (env : Env) (c d : compiler) (p q : parallel) (ce : Expr)
    (ceArgs : List Expr) (h : c.taskSerial = d.taskSerial) :
    (compileSlice env c p ce ceArgs).map (fun r => (r.1, r.2.taskSerial)) =
      (compileSlice env d q ce ceArgs).map (fun r => (r.1, r.2.taskSerial)) := by
  match ceArgs with
  | [] => rfl
  | [_] => rfl
  | sliceFn :: slce :: rest =>
    simp only [compileSlice]
    split
    · simp [errf, record, h]
    · split
      · simp [errf, record, h]
      · split
        · simp [errf, record, h]
        · split
          · split
            · simp [errf, record, h]
            · split
              · simp [errf, record, h]
              · split
                · split
                  · simp [errf, record, h]
                  · simp [record, h]
                · simp [errf, record, h]
          · rfl

/-- The fields that one argument of `cff.Parallel` leaves and the counter after
it depend on the compiler only through the counter, and on the `parallel` only
through the fields filled so far. -/
theorem compileParallelArg_congr (env : Env) (p q : parallel) (c d : compiler) (arg0 : Expr)
    (hp : p.fields = q.fields) (h : c.taskSerial = d.taskSerial) :
    (compileParallelArg env p c arg0).map (fun r => (r.1.fields, r.2.taskSerial)) =
      (compileParallelArg env q d arg0).map (fun r => (r.1.fields, r.2.taskSerial)) := by
  simp only [parallel.fields, Prod.mk.injEq] at hp
  obtain ⟨hT, hS, hE, hC, hO, hI⟩ := hp
  unfold compileParallelArg
  cases hU : Unparen arg0 with
  | Leaf n => simp [errf, parallel.fields, *]
  | ParenExpr x => simp [errf, parallel.fields, *]
  | CallExpr fn ceArgs =>
    simp only
    cases hS : env.StaticCallee (Expr.CallExpr fn ceArgs) with
    | none => simp [errf, parallel.fields, *]
    | some f =>
      simp only
      by_cases hpk : env.isPackagePathEquivalent f.Pkg cffImportPath = true
      · simp only [hpk, Bool.not_true, Bool.false_eq_true, if_false]
        by_cases n1 : f.Name = "Task"
        · simp only [n1, if_true]
          cases ceArgs with
          | nil => rfl
          | cons fnArg opts =>
            obtain ⟨h1, h2⟩ := compileParallelTask_congr env c d p q fnArg opts h
            simp only
            rw [← h1]
            cases (compileParallelTask env c p fnArg opts).1 <;>
              simp [parallel.fields, *]
        · simp only [n1, if_false]
          by_cases n2 : f.Name = "Tasks"
          · obtain ⟨h1, h2⟩ := compileParallelTasksLoop_congr env p q ceArgs [] c d h
            simp only [n2, if_true, compileParallelTasks]
            simp [parallel.fields, *]
          · simp only [n2, if_false]
            by_cases n3 : f.Name = "Concurrency"
            · simp only [n3, if_true]
              cases ceArgs <;> simp [parallel.fields, *]
            · simp only [n3, if_false]
              by_cases n4 : f.Name = "ContinueOnError"
              · simp only [n4, if_true]
                cases ceArgs <;> simp [parallel.fields, *]
              · simp only [n4, if_false]
                by_cases n5 : f.Name = "InstrumentParallel"
                · simp [n5, record, parallel.fields, *]
                · simp only [n5, if_false]
                  by_cases n6 : f.Name = "Slice"
                  · simp only [n6, if_true]
                    have h1 := compileSlice_congr env c d p q (Expr.CallExpr fn ceArgs) ceArgs h
                    generalize compileSlice env c p (Expr.CallExpr fn ceArgs) ceArgs = rc at h1
                    generalize compileSlice env d q (Expr.CallExpr fn ceArgs) ceArgs = rd at h1
                    cases rc with
                    | none =>
                      cases rd with
                      | none => rfl
                      | some vd => simp at h1
                    | some vc =>
                      cases rd with
                      | none => simp at h1
                      | some vd =>
                        obtain ⟨sc, c1⟩ := vc
                        obtain ⟨sd, d1⟩ := vd
                        simp only [Option.map_some', Option.some.injEq, Prod.mk.injEq] at h1
                        obtain ⟨h1, h2⟩ := h1
                        subst h1
                        cases sc <;> simp [parallel.fields, *]
                  · simp only [n6, if_false]
                    by_cases n7 : f.Name = "WithEmitter"
                    · simp only [n7, if_true]
                      cases ceArgs <;> simp [parallel.fields, *]
                    · simp [n7, parallel.fields, *]
      · simp [hpk, errf, parallel.fields, *]

theorem compileParallelLoop_congr (env : Env) (args : List Expr) (p q : parallel)
    (c d : compiler) (hp : p.fields = q.fields) (h : c.taskSerial = d.taskSerial) :
    (compileParallelLoop env args p c).map (fun r => (r.1.fields, r.2.taskSerial)) =
      (compileParallelLoop env args q d).map (fun r => (r.1.fields, r.2.taskSerial)) := by
  induction args generalizing p q c d with
  | nil => simp [compileParallelLoop, hp, h]
  | cons arg args ih =>
    have h1 := compileParallelArg_congr env p q c d arg hp h
    simp only [compileParallelLoop]
    generalize compileParallelArg env p c arg = rc at h1
    generalize compileParallelArg env q d arg = rd at h1
    cases rc with
    | none =>
      cases rd with
      | none => rfl
      | some vd => simp at h1
    | some vc =>
      cases rd with
      | none => simp at h1
      | some vd =>
        simp only [Option.map_some', Option.some.injEq, Prod.mk.injEq] at h1
        exact ih _ _ _ _ h1.1 h1.2

/-- An argument that is not a cff call records exactly one diagnostic and
changes neither the `parallel` nor the counter. -/
theorem compileParallelArg_offending (env : Env) (arg0 : Expr)
    (ho : offendingArg env arg0 = true) (p : parallel) (c : compiler) :
    compileParallelArg env p c arg0 =
      some (p, { c with errors := c.errors ++ [offendingDiag env arg0] }) := by
  unfold offendingArg at ho
  cases hU : Unparen arg0 with
  | Leaf n => simp [compileParallelArg, offendingDiag, hU, errf]
  | ParenExpr x => simp [compileParallelArg, offendingDiag, hU, errf]
  | CallExpr fn ceArgs =>
    rw [hU] at ho
    simp only at ho
    cases hS : env.StaticCallee (Expr.CallExpr fn ceArgs) with
    | none => simp [compileParallelArg, offendingDiag, hU, hS, errf]
    | some f =>
      rw [hS] at ho
      simp only at ho
      simp [compileParallelArg, offendingDiag, hU, hS, ho, errf]

/-- Deleting the arguments that are not cff calls changes neither the fields
the loop fills nor the counter it leaves. -/
theorem compileParallelLoop_filter (env : Env) (args : List Expr) (p : parallel) (c : compiler) :
    (compileParallelLoop env args p c).map (fun r => (r.1.fields, r.2.taskSerial)) =
      (compileParallelLoop env (args.filter (fun a => !offendingArg env a)) p c).map
        (fun r => (r.1.fields, r.2.taskSerial)) := by
  induction args generalizing p c with
  | nil => rfl
  | cons arg args ih =>
    by_cases ho : offendingArg env arg = true
    · have hdg := compileParallelArg_offending env arg ho
      simp only [ho, Bool.not_true, Bool.false_eq_true, not_false_eq_true, List.filter_cons_of_neg]
      simp only [compileParallelLoop, hdg p c]
      rw [← ih p c]
      exact compileParallelLoop_congr env args p p _ c rfl rfl
    · have hf : (!offendingArg env arg) = true := by simpa using ho
      simp only [hf, List.filter_cons_of_pos]
      simp only [compileParallelLoop]
      cases compileParallelArg env p c arg with
      | none => rfl
      | some v => exact ih v.1 v.2

theorem validateParallelInstrument_taskSerial (c : compiler) (p : parallel) :
    (validateParallelInstrument c p).taskSerial = c.taskSerial := by
  have hfold : ∀ (tasks : List parallelTask) (c : compiler),
      (tasks.foldl
        (fun c t =>
          if t.Instrument.isSome then
            errf c p.Node
              "cff.Instrument requires a cff.Emitter to be provided: use cff.WithEmitter" []
          else
            c)
        c).taskSerial = c.taskSerial := by
    intro tasks
    induction tasks with
    | nil => intro c; rfl
    | cons t ts ih =>
      intro c
      rw [List.foldl_cons, ih]
      split <;> rfl
  unfold validateParallelInstrument
  split
  · rfl
  · rw [hfold]
    split <;> rfl

/-- C6: an argument after the context that, once unparenthesised, is not a call
expression, or is a call whose static callee is unresolved or outside the cff
package, records exactly one diagnostic and leaves the `parallel` and the
counter unchanged; and when at least one other argument remains, compiling the
call gives the same `Tasks`, `SliceTasks`, `Emitters`, `Concurrency`,
`ContinueOnError` and `Instrument` (and the same counter) as compiling the call
with those arguments deleted. -/
theorem compileParallel_skips_offending (env : Env) (c : compiler) (call call2 ctx : Expr)
    (rest : List Expr) (hrem : rest.filter (fun a => !offendingArg env a) ≠ []) :
    (∀ arg ∈ rest, offendingArg env arg = true → ∀ (p : parallel) (d : compiler),
      compileParallelArg env p d arg =
        some (p, { d with errors := d.errors ++ [offendingDiag env arg] })) ∧
    (compileParallel env c call (ctx :: rest)).map observe =
      (compileParallel env c call2
        (ctx :: rest.filter (fun a => !offendingArg env a))).map observe := by
  refine ⟨fun arg _ ho => compileParallelArg_offending env arg ho, ?_⟩
  have hrest : rest ≠ [] := by
    intro h0
    apply hrem
    rw [h0]
    rfl
  have hl1 : (ctx :: rest).length ≠ 1 := by
    cases rest with
    | nil => exact absurd rfl hrest
    | cons a t => simp
  have hl2 : (ctx :: rest.filter (fun a => !offendingArg env a)).length ≠ 1 := by
    cases hf : rest.filter (fun a => !offendingArg env a) with
    | nil => exact absurd hf hrem
    | cons a t => simp
  simp only [compileParallel, hl1, hl2, if_false]
  have h1 := compileParallelLoop_filter env rest
    { Node := call, Ctx := ctx, Concurrency := none, ContinueOnError := none,
      Emitters := [], Tasks := [], SliceTasks := [], Instrument := none,
      PosInfo := env.getPosInfo call } c
  have h2 := compileParallelLoop_congr env (rest.filter (fun a => !offendingArg env a))
    { Node := call, Ctx := ctx, Concurrency := none, ContinueOnError := none,
      Emitters := [], Tasks := [], SliceTasks := [], Instrument := none,
      PosInfo := env.getPosInfo call }
    { Node := call2, Ctx := ctx, Concurrency := none, ContinueOnError := none,
      Emitters := [], Tasks := [], SliceTasks := [], Instrument := none,
      PosInfo := env.getPosInfo call2 } c c rfl rfl
  rw [h2] at h1
  generalize compileParallelLoop env rest _ c = r1 at h1
  generalize compileParallelLoop env (rest.filter (fun a => !offendingArg env a)) _ c = r2 at h1
  cases r1 with
  | none =>
    cases r2 with
    | none => rfl
    | some v2 => simp at h1
  | some v1 =>
    cases r2 with
    | none => simp at h1
    | some v2 =>
      simp only [Option.map_some', Option.some.injEq, Prod.mk.injEq] at h1
      simp [observe, validateParallelInstrument_taskSerial, h1.1, h1.2]

theorem compileParallel_skips_offending_witness :
    [Expr.Leaf 7, Expr.CallExpr (.Leaf 10) [.Leaf 3]].filter
        (fun a => !offendingArg
          (sliceEnvExample (Ty.Basic BasicKind.String) (Ty.Basic BasicKind.String)) a) ≠ [] ∧
    (compileParallel (sliceEnvExample (Ty.Basic BasicKind.String) (Ty.Basic BasicKind.String))
        { taskSerial := 0, errors := [] } (.Leaf 9)
        (Expr.Leaf 8 :: [Expr.Leaf 7, Expr.CallExpr (.Leaf 10) [.Leaf 3]])).map observe =
      (compileParallel (sliceEnvExample (Ty.Basic BasicKind.String) (Ty.Basic BasicKind.String))
        { taskSerial := 0, errors := [] } (.Leaf 9)
        (Expr.Leaf 8 :: [Expr.Leaf 7, Expr.CallExpr (.Leaf 10) [.Leaf 3]].filter
          (fun a => !offendingArg
            (sliceEnvExample (Ty.Basic BasicKind.String) (Ty.Basic BasicKind.String)) a))).map
        observe :=
  have hrem : [Expr.Leaf 7, Expr.CallExpr (.Leaf 10) [.Leaf 3]].filter
      (fun a => !offendingArg
        (sliceEnvExample (Ty.Basic BasicKind.String) (Ty.Basic BasicKind.String)) a) ≠ [] :=
    List.cons_ne_nil (Expr.CallExpr (.Leaf 10) [.Leaf 3]) []
  ⟨hrem,
   (compileParallel_skips_offending
      (sliceEnvExample (Ty.Basic BasicKind.String) (Ty.Basic BasicKind.String))
      { taskSerial := 0, errors := [] } (.Leaf 9) (.Leaf 9) (.Leaf 8)
      [Expr.Leaf 7, Expr.CallExpr (.Leaf 10) [.Leaf 3]] hrem).2⟩

/-! ## The check for a function in `compileParallel` -/

/-- C7 fails for `cff.Parallel(ctx, cff.Concurrency(n))`: no argument is a
`cff.Task`, `cff.Tasks` or `cff.Slice`, yet `compileParallel` returns a
`parallel` (with no tasks) and records no diagnostic. -/
theorem compileParallel_options_only :
    compileParallel (sliceEnvExample (Ty.Basic BasicKind.String) (Ty.Basic BasicKind.String))
        { taskSerial := 0, errors := [] } (.Leaf 9) concurrencyOnlyArgsExample =
      some (some { parallelExample with Concurrency := some (.Leaf 6) },
            { taskSerial := 0, errors := [] }) ∧
    ({ parallelExample with Concurrency := some (.Leaf 6) } : parallel).Tasks.length = 0 ∧
    ({ parallelExample with Concurrency := some (.Leaf 6) } : parallel).SliceTasks.length = 0 :=
  ⟨rfl, rfl, rfl⟩

/-- C7 as amended: `compileParallel` records "cff.Parallel expects at least one
function" and returns nil when the context is the only argument of the call;
with any further argument the call passes that check, so a result is never
nil, whether or not an argument provides a function. -/
theorem compileParallel_expects_function (env : Env) (c : compiler) (call ctx : Expr)
    (rest : List Expr) :
    (rest = [] → compileParallel env c call (ctx :: rest) =
      some (none, errf c call "cff.Parallel expects at least one function" [])) ∧
    (rest ≠ [] → ∀ r, compileParallel env c call (ctx :: rest) = some r → r.1.isSome = true) := by
  constructor
  · intro h
    subst h
    rfl
  · intro h r hr
    have hl : (ctx :: rest).length ≠ 1 := by
      cases rest with
      | nil => exact absurd rfl h
      | cons a t => simp
    simp only [compileParallel, hl, if_false] at hr
    split at hr
    · simp at hr
    · simp only [Option.some.injEq] at hr
      rw [← hr]
      rfl

theorem compileParallel_expects_function_witness :
    [Expr.CallExpr (.Leaf 12) [.Leaf 6]] ≠ [] ∧
    (some ({ parallelExample with Concurrency := some (.Leaf 6) } : parallel)).isSome = true :=
  ⟨List.cons_ne_nil _ _,
   (compileParallel_expects_function
      (sliceEnvExample (Ty.Basic BasicKind.String) (Ty.Basic BasicKind.String))
      { taskSerial := 0, errors := [] } (.Leaf 9) (.Leaf 8)
      [Expr.CallExpr (.Leaf 12) [.Leaf 6]]).2 (List.cons_ne_nil _ _)
      (some { parallelExample with Concurrency := some (.Leaf 6) },
        { taskSerial := 0, errors := [] }) rfl⟩

/-! ## Type IDs -/

theorem Identical_iff (a b : TypeObj) : Identical a b = true ↔ a.ty = b.ty := by
  simp [Identical]

theorem TypeMap.At_congr (m : TypeMap) (a b : TypeObj) (h : a.ty = b.ty) : m.At a = m.At b := by
  simp [TypeMap.At, Identical, h]

/-- Looking up a key after `Set` on a key that was absent. -/
theorem TypeMap.At_Set_of_none (m : TypeMap) (t u : TypeObj) (v : Int) (h : m.At t = none) :
    (m.Set t v).At u = if Identical u t = true then some v else m.At u := by
  have hfind : m.entries.find? (fun e => Identical t e.1) = none := by
    simpa [TypeMap.At] using h
  have hany : m.entries.any (fun e => Identical t e.1) = false := by
    rw [List.find?_eq_none] at hfind
    simpa using hfind
  simp only [TypeMap.Set, hany, Bool.false_eq_true, if_false, TypeMap.At, List.find?_append]
  by_cases hu : Identical u t = true
  · have hty : u.ty = t.ty := (Identical_iff u t).mp hu
    have hfu : m.entries.find? (fun e => Identical u e.1) = none := by
      have := hfind
      simpa [Identical, hty] using this
    simp [hfu, hu]
  · simp only [hu, if_false]
    cases hf : m.entries.find? (fun e => Identical u e.1) with
    | none => simp [hu]
    | some e => simp

/-- One call of `typeID` on a well-formed generator, away from overflow. -/
theorem typeID_step (g : generator) (t : TypeObj) (hg : g.wellFormed)
    (hov : g.nextTypeID + 1 < 9223372036854775808) :
    (typeID g t).2.wellFormed ∧
    (typeID g t).2.typeIDs.At t = some (typeID g t).1 ∧
    (∀ u id, g.typeIDs.At u = some id → (typeID g t).2.typeIDs.At u = some id) ∧
    (typeID g t).2.nextTypeID ≤ g.nextTypeID + 1 := by
  obtain ⟨hb, hi, hp⟩ := hg
  cases hat : g.typeIDs.At t with
  | some i =>
    have he : typeID g t = (i, g) := by simp [typeID, hat]
    rw [he]
    refine ⟨⟨hb, hi, hp⟩, hat, fun u id h => h, ?_⟩
    show g.nextTypeID ≤ g.nextTypeID + 1
    omega
  | none =>
    have hw : wrapInt (g.nextTypeID + 1) = g.nextTypeID + 1 := wrapInt_succ _ (by omega) hov
    have hset := TypeMap.At_Set_of_none g.typeIDs t
    have he : typeID g t = (g.nextTypeID,
        { g with nextTypeID := g.nextTypeID + 1,
                 typeIDs := g.typeIDs.Set t g.nextTypeID }) := by
      simp [typeID, hat, hw]
    rw [he]
    dsimp only
    refine ⟨⟨?_, ?_, by dsimp only; omega⟩, ?_, ?_, le_refl _⟩
    · intro u id h
      dsimp only at h ⊢
      rw [hset u _ hat] at h
      by_cases hu : Identical u t = true
      · simp only [hu, if_true, Option.some.injEq] at h
        omega
      · simp only [hu, if_false] at h
        have := hb u id h
        omega
    · intro u w id h1 h2
      dsimp only at h1 h2
      rw [hset u _ hat] at h1
      rw [hset w _ hat] at h2
      by_cases hu : Identical u t = true
      · by_cases hw2 : Identical w t = true
        · rw [(Identical_iff u t).mp hu, (Identical_iff w t).mp hw2]
        · simp only [hu, if_true, Option.some.injEq] at h1
          simp only [hw2, if_false] at h2
          have := hb w id h2
          omega
      · by_cases hw2 : Identical w t = true
        · simp only [hu, if_false] at h1
          simp only [hw2, if_true, Option.some.injEq] at h2
          have := hb u id h1
          omega
        · simp only [hu, if_false] at h1
          simp only [hw2, if_false] at h2
          exact hi u w id h1 h2
    · rw [hset t _ hat]
      simp [Identical]
    · intro u id h
      rw [hset u _ hat]
      by_cases hu : Identical u t = true
      · have : g.typeIDs.At u = g.typeIDs.At t :=
          TypeMap.At_congr _ _ _ ((Identical_iff u t).mp hu)
        rw [this, hat] at h
        simp at h
      · simp only [hu, if_false]
        exact h

/-- One call returns the ID that `typeID` gives for its type, in the form of
the call, and leaves the generator as `typeID` does. -/
theorem IDCall.run_eq (g : generator) (call : IDCall) :
    call.run g = (call.returns (Cff.typeID g call.type).1, (Cff.typeID g call.type).2) := by
  cases call <;> rfl

theorem digitChar_value (k : Nat) (hk : k < 10) : (Nat.digitChar k).toNat - 48 = k := by
  interval_cases k <;> rfl

theorem toDigitsCore_append (fuel n : Nat) (ds : List Char) :
    Nat.toDigitsCore 10 fuel n ds = Nat.toDigitsCore 10 fuel n [] ++ ds := by
  induction fuel generalizing n ds with
  | zero => simp [Nat.toDigitsCore]
  | succ fuel ih =>
    simp only [Nat.toDigitsCore]
    split
    · simp
    · rw [ih (n / 10) (Nat.digitChar (n % 10) :: ds), ih (n / 10) [Nat.digitChar (n % 10)]]
      simp

theorem decimalValue_toDigitsCore (fuel n : Nat) (h : n < fuel) :
    decimalValue (Nat.toDigitsCore 10 fuel n []) = n := by
  induction fuel generalizing n with
  | zero => omega
  | succ fuel ih =>
    simp only [Nat.toDigitsCore]
    split
    · rename_i h0
      simp only [decimalValue, List.foldl_cons, List.foldl_nil]
      rw [digitChar_value _ (Nat.mod_lt _ (by decide))]
      omega
    · rename_i h0
      rw [toDigitsCore_append]
      have := ih (n / 10) (by omega)
      simp only [decimalValue, List.foldl_append, List.foldl_cons, List.foldl_nil] at this ⊢
      rw [this, digitChar_value _ (Nat.mod_lt _ (by decide))]
      omega

/-- The decimal form of a natural number denotes that number. -/
theorem decimalValue_repr (n : Nat) : decimalValue (Nat.repr n).data = n := by
  show decimalValue (Nat.toDigitsCore 10 (n + 1) n []) = n
  exact decimalValue_toDigitsCore (n + 1) n (by omega)

/-- The decimal forms of two integers that are not negative are equal only when
the integers are. -/
theorem toString_int_inj (a b : Int) (ha : 0 ≤ a) (hb : 0 ≤ b)
    (h : toString a = toString b) : a = b := by
  obtain ⟨n, rfl⟩ := Int.eq_ofNat_of_zero_le ha
  obtain ⟨m, rfl⟩ := Int.eq_ofNat_of_zero_le hb
  have h2 : Nat.repr n = Nat.repr m := h
  have := congrArg (fun s => decimalValue s.data) h2
  simp only [decimalValue_repr] at this
  rw [this]

/-- A run of calls on a well-formed generator, away from overflow: the generator
stays well formed, IDs already stored stay, and each call returned, in its
form, the integer that the map holds at the end for the type of the call. -/
theorem runIDCalls_spec (calls : List IDCall) (g : generator) (hg : g.wellFormed)
    (hov : g.nextTypeID + calls.length < 9223372036854775808) :
    (runIDCalls g calls).2.wellFormed ∧
    (runIDCalls g calls).1.length = calls.length ∧
    (∀ u id, g.typeIDs.At u = some id → (runIDCalls g calls).2.typeIDs.At u = some id) ∧
    (∀ x ∈ calls.zip (runIDCalls g calls).1, ∃ id,
      x.2 = x.1.returns id ∧ (runIDCalls g calls).2.typeIDs.At x.1.type = some id) ∧
    (runIDCalls g calls).2.nextTypeID ≤ g.nextTypeID + calls.length := by
  induction calls generalizing g with
  | nil => exact ⟨hg, rfl, fun u id h => h, by simp [runIDCalls], by simp [runIDCalls]⟩
  | cons call calls ih =>
    have hlen : ((call :: calls).length : Int) = (calls.length : Int) + 1 := by simp
    have hp : 1 ≤ g.nextTypeID := hg.2.2
    obtain ⟨s1, s2, s3, s4⟩ := typeID_step g call.type hg (by omega)
    have hrun := IDCall.run_eq g call
    have hst : (Cff.typeID g call.type).2 = (call.run g).2 := by rw [hrun]
    rw [hst] at s1 s2 s3 s4
    obtain ⟨r1, r2, r3, r4, r5⟩ := ih (call.run g).2 s1 (by omega)
    simp only [runIDCalls]
    refine ⟨r1, by simp [r2], fun u id h => r3 u id (s3 u id h), ?_, by omega⟩
    intro x hx
    simp only [List.zip_cons_cons, List.mem_cons] at hx
    rcases hx with rfl | hx
    · exact ⟨(Cff.typeID g call.type).1, by rw [hrun], r3 _ _ s2⟩
    · exact r4 x hx

theorem newGenerator_wellFormed (outputPath : String) : (newGenerator outputPath).wellFormed := by
  refine ⟨?_, ?_, le_refl _⟩
  · intro t id h
    simp [newGenerator, TypeMap.At] at h
  · intro t u id h
    simp [newGenerator, TypeMap.At] at h

/-- C8: in any sequence of `typeID` / `printTypeHash` calls on a new generator,
every call returns an integer, `typeID` as an `int` and `printTypeHash` as its
decimal form, and the integers of two calls are the same exactly when their
types are the same for the generator's type map; the decimal forms of these
integers are equal only when the integers are, so two `typeID` calls return the
same `int`, and two `printTypeHash` calls the same string, exactly when their
types are the same. -/
theorem typeID_stable_unique (outputPath : String) (calls : List IDCall)
    (hlen : (calls.length : Int) + 1 < 9223372036854775808) :
    (runIDCalls (newGenerator outputPath) calls).1.length = calls.length ∧
    ∀ x ∈ calls.zip (runIDCalls (newGenerator outputPath) calls).1,
      ∀ y ∈ calls.zip (runIDCalls (newGenerator outputPath) calls).1,
        (∃ a b : Int, x.2 = x.1.returns a ∧ y.2 = y.1.returns b ∧
          (a = b ↔ Identical x.1.type y.1.type = true) ∧
          (toString a = toString b ↔ a = b)) ∧
        (∀ t u, x.1 = .typeID t → y.1 = .typeID u →
          (x.2 = y.2 ↔ Identical t u = true)) ∧
        (∀ t u, x.1 = .printTypeHash t → y.1 = .printTypeHash u →
          (x.2 = y.2 ↔ Identical t u = true)) := by
  obtain ⟨r1, r2, -, r4, -⟩ := runIDCalls_spec calls (newGenerator outputPath)
    (newGenerator_wellFormed outputPath) (by simp only [newGenerator]; omega)
  refine ⟨r2, ?_⟩
  intro x hx y hy
  obtain ⟨a, hxa, hx2⟩ := r4 x hx
  obtain ⟨b, hyb, hy2⟩ := r4 y hy
  have ha : 0 ≤ a := by
    have := (r1.1 _ _ hx2).1
    omega
  have hb : 0 ≤ b := by
    have := (r1.1 _ _ hy2).1
    omega
  have hiff : a = b ↔ Identical x.1.type y.1.type = true := by
    rw [Identical_iff]
    constructor
    · intro h
      rw [← h] at hy2
      exact r1.2.1 _ _ _ hx2 hy2
    · intro h
      rw [TypeMap.At_congr _ _ _ h, hy2] at hx2
      exact (Option.some.inj hx2).symm
  have hstr : toString a = toString b ↔ a = b :=
    ⟨toString_int_inj a b ha hb, fun h => by rw [h]⟩
  refine ⟨⟨a, b, hxa, hyb, hiff, hstr⟩, ?_, ?_⟩
  · intro t u ht hu
    rw [ht] at hxa hiff
    rw [hu] at hyb hiff
    have hiff2 : a = b ↔ Identical t u = true := hiff
    rw [hxa, hyb, ← hiff2]
    simp [IDCall.returns]
  · intro t u ht hu
    rw [ht] at hxa hiff
    rw [hu] at hyb hiff
    have hiff2 : a = b ↔ Identical t u = true := hiff
    rw [hxa, hyb, ← hiff2, ← hstr]
    simp [IDCall.returns]

theorem typeID_stable_unique_witness :
    ((hashCallsExample.length : Int) + 1 < 9223372036854775808) ∧
    (runIDCalls (newGenerator "out.go") hashCallsExample).1 =
      [.string "1", .int 1, .string "2", .string "1"] ∧
    (runIDCalls (newGenerator "out.go") hashCallsExample).1.length = hashCallsExample.length ∧
    ∀ x ∈ hashCallsExample.zip (runIDCalls (newGenerator "out.go") hashCallsExample).1,
      ∀ y ∈ hashCallsExample.zip (runIDCalls (newGenerator "out.go") hashCallsExample).1,
        (∃ a b : Int, x.2 = x.1.returns a ∧ y.2 = y.1.returns b ∧
          (a = b ↔ Identical x.1.type y.1.type = true) ∧
          (toString a = toString b ↔ a = b)) ∧
        (∀ t u, x.1 = .typeID t → y.1 = .typeID u →
          (x.2 = y.2 ↔ Identical t u = true)) ∧
        (∀ t u, x.1 = .printTypeHash t → y.1 = .printTypeHash u →
          (x.2 = y.2 ↔ Identical t u = true)) :=
  ⟨by decide, by decide, typeID_stable_unique "out.go" hashCallsExample (by decide)⟩

/-- C9 fails for two distinct type objects that both describe `[]int`: the
second receives the ID of the first. -/
theorem typeID_shared_by_identical_objects :
    sliceOfIntExample 1 ≠ sliceOfIntExample 2 ∧
    (typeID (newGenerator "out.go") (sliceOfIntExample 1)).1 = 1 ∧
    (typeID (typeID (newGenerator "out.go") (sliceOfIntExample 1)).2
      (sliceOfIntExample 2)).1 = 1 := by
  decide

/-- C9 as amended: after any calls on a new generator, two type objects receive
the same ID from `typeID` exactly when they are identical for the type map
(`types.Identical`); distinct objects of one type share an ID, and two named
types from different declarations receive distinct IDs whatever their
underlying types. -/
theorem typeID_identity (outputPath : String) (calls : List IDCall) (a b : TypeObj)
    (hlen : (calls.length : Int) + 3 < 9223372036854775808) :
    ((typeID (runIDCalls (newGenerator outputPath) calls).2 a).1 =
        (typeID (typeID (runIDCalls (newGenerator outputPath) calls).2 a).2 b).1 ↔
      Identical a b = true) ∧
    (∀ o1 o2 u1 u2, a.ty = Ty.Named o1 u1 → b.ty = Ty.Named o2 u2 → o1 ≠ o2 →
      (typeID (runIDCalls (newGenerator outputPath) calls).2 a).1 ≠
        (typeID (typeID (runIDCalls (newGenerator outputPath) calls).2 a).2 b).1) := by
  obtain ⟨r1, -, -, -, r5⟩ := runIDCalls_spec calls (newGenerator outputPath)
    (newGenerator_wellFormed outputPath) (by simp only [newGenerator]; omega)
  have hn : (newGenerator outputPath).nextTypeID = 1 := rfl
  obtain ⟨s1, s2, -, s4⟩ := typeID_step _ a r1 (by omega)
  obtain ⟨t1, t2, t3, -⟩ := typeID_step _ b s1 (by omega)
  have ha := t3 _ _ s2
  have hiff : (typeID (runIDCalls (newGenerator outputPath) calls).2 a).1 =
        (typeID (typeID (runIDCalls (newGenerator outputPath) calls).2 a).2 b).1 ↔
      Identical a b = true := by
    rw [Identical_iff]
    constructor
    · intro h
      rw [← h] at t2
      exact t1.2.1 _ _ _ ha t2
    · intro h
      rw [TypeMap.At_congr _ _ _ h, t2] at ha
      exact (Option.some.inj ha).symm
  refine ⟨hiff, ?_⟩
  intro o1 o2 u1 u2 h1 h2 hne heq
  have := (Identical_iff a b).mp (hiff.mp heq)
  rw [h1, h2] at this
  injection this with h3 _
  exact hne h3

theorem typeID_identity_witness :
    ((idCallsExample.length : Int) + 3 < 9223372036854775808) ∧
    (namedExample 4 7).ty = Ty.Named 7 (Ty.Interface 0) ∧
    (namedExample 5 8).ty = Ty.Named 8 (Ty.Interface 0) ∧
    (typeID (runIDCalls (newGenerator "out.go") idCallsExample).2 (namedExample 4 7)).1 ≠
      (typeID (typeID (runIDCalls (newGenerator "out.go") idCallsExample).2
        (namedExample 4 7)).2 (namedExample 5 8)).1 :=
  ⟨by decide, rfl, rfl,
   (typeID_identity "out.go" idCallsExample (namedExample 4 7) (namedExample 5 8)
      (by decide)).2 7 8 (Ty.Interface 0) (Ty.Interface 0) rfl rfl (by decide)⟩

/-! ## Splicing -/

theorem sliceBytes_of_le (bs : List Byte) (lo hi : Nat) (h1 : lo ≤ hi) (h2 : hi ≤ bs.length) :
    sliceBytes bs lo hi = some ((bs.take hi).drop lo) := by
  simp [sliceBytes, h1, h2]

/-- Replacing sites that start at or after `lastOff` leaves the first `k ≤ lastOff` bytes. -/
theorem spliceSpec_take (posFile : TokenFile) (bs : List Byte) (flows : List flow)
    (texts : List (List Byte)) (lastOff : Int) (k : Nat) (hk : (k : Int) ≤ lastOff)
    (hord : flowsInOrder posFile bs.length lastOff flows) :
    (spliceSpec posFile bs (flows.zip texts)).take k = bs.take k := by
  induction flows generalizing texts lastOff k with
  | nil => simp [spliceSpec]
  | cons fl rest ih =>
    cases texts with
    | nil => simp [spliceSpec]
    | cons text texts =>
      obtain ⟨h1, h2, h3, h4⟩ := hord
      have hlo : ((fl.Pos - posFile.base).toNat : Int) = fl.Pos - posFile.base :=
        Int.toNat_of_nonneg (by omega)
      have ih1 := ih texts (fl.End - posFile.base) (fl.Pos - posFile.base).toNat
        (by omega) h4
      have hz : (fl :: rest).zip (text :: texts) = (fl, text) :: rest.zip texts := rfl
      rw [hz]
      show List.take k (replaceRange (spliceSpec posFile bs (rest.zip texts))
        (fl.Pos - posFile.base).toNat (fl.End - posFile.base).toNat text) = List.take k bs
      unfold replaceRange
      rw [ih1, List.append_assoc]
      have hlen : k ≤ (List.take (fl.Pos - posFile.base).toNat bs).length := by
        rw [List.length_take]
        omega
      rw [List.take_append_of_le_length hlen, List.take_take]
      congr 1
      omega

theorem TokenFile.Offset_of_mem (f : TokenFile) (p : Int) (h1 : f.base ≤ p)
    (h2 : p ≤ f.base + f.size) : f.Offset p = some (((p - f.base).toNat : Nat) : Int) := by
  unfold TokenFile.Offset
  rw [if_neg (by omega), Int.toNat_of_nonneg (by omega)]

/-- The loop of `GenerateFile` followed by the final write, started with `buff`
written and `lastOff` reached: what is added to `buff` is the spliced source
from `lastOff` on. -/
theorem generateFileLoop_spec {σ : Type}
    (generateFlow : σ → flow → Except String (List Byte × σ)) (posFile : TokenFile)
    (bs : List Byte) (hsize : posFile.size = bs.length) (flows : List flow)
    (buff : List Byte) (lastOff : Nat) (st : σ)
    (hord : flowsInOrder posFile bs.length lastOff flows) :
    generateFileRest bs (generateFileLoop generateFlow posFile bs flows buff lastOff st) =
      some (match generatedTexts generateFlow flows st with
        | .error e => .error e
        | .ok (texts, st') =>
          .ok (buff ++ (spliceSpec posFile bs (flows.zip texts)).drop lastOff, st')) := by
  induction flows generalizing buff lastOff st with
  | nil =>
    have hl : lastOff ≤ bs.length := by
      have : (lastOff : Int) ≤ bs.length := hord
      omega
    simp [generateFileLoop, generateFileRest, sliceBytes_of_le _ _ _ hl (le_refl _),
      generatedTexts, spliceSpec]
  | cons fl rest ih =>
    obtain ⟨h1, h2, h3, h4⟩ := hord
    have hlo : (((fl.Pos - posFile.base).toNat : Nat) : Int) = fl.Pos - posFile.base :=
      Int.toNat_of_nonneg (by omega)
    have hhi : (((fl.End - posFile.base).toNat : Nat) : Int) = fl.End - posFile.base :=
      Int.toNat_of_nonneg (by omega)
    have hoff1 := TokenFile.Offset_of_mem posFile fl.Pos (by omega) (by omega)
    have hoff2 := TokenFile.Offset_of_mem posFile fl.End (by omega) (by omega)
    have hseg := sliceBytes_of_le bs lastOff (fl.Pos - posFile.base).toNat (by omega) (by omega)
    rw [← hhi] at h4
    have hih := fun b s => ih b (fl.End - posFile.base).toNat s h4
    simp only [generateFileLoop, hoff1, hseg, hoff2, generatedTexts]
    cases hg : generateFlow st fl with
    | error e => simp [generateFileRest]
    | ok v =>
      obtain ⟨text, st1⟩ := v
      simp only
      rw [hih]
      cases hgt : generatedTexts generateFlow rest st1 with
      | error e => simp
      | ok w =>
        obtain ⟨texts, st2⟩ := w
        simp only [Option.some.injEq, Except.ok.injEq, Prod.mk.injEq, and_true]
        have hz : (fl :: rest).zip (text :: texts) = (fl, text) :: rest.zip texts := rfl
        rw [hz]
        show _ = buff ++ List.drop lastOff (replaceRange (spliceSpec posFile bs (rest.zip texts))
          (fl.Pos - posFile.base).toNat (fl.End - posFile.base).toNat text)
        unfold replaceRange
        rw [hhi] at h4
        rw [spliceSpec_take posFile bs rest texts (fl.End - posFile.base)
          (fl.Pos - posFile.base).toNat (by omega) h4]
        have hlen : lastOff ≤ (List.take (fl.Pos - posFile.base).toNat bs).length := by
          rw [List.length_take]
          omega
        rw [List.append_assoc (List.take _ bs), List.drop_append_of_le_length hlen]
        simp [List.append_assoc]

/-- C10: for flows listed in ascending source order that do not overlap and lie
within the bytes read, building the buffer never indexes out of bounds, and
when every flow's text is generated the buffer is the source with the byte
range `[Pos, End)` of each flow call replaced by the text generated for that
flow. -/
theorem generateFileBuffer_spliced {σ : Type}
    (generateFlow : σ → flow → Except String (List Byte × σ)) (posFile : TokenFile)
    (bs : List Byte) (flows : List flow) (st : σ) (hsize : posFile.size = bs.length)
    (hord : flowsInOrder posFile bs.length 0 flows) :
    generateFileBuffer generateFlow posFile bs flows st =
      some (match generatedTexts generateFlow flows st with
        | .error e => .error e
        | .ok (texts, st') => .ok (spliceSpec posFile bs (flows.zip texts), st')) := by
  have h := generateFileLoop_spec generateFlow posFile bs hsize flows [] 0 st hord
  simpa [generateFileBuffer] using h

theorem generateFileBuffer_spliced_witness :
    posFileExample.size = sourceExample.length ∧
    flowsInOrder posFileExample sourceExample.length 0 flowsExample ∧
    generateFileBuffer generateFlowExample posFileExample sourceExample flowsExample 0 =
      some (.ok ([10, 11, 7, 7, 7, 14, 15], 1)) :=
  have hord : flowsInOrder posFileExample sourceExample.length 0 flowsExample := by
    refine ⟨?_, ?_, ?_, ?_⟩
    · decide
    · decide
    · decide
    · show ((104 : Int) - 100) ≤ ((6 : Nat) : Int)
      decide
  ⟨rfl, hord,
   generateFileBuffer_spliced generateFlowExample posFileExample sourceExample flowsExample 0
     rfl hord⟩

/-! ## `GenerateFile` -/

/-- C11: for a file without flows `GenerateFile` returns nil and has no effect
on the file system: it neither reads the source nor writes the output,
whatever the surroundings do. -/
theorem GenerateFile_no_flows (env : GenEnv) (g : generator) (f : file) (w : World)
    (h : f.Flows = []) : GenerateFile env g f w = some (none, w) := by
  simp [GenerateFile, h]

theorem GenerateFile_no_flows_witness :
    fileNoFlowsExample.Flows = [] ∧
    GenerateFile genEnvExample (newGenerator "a_gen.go") fileNoFlowsExample { ops := [] } =
      some (none, { ops := [] }) :=
  ⟨rfl, GenerateFile_no_flows genEnvExample (newGenerator "a_gen.go") fileNoFlowsExample
    { ops := [] } rfl⟩

/-- C12 fails on the code: the comment `// +build cff` before the package
clause is replaced by `// @generated by CFF`, not by `// +build !cff`, so the
result carries no build constraint; and of two such comments in one group only
the first is replaced. -/
theorem rewriteBuildTags_generated_marker :
    rewriteBuildTags 30 buildTagCommentsExample =
      some [{ List := [{ Slash := 1, Text := "// @generated by CFF" }] }] ∧
    rewriteBuildTags 30 buildTagCommentsExample ≠
      some [{ List := [{ Slash := 1, Text := "// +build !cff" }] }] ∧
    rewriteBuildTags 30
        [{ List := [{ Slash := 1, Text := "// +build cff" },
                    { Slash := 15, Text := "// +build cff" }] }] =
      some [{ List := [{ Slash := 1, Text := "// @generated by CFF" },
                       { Slash := 15, Text := "// +build cff" }] }] := by
  decide

theorem lookup_append_entry (m : AddImports) (k p v : String) :
    (m ++ [(p, v)]).lookup k =
      match m.lookup k with
      | some x => some x
      | none => if k = p then some v else none := by
  induction m with
  | nil =>
    by_cases h : k = p
    · simp [List.lookup, h]
    · have : (k == p) = false := by simpa using h
      simp [List.lookup, h, this]
  | cons e m ih =>
    obtain ⟨a, b⟩ := e
    by_cases h : k = a
    · simp [List.lookup, h]
    · have : (k == a) = false := by simpa using h
      simp only [List.cons_append, List.lookup, this]
      exact ih

/-- C13: the template function `import`.  When the file already imports the
path, the result is the file's first name for it and the added imports are
unchanged.  Otherwise the path is a key of the added imports afterwards, an
entry that existed keeps its name (the map is unchanged), other keys are
untouched, and the result is the entry's name, or the last element of the path
when that name is empty.  A second call with the same path returns the same
identifier and the same map. -/
theorem importFunc_spec (f : file) (addImports : AddImports) (path : String) :
    (∀ n ns, f.Imports path = n :: ns → importFunc f addImports path = (n, addImports)) ∧
    (f.Imports path = [] →
      ((importFunc f addImports path).2.lookup path).isSome = true ∧
      (∀ name, addImports.lookup path = some name →
        (importFunc f addImports path).2 = addImports) ∧
      (∀ k, k ≠ path → (importFunc f addImports path).2.lookup k = addImports.lookup k) ∧
      (∀ name, (importFunc f addImports path).2.lookup path = some name →
        (importFunc f addImports path).1 = if name = "" then Base path else name)) ∧
    importFunc f (importFunc f addImports path).2 path =
      ((importFunc f addImports path).1, (importFunc f addImports path).2) := by
  cases hf : f.Imports path with
  | cons n ns =>
    refine ⟨?_, ?_, ?_⟩
    · intro n' ns' h
      injection h with h1 _
      subst h1
      simp [importFunc, hf]
    · intro h
      exact absurd h (by simp)
    · simp [importFunc, hf]
  | nil =>
    refine ⟨?_, ?_, ?_⟩
    · intro n ns h
      exact absurd h (by simp)
    · intro _
      cases hl : addImports.lookup path with
      | none =>
        have he : importFunc f addImports path = (Base path, addImports ++ [(path, "")]) := by
          simp [importFunc, hf, hl]
        rw [he]
        refine ⟨?_, ?_, ?_, ?_⟩
        · simp [lookup_append_entry, hl]
        · intro name h
          exact absurd h (by simp)
        · intro k hk
          rw [lookup_append_entry]
          cases addImports.lookup k <;> simp [hk]
        · intro name h
          rw [lookup_append_entry] at h
          simp only [hl, if_true, Option.some.injEq] at h
          simp [← h]
      | some name0 =>
        have he : importFunc f addImports path =
            (if name0 = "" then Base path else name0, addImports) := by
          simp [importFunc, hf, hl]
        rw [he]
        refine ⟨by simp [hl], fun _ _ => rfl, fun _ _ => rfl, ?_⟩
        intro name h
        simp only [hl, Option.some.injEq] at h
        simp [h]
    · cases hl : addImports.lookup path with
      | none =>
        have he : importFunc f addImports path = (Base path, addImports ++ [(path, "")]) := by
          simp [importFunc, hf, hl]
        rw [he]
        have h2 : (addImports ++ [(path, "")]).lookup path = some "" := by
          simp [lookup_append_entry, hl]
        simp [importFunc, hf, h2]
      | some name0 =>
        have he : importFunc f addImports path =
            (if name0 = "" then Base path else name0, addImports) := by
          simp [importFunc, hf, hl]
        rw [he]
        simp [importFunc, hf, hl]

theorem importFunc_spec_witness :
    fileImportsExample.Imports "context" = "ctx" :: ["context"] ∧
    importFunc fileImportsExample [("fmt", "")] "context" = ("ctx", [("fmt", "")]) ∧
    importFunc fileImportsExample [("fmt", "")] "go.uber.org/cff" =
      ("cff", [("fmt", ""), ("go.uber.org/cff", "")]) :=
  ⟨by decide,
   (importFunc_spec fileImportsExample [("fmt", "")] "context").1 "ctx" ["context"]
     (by decide),
   by decide⟩

/-! ## `Process` -/

/-- C14: when compiling the file returns an error, `Process` returns that error
and the file system is untouched, whatever the generators would do; and
whenever `Process` has had an effect on the file system, compilation had
succeeded. -/
theorem Process_compile_error (env : ProcessEnv) (p : Processor) (src : Nat)
    (outputPath : String) (w : World) :
    (∀ err, env.CompileFile p src = .error err →
      ∀ (genV2 : String → file → World → Option (Option String × World)) (gen : GenEnv),
        Process { env with GenerateFileV2 := genV2, gen := gen } p src outputPath w =
          some (some err, w)) ∧
    (∀ r w2, Process env p src outputPath w = some (r, w2) → w2 ≠ w →
      ∃ f, env.CompileFile p src = .ok f) := by
  constructor
  · intro err h genV2 gen
    simp [Process, h]
  · intro r w2 h hne
    cases hc : env.CompileFile p src with
    | error err =>
      simp only [Process, hc, Option.some.injEq, Prod.mk.injEq] at h
      exact absurd h.2.symm hne
    | ok f => exact ⟨f, rfl⟩

theorem Process_compile_error_witness :
    processEnvExample.CompileFile { InstrumentAllTasks := false, GenMode := { Modifier := true } }
        0 = .error "a.go:3:2: cff.Instrument requires a cff.Emitter" ∧
    Process processEnvExample { InstrumentAllTasks := false, GenMode := { Modifier := true } } 0
        "a_gen.go" { ops := [] } =
      some (some "a.go:3:2: cff.Instrument requires a cff.Emitter", { ops := [] }) :=
  ⟨rfl,
   (Process_compile_error processEnvExample
      { InstrumentAllTasks := false, GenMode := { Modifier := true } } 0 "a_gen.go"
      { ops := [] }).1 "a.go:3:2: cff.Instrument requires a cff.Emitter" rfl
      processEnvExample.GenerateFileV2 processEnvExample.gen⟩

/-! ## The generated task wrapper -/

theorem mem_skippedEvents (tasks : List FlowTask) (ran : Nat → Bool) (err err2 : Option String)
    (i : Nat) (h : Event.TaskSkipped i err2 ∈ skippedEvents tasks ran err) :
    (∃ t ∈ tasks, t.id = i) ∧ ran i = false := by
  simp only [skippedEvents, List.mem_map, List.mem_filter] at h
  obtain ⟨t, ⟨ht, hr⟩, he⟩ := h
  injection he with h1 _
  subst h1
  exact ⟨⟨t, ht, rfl⟩, by simpa using hr⟩

/-- The predicate check of a task whose predicate, if any, is true. -/
theorem gated_false (t : FlowTask) (st : FlowState)
    (hpred : ∀ p, t.predicate = some p → st.preds p = true) :
    (match t.predicate with
      | some p => !st.preds p
      | none => false) = false := by
  cases hp : t.predicate with
  | none => rfl
  | some p => simp [hpred p hp]

/-- C15: a task without `FallbackWith` whose predicate, if any, is true.  When
the user's function returns without error the wrapper calls `TaskSuccess` then
`TaskDone` and returns nil; when it returns the error `e`, `TaskError(e)` then
`TaskDone`, and returns `e`; when it panics with `v`, `TaskPanic(v)` then
`TaskDone`, and returns the error `task panic: v`.  In each case the task is
marked as ran, so the loop at the end of the flow does not report it skipped. -/
theorem runTask_without_fallback (t : FlowTask) (st : FlowState) (hfb : t.fallback = none)
    (hpred : ∀ p, t.predicate = some p → st.preds p = true) :
    (∀ out err, t.fn (t.inputs.map st.vars) = .returned out err →
      (if t.hasError then err else none) = none →
      (runTask t st).1 = .returning none ∧
      (runTask t st).2.events = st.events ++ [.TaskSuccess t.id, .TaskDone t.id]) ∧
    (∀ out err e, t.fn (t.inputs.map st.vars) = .returned out err →
      (if t.hasError then err else none) = some e →
      (runTask t st).1 = .returning (some e) ∧
      (runTask t st).2.events = st.events ++ [.TaskError t.id e, .TaskDone t.id]) ∧
    (∀ v, t.fn (t.inputs.map st.vars) = .panicked v →
      (runTask t st).1 = .returning (some ("task panic: " ++ v)) ∧
      (runTask t st).2.events = st.events ++ [.TaskPanic t.id v, .TaskDone t.id]) ∧
    (runTask t st).2.ran t.id = true ∧
    (∀ tasks err err2,
      Event.TaskSkipped t.id err2 ∉ skippedEvents tasks (runTask t st).2.ran err) := by
  have hg := gated_false t st hpred
  have hran : (runTask t st).2.ran t.id = true := by
    simp only [runTask, taskBody, hg]
    cases hc : t.fn (t.inputs.map st.vars) with
    | panicked v => simp [hfb, runDeferred, FlowState.emit]
    | returned out err =>
      cases he : (if t.hasError then err else none) with
      | none => simp [he, runDeferred, FlowState.emit]
      | some e => simp [he, hfb, runDeferred, FlowState.emit]
  refine ⟨?_, ?_, ?_, hran, ?_⟩
  · intro out err hc he
    simp [runTask, taskBody, hg, hc, he, runDeferred, FlowState.emit]
  · intro out err e hc he
    simp [runTask, taskBody, hg, hc, he, hfb, runDeferred, FlowState.emit]
  · intro v hc
    simp [runTask, taskBody, hg, hc, hfb, runDeferred, FlowState.emit]
  · intro tasks err err2 hmem
    have := (mem_skippedEvents tasks _ err err2 t.id hmem).2
    rw [hran] at this
    exact absurd this (by simp)

theorem runTask_without_fallback_witness :
    (task1Example (.panicked "boom")).fallback = none ∧
    (task1Example (.panicked "boom")).fn
        ((task1Example (.panicked "boom")).inputs.map (initialState (requestExample 3)).vars) =
      .panicked "boom" ∧
    (runTask (task1Example (.panicked "boom")) (initialState (requestExample 3))).1 =
      .returning (some ("task panic: " ++ "boom")) ∧
    (runTask (task1Example (.panicked "boom")) (initialState (requestExample 3))).2.events =
      (initialState (requestExample 3)).events ++
        [.TaskPanic (task1Example (.panicked "boom")).id "boom",
         .TaskDone (task1Example (.panicked "boom")).id] :=
  ⟨rfl, rfl,
   (runTask_without_fallback (task1Example (.panicked "boom")) (initialState (requestExample 3))
      rfl (fun p h => by simp [task1Example] at h)).2.2.1 "boom" rfl⟩

/-- C16: a task with `FallbackWith` (values `fb`) whose predicate, if any, is
true, always returns nil.  When the user's function returns the error `e` the
wrapper calls `TaskErrorRecovered(e)`, and when it panics with `v`,
`TaskPanicRecovered(v)`; in both cases the output variables are assigned the
fallback values, `TaskSuccess` is not called and `TaskDone` follows. -/
theorem runTask_with_fallback (t : FlowTask) (st : FlowState) (fb : List Val)
    (hfb : t.fallback = some fb)
    (hpred : ∀ p, t.predicate = some p → st.preds p = true) :
    (runTask t st).1 = .returning none ∧
    (∀ out err e, t.fn (t.inputs.map st.vars) = .returned out err →
      (if t.hasError then err else none) = some e →
      (runTask t st).2.events = st.events ++ [.TaskErrorRecovered t.id e, .TaskDone t.id] ∧
      (runTask t st).2.vars = assign (assign st.vars t.outputs out) t.outputs fb) ∧
    (∀ v, t.fn (t.inputs.map st.vars) = .panicked v →
      (runTask t st).2.events = st.events ++ [.TaskPanicRecovered t.id v, .TaskDone t.id] ∧
      (runTask t st).2.vars = assign st.vars t.outputs fb) := by
  have hg := gated_false t st hpred
  refine ⟨?_, ?_, ?_⟩
  · simp only [runTask, taskBody, hg]
    cases hc : t.fn (t.inputs.map st.vars) with
    | panicked v => simp [hfb, runDeferred, FlowState.emit]
    | returned out err =>
      cases he : (if t.hasError then err else none) with
      | none => simp [he, runDeferred, FlowState.emit]
      | some e => simp [he, hfb, runDeferred, FlowState.emit]
  · intro out err e hc he
    simp [runTask, taskBody, hg, hc, he, hfb, runDeferred, FlowState.emit]
  · intro v hc
    simp [runTask, taskBody, hg, hc, hfb, runDeferred, FlowState.emit]

theorem runTask_with_fallback_witness :
    (task4Example (.returned [0] (some "list failed"))).fallback = some [60] ∧
    (runTask (task4Example (.returned [0] (some "list failed")))
        (initialState (requestExample 3))).1 = .returning none ∧
    (runTask (task4Example (.returned [0] (some "list failed")))
        (initialState (requestExample 3))).2.events =
      [.TaskErrorRecovered 4 "list failed", .TaskDone 4] ∧
    (runTask (task4Example (.returned [0] (some "list failed")))
        (initialState (requestExample 3))).2.vars 5 = 60 :=
  ⟨rfl,
   (runTask_with_fallback (task4Example (.returned [0] (some "list failed")))
      (initialState (requestExample 3)) [60] rfl
      (fun p h => by simp [task4Example] at h)).1,
   by decide, by decide⟩

/-! ## A task whose predicate is false -/

/-- The loop over `tasks` reports a task that did not run exactly once, when
the tasks have distinct identities. -/
theorem count_skippedEvents (tasks : List FlowTask) (ran : Nat → Bool) (err : Option String)
    (i : Nat) (hnd : (tasks.map (fun t => t.id)).Nodup) (hin : ∃ t ∈ tasks, t.id = i)
    (hran : ran i = false) :
    (skippedEvents tasks ran err).count (Event.TaskSkipped i err) = 1 := by
  induction tasks with
  | nil =>
    obtain ⟨t, ht, -⟩ := hin
    exact absurd ht (List.not_mem_nil t)
  | cons t ts ih =>
    simp only [List.map_cons, List.nodup_cons] at hnd
    obtain ⟨hnot, hnd2⟩ := hnd
    by_cases hid : t.id = i
    · have hzero : (skippedEvents ts ran err).count (Event.TaskSkipped i err) = 0 := by
        rw [List.count_eq_zero]
        intro hmem
        obtain ⟨⟨u, hu, hui⟩, -⟩ := mem_skippedEvents ts ran err err i hmem
        apply hnot
        rw [hid, ← hui]
        exact List.mem_map_of_mem _ hu
      have hr : ran t.id = false := by rw [hid]; exact hran
      have hcons : skippedEvents (t :: ts) ran err =
          Event.TaskSkipped t.id err :: skippedEvents ts ran err := by
        simp [skippedEvents, hr]
      rw [hcons, hid, List.count_cons_self, hzero]
    · have hin2 : ∃ u ∈ ts, u.id = i := by
        obtain ⟨u, hu, hui⟩ := hin
        rcases List.mem_cons.mp hu with rfl | hu2
        · exact absurd hui hid
        · exact ⟨u, hu2, hui⟩
      by_cases hr : ran t.id = false
      · have hcons : skippedEvents (t :: ts) ran err =
            Event.TaskSkipped t.id err :: skippedEvents ts ran err := by
          simp [skippedEvents, hr]
        have hne : Event.TaskSkipped i err ≠ Event.TaskSkipped t.id err := by
          intro h
          injection h with h1 _
          exact hid h1.symm
        rw [hcons, List.count_cons_of_ne hne]
        exact ih hnd2 hin2
      · have hcons : skippedEvents (t :: ts) ran err = skippedEvents ts ran err := by
          simp [skippedEvents, hr]
        rw [hcons]
        exact ih hnd2 hin2

/-- C17: a task whose predicate evaluated to false, and which has not run.  The
wrapper returns nil and leaves every variable, every `ran` flag and the emitter
calls as they were, whatever the task's function is: the function is not
invoked, the outputs keep their values, and neither `TaskSuccess`, `TaskError`
nor `TaskDone` is called.  When the flow then ends without error, with the task
still not run, the emitter calls are `FlowSuccess`, then `TaskSkipped` for the
tasks that did not run, among them this task exactly once, then `FlowDone`. -/
theorem runTask_predicate_false (t : FlowTask) (st : FlowState) (p : Nat)
    (hp : t.predicate = some p) (hf : st.preds p = false) (hran : st.ran t.id = false) :
    (∀ fn, runTask { t with fn := fn } st = (.returning none, st)) ∧
    (∀ (fl : Flow) (st2 : FlowState) (dest : Nat → Val), t ∈ fl.tasks →
      (fl.tasks.map (fun u => u.id)).Nodup → st2.ran t.id = false →
      (flowEpilogue fl none st2 dest).2.2.events =
        st2.events ++ [.FlowSuccess] ++ skippedEvents fl.tasks st2.ran none ++ [.FlowDone] ∧
      (skippedEvents fl.tasks st2.ran none).count (Event.TaskSkipped t.id none) = 1) := by
  constructor
  · intro fn
    simp [runTask, taskBody, hp, hf, hran, runDeferred]
  · intro fl st2 dest hmem hnd hr
    refine ⟨?_, count_skippedEvents fl.tasks st2.ran none t.id hnd ⟨t, hmem, rfl⟩ hr⟩
    simp [flowEpilogue, FlowState.emit]

theorem runTask_predicate_false_witness :
    task5Example.predicate = some 0 ∧
    (initialState (requestExample 7)).preds 0 = false ∧
    (runTask task5Example (initialState (requestExample 7))).1 = .returning none ∧
    (runTask task5Example (initialState (requestExample 7))).2.events = [] ∧
    (runFlow handleFooExample none (initialState (requestExample 7)) (fun _ => 0)).2.2.events =
      [.TaskSuccess 0, .TaskDone 0, .TaskSuccess 1, .TaskDone 1, .TaskSuccess 4, .TaskDone 4,
       .TaskSuccess 2, .TaskDone 2, .TaskSuccess 3, .TaskDone 3,
       .FlowSuccess, .TaskSkipped 5 none, .FlowDone] :=
  have h := (runTask_predicate_false task5Example (initialState (requestExample 7)) 0 rfl rfl
    rfl).1 task5Example.fn
  ⟨rfl, rfl, congrArg Prod.fst h, congrArg (fun r => r.2.events) h, by decide⟩

/-! ## Tasks that depend on a skipped task -/

/-- C18 fails on the flow of `HandleFoo`: with the predicate `p0` false the
gated task `task5` is skipped, but `task2`, which depends on `task5` only, and
`task3`, which depends on `task2` only, are run: their functions are invoked
(on the zero value left in `v6`), they call `TaskSuccess` and `TaskDone`, are
marked as ran, and no `TaskSkipped` is called for them. -/
theorem handleFoo_dependents_run :
    (runFlow handleFooExample none (initialState (requestExample 7)) (fun _ => 0)).2.2.preds 0 =
      false ∧
    (runFlow handleFooExample none (initialState (requestExample 7)) (fun _ => 0)).2.2.ran 5 =
      false ∧
    (runFlow handleFooExample none (initialState (requestExample 7)) (fun _ => 0)).2.2.vars 6 =
      0 ∧
    (runFlow handleFooExample none (initialState (requestExample 7)) (fun _ => 0)).2.2.ran 2 =
      true ∧
    (runFlow handleFooExample none (initialState (requestExample 7)) (fun _ => 0)).2.2.vars 7 =
      100 ∧
    (runFlow handleFooExample none (initialState (requestExample 7)) (fun _ => 0)).2.2.ran 3 =
      true ∧
    Event.TaskSuccess 2 ∈
      (runFlow handleFooExample none (initialState (requestExample 7)) (fun _ => 0)).2.2.events ∧
    Event.TaskSkipped 2 none ∉
      (runFlow handleFooExample none (initialState (requestExample 7)) (fun _ => 0)).2.2.events ∧
    Event.TaskSkipped 3 none ∉
      (runFlow handleFooExample none (initialState (requestExample 7))
        (fun _ => 0)).2.2.events := by
  decide

/-- C18 as amended: a task that has no predicate of its own is run whatever the
predicates evaluated to, also when all it depends on is a skipped task.  Its
function is invoked on the current values of its inputs; when the function
returns without error its outputs are assigned and `TaskSuccess`, `TaskDone`
are called; in every case the task is marked as ran and the loop at the end of
the flow does not report it skipped.  Only the gated task itself is skipped. -/
theorem runTask_ungated (t : FlowTask) (st : FlowState) (h : t.predicate = none) :
    (∀ preds, (runTask t { st with preds := preds }).1 = (runTask t st).1 ∧
      (runTask t { st with preds := preds }).2.events = (runTask t st).2.events ∧
      (runTask t { st with preds := preds }).2.vars = (runTask t st).2.vars) ∧
    (∀ out err, t.fn (t.inputs.map st.vars) = .returned out err →
      (if t.hasError then err else none) = none →
      (runTask t st).2.vars = assign st.vars t.outputs out ∧
      (runTask t st).2.events = st.events ++ [.TaskSuccess t.id, .TaskDone t.id]) ∧
    (runTask t st).2.ran t.id = true ∧
    (∀ tasks err err2,
      Event.TaskSkipped t.id err2 ∉ skippedEvents tasks (runTask t st).2.ran err) := by
  have hran : (runTask t st).2.ran t.id = true := by
    simp only [runTask, taskBody, h]
    cases hc : t.fn (t.inputs.map st.vars) with
    | panicked v => cases hfb : t.fallback <;> simp [hfb, runDeferred, FlowState.emit]
    | returned out err =>
      cases he : (if t.hasError then err else none) with
      | none => simp [he, runDeferred, FlowState.emit]
      | some e => cases hfb : t.fallback <;> simp [he, hfb, runDeferred, FlowState.emit]
  refine ⟨?_, ?_, hran, ?_⟩
  · intro preds
    simp only [runTask, taskBody, h]
    cases hc : t.fn (t.inputs.map st.vars) with
    | panicked v => cases hfb : t.fallback <;> simp [hfb, runDeferred, FlowState.emit]
    | returned out err =>
      cases he : (if t.hasError then err else none) with
      | none => simp [he, runDeferred, FlowState.emit]
      | some e => cases hfb : t.fallback <;> simp [he, hfb, runDeferred, FlowState.emit]
  · intro out err hc he
    simp [runTask, taskBody, h, hc, he, runDeferred, FlowState.emit]
  · intro tasks err err2 hmem
    have := (mem_skippedEvents tasks _ err err2 t.id hmem).2
    rw [hran] at this
    exact absurd this (by simp)

theorem runTask_ungated_witness :
    task2Example.predicate = none ∧
    (runTask task2Example (initialState (requestExample 7))).2.ran task2Example.id = true ∧
    (runTask task2Example (initialState (requestExample 7))).2.events =
      [.TaskSuccess 2, .TaskDone 2] :=
  ⟨rfl, (runTask_ungated task2Example (initialState (requestExample 7)) rfl).2.2.1, by decide⟩

/-! ## The end of the flow function -/

/-- C19: the end of the flow function.  When `Wait` returns the error `e` the
flow calls `FlowError(e)` and returns `e`, and the caller's variables are
unchanged; otherwise it assigns every declared output, calls `FlowSuccess` and
returns nil.  In both cases `TaskSkipped` is then called for the tasks that did
not run, in enqueue order, and `FlowDone` comes last, once. -/
theorem flowEpilogue_spec (fl : Flow) (st : FlowState) (dest : Nat → Val) :
    (∀ e, (flowEpilogue fl (some e) st dest).1 = some e ∧
      (flowEpilogue fl (some e) st dest).2.1 = dest ∧
      (flowEpilogue fl (some e) st dest).2.2.events =
        st.events ++ [.FlowError e] ++
          (fl.tasks.filter (fun t => !st.ran t.id)).map
            (fun t => Event.TaskSkipped t.id (some e)) ++ [.FlowDone]) ∧
    ((flowEpilogue fl none st dest).1 = none ∧
      (flowEpilogue fl none st dest).2.1 =
        assign dest (fl.results.map Prod.fst) (fl.results.map (fun r => st.vars r.2)) ∧
      (flowEpilogue fl none st dest).2.2.events =
        st.events ++ [.FlowSuccess] ++
          (fl.tasks.filter (fun t => !st.ran t.id)).map
            (fun t => Event.TaskSkipped t.id none) ++ [.FlowDone]) ∧
    (∀ waitErr, (flowEpilogue fl waitErr st dest).2.2.vars = st.vars ∧
      (flowEpilogue fl waitErr st dest).2.2.ran = st.ran) := by
  refine ⟨?_, ?_, ?_⟩
  · intro e
    simp [flowEpilogue, FlowState.emit, skippedEvents]
  · simp [flowEpilogue, FlowState.emit, skippedEvents]
  · intro waitErr
    cases waitErr <;> simp [flowEpilogue, FlowState.emit]

/-! ## The emitter stack -/

theorem stackInit_eq (call : Nat → EmitterCall) (ret : Nat → Nat) (stack : List Nat)
    (out : List Nat) (calls : List EmitterCall) :
    stackInit call ret stack (out, calls) = (out ++ stack.map ret, calls ++ stack.map call) := by
  induction stack generalizing out calls with
  | nil => simp [stackInit]
  | cons e rest ih => simp [stackInit, ih]

theorem stackSignal_eq (call : Nat → EmitterCall) (stack : List Nat) (calls : List EmitterCall) :
    stackSignal call stack calls = calls ++ stack.map call := by
  induction stack generalizing calls with
  | nil => simp [stackSignal]
  | cons e rest ih => simp [stackSignal, ih]

/-- C20: on a stack of members, `FlowInit`, `TaskInit` and `FlowFailedTask` are
received once by each member, in order, with the arguments given, and return
the stack of the members' results; a signal on a stack of flow or task emitters
is received once by each of its members, in order; so a signal sent to the
result of `FlowFailedTask` goes to the replacements and not to the flow
emitters that were replaced. -/
theorem emitterStack_fans_out (m : Members) (stack : List Nat) (info task directive : Info)
    (calls : List EmitterCall) :
    stackFlowInit m stack info calls =
      (stack.map (fun e => m.FlowInit e info),
        calls ++ stack.map (fun e => EmitterCall.FlowInit e info)) ∧
    stackTaskInit m stack task directive calls =
      (stack.map (fun e => m.TaskInit e task directive),
        calls ++ stack.map (fun e => EmitterCall.TaskInit e task directive)) ∧
    (∀ (flows : List Nat) (name err : String),
      stackFlowFailedTask m flows name err calls =
        (flows.map (fun f => m.FlowFailedTask f name err),
          calls ++ flows.map (fun f => EmitterCall.FlowFailedTask f name err))) ∧
    (∀ (flows : List Nat) (signal : FlowSignal),
      stackFlowSignal flows signal calls =
        calls ++ flows.map (fun f => EmitterCall.flow f signal)) ∧
    (∀ (tasks : List Nat) (signal : TaskSignal),
      stackTaskSignal tasks signal calls =
        calls ++ tasks.map (fun t => EmitterCall.task t signal)) ∧
    (∀ (flows : List Nat) (name err : String) (signal : FlowSignal),
      stackFlowSignal (stackFlowFailedTask m flows name err calls).1 signal
          (stackFlowFailedTask m flows name err calls).2 =
        calls ++ flows.map (fun f => EmitterCall.FlowFailedTask f name err) ++
          flows.map (fun f => EmitterCall.flow (m.FlowFailedTask f name err) signal)) := by
  refine ⟨?_, ?_, ?_, ?_, ?_, ?_⟩
  · simp [stackFlowInit, stackInit_eq]
  · simp [stackTaskInit, stackInit_eq]
  · intro flows name err
    simp [stackFlowFailedTask, stackInit_eq]
  · intro flows signal
    simp [stackFlowSignal, stackSignal_eq]
  · intro tasks signal
    simp [stackTaskSignal, stackSignal_eq]
  · intro flows name err signal
    simp [stackFlowSignal, stackFlowFailedTask, stackInit_eq, stackSignal_eq, List.map_map,
      Function.comp_def]

/-- The scenario of the test: `FlowInit` on the stack of the emitters 1 and 2,
then `FlowFailedTask`, then `FlowSuccess` on its result. -/
theorem emitterStack_failed_task_example :
    (stackFlowInit membersExample [1, 2] ⟨"foo", "foo.go", 0, 0⟩ []).1 = [11, 12] ∧
    (stackFlowFailedTask membersExample [11, 12] "foobar" "foobar" []).1 = [111, 112] ∧
    stackFlowSignal [111, 112] .FlowSuccess [] =
      [.flow 111 .FlowSuccess, .flow 112 .FlowSuccess] := by
  decide

/-! ## The `--file` option -/

theorem indexByteFrom_spec (c : Char) (l : List Char) (k : Nat) :
    (c ∉ l ∧ indexByteFrom c l k = -1) ∨
    (∃ pre post, l = pre ++ c :: post ∧ c ∉ pre ∧ indexByteFrom c l k = ((k + pre.length : Nat) : Int)) := by
  induction l generalizing k with
  | nil => left; simp [indexByteFrom]
  | cons x xs ih =>
    by_cases hx : x = c
    · right
      exact ⟨[], xs, by simp [hx], by simp, by simp [indexByteFrom, hx]⟩
    · rcases ih (k + 1) with ⟨h1, h2⟩ | ⟨pre, post, h1, h2, h3⟩
      · left
        refine ⟨?_, by simp [indexByteFrom, hx, h2]⟩
        simp only [List.mem_cons, not_or]
        exact ⟨fun h => hx h.symm, h1⟩
      · right
        refine ⟨x :: pre, post, by simp [h1], ?_, ?_⟩
        · simp only [List.mem_cons, not_or]
          exact ⟨fun h => hx h.symm, h2⟩
        · simp only [indexByteFrom, hx, if_false, h3, List.length_cons]
          congr 1
          omega

/-- The split of an argument without `=`. -/
theorem splitFlag_of_not_mem (s : String) (h : '=' ∉ s.data) :
    Main.splitFlag s = (s, "") := by
  rcases indexByteFrom_spec '=' s.data 0 with ⟨-, h2⟩ | ⟨pre, post, h1, -, -⟩
  · simp [Main.splitFlag, IndexByte, h2]
  · exfalso
    apply h
    rw [h1]
    simp

/-- The split of an argument at its first `=`. -/
theorem splitFlag_of_eq (s : String) (pre post : List Char)
    (h : s.data = pre ++ '=' :: post) (hpre : '=' ∉ pre) :
    Main.splitFlag s = (String.mk pre, String.mk post) := by
  rcases indexByteFrom_spec '=' s.data 0 with ⟨h1, -⟩ | ⟨pre2, post2, h1, h2, h3⟩
  · exfalso
    apply h1
    rw [h]
    simp
  · have hpp : pre2 = pre ∧ post2 = post := by
      rw [h] at h1
      have key : ∀ (a b : List Char) (x y : List Char), '=' ∉ a → '=' ∉ b →
          a ++ '=' :: x = b ++ '=' :: y → a = b ∧ x = y := by
        intro a
        induction a with
        | nil =>
          intro b x y _ hb hab
          cases b with
          | nil => simpa using hab
          | cons b0 bs =>
            simp only [List.nil_append, List.cons_append, List.cons.injEq] at hab
            exact absurd (by simp [← hab.1]) hb
        | cons a0 as iha =>
          intro b x y ha hb hab
          cases b with
          | nil =>
            simp only [List.nil_append, List.cons_append, List.cons.injEq] at hab
            exact absurd (by simp [hab.1]) ha
          | cons b0 bs =>
            simp only [List.cons_append, List.cons.injEq] at hab
            simp only [List.mem_cons, not_or] at ha hb
            obtain ⟨e1, e2⟩ := iha bs x y ha.2 hb.2 hab.2
            exact ⟨by rw [hab.1, e1], e2⟩
      obtain ⟨e1, e2⟩ := key pre pre2 post post2 hpre h2 h1
      exact ⟨e1.symm, e2.symm⟩
    obtain ⟨e1, e2⟩ := hpp
    subst e1 e2
    have hi : IndexByte s '=' = ((pre2.length : Nat) : Int) := by
      simp [IndexByte, h3]
    simp only [Main.splitFlag, hi]
    have hnn : ((pre2.length : Nat) : Int) ≥ 0 := Int.ofNat_nonneg _
    simp only [hnn, if_true, Int.toNat_ofNat, h]
    simp

/-- An argument has no `=`, or splits at its first `=`. -/
theorem first_eq_split (l : List Char) :
    '=' ∉ l ∨ ∃ pre post, l = pre ++ '=' :: post ∧ '=' ∉ pre := by
  rcases indexByteFrom_spec '=' l 0 with ⟨h, -⟩ | ⟨pre, post, h1, h2, -⟩
  · exact Or.inl h
  · exact Or.inr ⟨pre, post, h1, h2⟩

theorem split_at_first_unique (c : Char) (a b x y : List Char) (ha : c ∉ a) (hb : c ∉ b)
    (hab : a ++ c :: x = b ++ c :: y) : a = b ∧ x = y := by
  induction a generalizing b with
  | nil =>
    cases b with
    | nil => simpa using hab
    | cons b0 bs =>
      simp only [List.nil_append, List.cons_append, List.cons.injEq] at hab
      exact absurd (by simp [← hab.1]) hb
  | cons a0 as iha =>
    cases b with
    | nil =>
      simp only [List.nil_append, List.cons_append, List.cons.injEq] at hab
      exact absurd (by simp [hab.1]) ha
    | cons b0 bs =>
      simp only [List.cons_append, List.cons.injEq] at hab
      simp only [List.mem_cons, not_or] at ha hb
      obtain ⟨e1, e2⟩ := iha bs ha.2 hb.2 hab.2
      exact ⟨by rw [hab.1, e1], e2⟩

theorem string_length_eq_zero (s : String) : s.length = 0 ↔ s = "" := by
  constructor
  · intro h
    have : s.data = [] := List.length_eq_zero.mp h
    exact String.ext this
  · intro h
    rw [h]
    rfl

/-- The result of `UnmarshalFlag` in terms of the split. -/
theorem UnmarshalFlag_eq (f : Main.file) (s : String) :
    f.UnmarshalFlag s =
      if (Main.splitFlag s).1 = "" then (some "file name cannot be empty", f)
      else (none, { Name := (Main.splitFlag s).1, OutputPath := (Main.splitFlag s).2 }) := by
  unfold Main.file.UnmarshalFlag
  by_cases h : (Main.splitFlag s).1 = ""
  · simp [h]
  · have : ¬ (Main.splitFlag s).1.length = 0 := fun hl => h ((string_length_eq_zero _).mp hl)
    simp [h, this]

/-- C21: for an argument `s` that `UnmarshalFlag` accepts, when `s` contains `=`
the `Name` is what stands before the first `=` and the `OutputPath` all that
follows it; when `s` contains no `=` the `Name` is `s` and the `OutputPath` is
empty; in both cases the `Name` contains no `=`. -/
theorem UnmarshalFlag_parts (f f2 : Main.file) (s : String)
    (h : f.UnmarshalFlag s = (none, f2)) :
    (∀ pre post, s.data = pre ++ '=' :: post → '=' ∉ pre →
      f2.Name = String.mk pre ∧ f2.OutputPath = String.mk post) ∧
    ('=' ∉ s.data → f2.Name = s ∧ f2.OutputPath = "") ∧
    '=' ∉ f2.Name.data := by
  rw [UnmarshalFlag_eq] at h
  by_cases hn : (Main.splitFlag s).1 = ""
  · simp [hn] at h
  · simp only [hn, if_false, Prod.mk.injEq, true_and] at h
    subst h
    refine ⟨?_, ?_, ?_⟩
    · intro pre post hs hpre
      simp [splitFlag_of_eq s pre post hs hpre]
    · intro hno
      simp [splitFlag_of_not_mem s hno]
    · rcases first_eq_split s.data with hno | ⟨pre, post, hs, hpre⟩
      · simpa [splitFlag_of_not_mem s hno] using hno
      · simpa [splitFlag_of_eq s pre post hs hpre] using hpre

theorem UnmarshalFlag_parts_witness :
    ({ Name := "", OutputPath := "" } : Main.file).UnmarshalFlag "foo.go=_gen/foo=1.go" =
      (none, fileOptionExample) ∧
    '=' ∉ fileOptionExample.Name.data :=
  have h : ({ Name := "", OutputPath := "" } : Main.file).UnmarshalFlag "foo.go=_gen/foo=1.go" =
      (none, fileOptionExample) := by decide
  ⟨h, (UnmarshalFlag_parts _ _ _ h).2.2⟩

/-- C22: `UnmarshalFlag` returns the error `file name cannot be empty` exactly
when the argument is empty or begins with `=`; it returns no other error, and
when it returns an error the receiver is left as it was. -/
theorem UnmarshalFlag_empty_name (f : Main.file) (s : String) :
    ((f.UnmarshalFlag s).1 = some "file name cannot be empty" ↔
      (s = "" ∨ ∃ rest, s.data = '=' :: rest)) ∧
    ((f.UnmarshalFlag s).1 = none ∨ (f.UnmarshalFlag s).1 = some "file name cannot be empty") ∧
    ((f.UnmarshalFlag s).1 ≠ none → (f.UnmarshalFlag s).2 = f) := by
  rw [UnmarshalFlag_eq]
  have hname : (Main.splitFlag s).1 = "" ↔ (s = "" ∨ ∃ rest, s.data = '=' :: rest) := by
    rcases first_eq_split s.data with hno | ⟨pre, post, hs, hpre⟩
    · rw [splitFlag_of_not_mem s hno]
      constructor
      · intro h
        exact Or.inl h
      · rintro (h | ⟨rest, h⟩)
        · exact h
        · exact absurd (by simp [h]) hno
    · rw [splitFlag_of_eq s pre post hs hpre]
      constructor
      · intro h
        have hp : pre = [] := by
          have := congrArg String.data h
          simpa using this
        right
        exact ⟨post, by simp [hs, hp]⟩
      · rintro (h | ⟨rest, h⟩)
        · rw [h] at hs
          exact absurd hs (by simp)
        · rw [hs] at h
          cases pre with
          | nil => rfl
          | cons p0 ps =>
            simp only [List.cons_append, List.cons.injEq] at h
            exact absurd (by simp [h.1]) hpre
  by_cases hn : (Main.splitFlag s).1 = ""
  · rw [if_pos hn]
    exact ⟨⟨fun _ => hname.mp hn, fun _ => rfl⟩, Or.inr rfl, fun _ => rfl⟩
  · rw [if_neg hn]
    refine ⟨⟨fun h => ?_, fun h => absurd (hname.mpr h) hn⟩, Or.inl rfl, ?_⟩
    · exact absurd h (by simp)
    · intro h
      exact absurd rfl h

theorem UnmarshalFlag_empty_name_witness :
    (fileOptionExample.UnmarshalFlag "=out.go").1 ≠ none ∧
    fileOptionExample.UnmarshalFlag "=out.go" =
      (some "file name cannot be empty", fileOptionExample) :=
  have h : (fileOptionExample.UnmarshalFlag "=out.go").1 ≠ none := by decide
  ⟨h, Prod.ext (by decide) ((UnmarshalFlag_empty_name fileOptionExample "=out.go").2.2 h)⟩

/-- C27: `String` and `UnmarshalFlag`.  A value whose `Name` is not empty and
contains no `=` is parsed back from its `String()`.  For an accepted argument
`s`, the `String()` of the parsed value is `s`, except when the first `=` of
`s` is its last character: then it is `s` without that `=`. -/
theorem String_UnmarshalFlag (g : Main.file) :
    (∀ f : Main.file, f.Name ≠ "" → '=' ∉ f.Name.data →
      g.UnmarshalFlag f.String = (none, f)) ∧
    (∀ (s : String) (f2 : Main.file), g.UnmarshalFlag s = (none, f2) →
      (∀ pre, s.data = pre ++ ['='] → '=' ∉ pre → f2.String = String.mk pre) ∧
      ((∀ pre, s.data = pre ++ ['='] → '=' ∈ pre) → f2.String = s)) := by
  constructor
  · intro f hne hno
    rw [UnmarshalFlag_eq]
    by_cases ho : f.OutputPath.length = 0
    · have hout : f.OutputPath = "" := (string_length_eq_zero _).mp ho
      have hs : f.String = f.Name := by simp [Main.file.String, ho]
      rw [hs, splitFlag_of_not_mem f.Name hno, if_neg hne]
      cases f
      simp_all
    · have hs : f.String = f.Name ++ "=" ++ f.OutputPath := by simp [Main.file.String, ho]
      have hd : (f.Name ++ "=" ++ f.OutputPath).data = f.Name.data ++ '=' :: f.OutputPath.data := by
        simp [String.data_append]
      rw [hs, splitFlag_of_eq _ f.Name.data f.OutputPath.data hd hno]
      have : (String.mk f.Name.data) = f.Name := rfl
      rw [if_neg (by rw [this]; exact hne)]
  · intro s f2 h
    rw [UnmarshalFlag_eq] at h
    by_cases hn : (Main.splitFlag s).1 = ""
    · simp [hn] at h
    · simp only [hn, if_false, Prod.mk.injEq, true_and] at h
      subst h
      rcases first_eq_split s.data with hno | ⟨pre, post, hs, hpre⟩
      · rw [splitFlag_of_not_mem s hno]
        constructor
        · intro pre2 h2 _
          exact absurd (by simp [h2]) hno
        · intro _
          simp [Main.file.String]
      · rw [splitFlag_of_eq s pre post hs hpre]
        constructor
        · intro pre2 h2 hpre2
          have h3 : pre ++ '=' :: post = pre2 ++ '=' :: [] := by rw [← hs, h2]
          obtain ⟨e1, e2⟩ := split_at_first_unique '=' pre pre2 post [] hpre hpre2 h3
          subst e1 e2
          simp [Main.file.String]
        · intro hall
          have hpost : post ≠ [] := by
            intro hp
            exact hpre (hall pre (by rw [hs, hp]))
          have hlen : ¬ (String.mk post).length = 0 := by
            intro hl
            exact hpost (List.length_eq_zero.mp hl)
          simp only [Main.file.String, hlen, if_false]
          apply String.ext
          simp [String.data_append, hs]

theorem String_UnmarshalFlag_witness :
    fileOptionExample.Name ≠ "" ∧ '=' ∉ fileOptionExample.Name.data ∧
    fileOptionExample.String = "foo.go=_gen/foo=1.go" ∧
    ({ Name := "x", OutputPath := "y" } : Main.file).UnmarshalFlag fileOptionExample.String =
      (none, fileOptionExample) :=
  ⟨by decide, by decide, by decide,
   (String_UnmarshalFlag { Name := "x", OutputPath := "y" }).1 fileOptionExample
     (by decide) (by decide)⟩

/-! ## The formatting error in `GenerateFile` -/

/-- C29: the error of `format.Node` is discarded.  Replacing the formatting
error by any other, or by none, changes neither the result of `GenerateFile`
nor its effects; and once the buffer is built, parsed and its build tags
rewritten, the output file is written with the bytes formatting produced and
the result is the result of that write. -/
theorem GenerateFile_format_error_discarded (env : GenEnv) (g : generator) (f : file)
    (w : World) (ferr : AstFile → Option String) :
    GenerateFile { env with formatNode := fun p => ((env.formatNode p).1, ferr p) } g f w =
      GenerateFile env g f w ∧
    (∀ bs buff st parsed comments, f.Flows ≠ [] → env.ReadFile f.Filepath = .ok bs →
      generateFileBuffer (env.generateFlow f) f.posFile bs f.Flows (g, []) =
        some (.ok (buff, st)) →
      env.ParseFile f.posName buff = .ok parsed →
      rewriteBuildTags (importsEdited env f st.2 parsed).Package
        (importsEdited env f st.2 parsed).Comments = some comments →
      GenerateFile env g f w =
        some (env.WriteFile g.outputPath
            (env.formatNode { importsEdited env f st.2 parsed with Comments := comments }).1,
          (w.log (.ReadFile f.Filepath)).log (.WriteFile g.outputPath
            (env.formatNode { importsEdited env f st.2 parsed with Comments := comments }).1))) := by
  constructor
  · unfold GenerateFile
    rfl
  · intro bs buff st parsed comments hfl hread hbuf hparse hrw
    have hlen : ¬ f.Flows.length = 0 := fun h => hfl (List.length_eq_zero.mp h)
    unfold importsEdited at hrw
    simp only [GenerateFile, hlen, if_false, hread, hbuf, hparse, hrw, importsEdited]

theorem GenerateFile_format_error_discarded_witness :
    fileOneFlowExample.Flows ≠ [] ∧
    (genEnvFormatFailsExample.formatNode { Package := 1, Comments := [], tree := 0 }).2 =
      some "format: invalid syntax tree" ∧
    GenerateFile genEnvFormatFailsExample (newGenerator "a_gen.go") fileOneFlowExample
        { ops := [] } =
      some (none, { ops := [.ReadFile "a.go", .WriteFile "a_gen.go" [1, 2]] }) :=
  ⟨by decide, rfl,
   (GenerateFile_format_error_discarded genEnvFormatFailsExample (newGenerator "a_gen.go")
      fileOneFlowExample { ops := [] } (fun _ => none)).2 sourceExample
      [10, 11, 7, 7, 7, 14, 15] (newGenerator "a_gen.go", [])
      { Package := 1, Comments := [], tree := 0 } [] (by decide) rfl rfl rfl rfl⟩

/-! ## Other cff calls inside `cff.Parallel` -/

/-- C30: inside `cff.Parallel`, a call of a cff function whose name is none of
`Task`, `Tasks`, `Concurrency`, `ContinueOnError`, `InstrumentParallel`,
`Slice`, `WithEmitter` records no diagnostic and leaves the `parallel` and the
compiler as they were. -/
theorem compileParallelArg_other_call (env : Env) (p : parallel) (c : compiler) (arg0 fn : Expr)
    (ceArgs : List Expr) (f : Func) (hU : Unparen arg0 = .CallExpr fn ceArgs)
    (hS : env.StaticCallee (.CallExpr fn ceArgs) = some f)
    (hpkg : env.isPackagePathEquivalent f.Pkg cffImportPath = true)
    (h1 : f.Name ≠ "Task") (h2 : f.Name ≠ "Tasks") (h3 : f.Name ≠ "Concurrency")
    (h4 : f.Name ≠ "ContinueOnError") (h5 : f.Name ≠ "InstrumentParallel")
    (h6 : f.Name ≠ "Slice") (h7 : f.Name ≠ "WithEmitter") :
    compileParallelArg env p c arg0 = some (p, c) := by
  simp [compileParallelArg, hU, hS, hpkg, h1, h2, h3, h4, h5, h6, h7]

theorem compileParallelArg_other_call_witness :
    compileParallelArg (sliceEnvExample (Ty.Basic BasicKind.String) (Ty.Basic BasicKind.String))
        parallelExample { taskSerial := 0, errors := [] }
        (.ParenExpr (.CallExpr (.Leaf 17) [.Leaf 6])) =
      some (parallelExample, { taskSerial := 0, errors := [] }) :=
  compileParallelArg_other_call
    (sliceEnvExample (Ty.Basic BasicKind.String) (Ty.Basic BasicKind.String))
    parallelExample { taskSerial := 0, errors := [] }
    (.ParenExpr (.CallExpr (.Leaf 17) [.Leaf 6])) (.Leaf 17) [.Leaf 6] (cffFuncExample "Results")
    rfl rfl rfl (by decide) (by decide) (by decide) (by decide) (by decide) (by decide)
    (by decide)

/-! ## `run` -/

/-- The loops of `run`, when every syntax tree is there, no call of `Process`
panics and the counters stay in range: the loops end, `Process` is called for
the selected files in order with the output path of each, `processed` counts
the calls, `errored` the calls that returned an error, and `err` collects
those errors in order. -/
theorem runLoop_spec (env : Main.RunEnv) (processor : Processor) (hadFiles : Bool)
    (outputs : List (String × String)) (files : List (String × Option Nat))
    (s : Main.LoopState)
    (hsyn : ∀ x ∈ files, x.2.isSome = true)
    (hproc : ∀ src out w, (Process env.proc processor src out w).isSome = true)
    (h0 : 0 ≤ s.errored) (h1 : s.errored ≤ s.processed)
    (h2 : s.processed + files.length < 9223372036854775808) :
    ∃ s2 newCalls, Main.runLoop env processor hadFiles outputs files s = some s2 ∧
      s2.rs.calls = s.rs.calls ++ newCalls ∧
      newCalls.map (fun c => c.path) =
        (files.filter (Main.selected hadFiles outputs)).map Prod.fst ∧
      (∀ c ∈ newCalls, c.output = Main.outputPath env outputs c.path) ∧
      s2.processed = s.processed + newCalls.length ∧
      s2.errored = s.errored + (newCalls.filterMap (fun c => c.result)).length ∧
      s2.err = s.err ++ newCalls.filterMap (fun c => c.result) ∧
      s2.rs.printed = s.rs.printed ∧ s2.rs.loads = s.rs.loads ∧
      (∀ c ∈ newCalls, ∃ w w2,
        Process env.proc processor c.src c.output w = some (c.result, w2)) := by
  induction files generalizing s with
  | nil =>
    exact ⟨s, [], rfl, by simp, rfl, by simp, by simp, by simp, by simp, rfl, rfl, by simp⟩
  | cons x rest ih =>
    obtain ⟨path, syn⟩ := x
    have hlen : ((((path, syn) :: rest).length : Nat) : Int) = (rest.length : Int) + 1 := by simp
    have hsyn2 : ∀ y ∈ rest, y.2.isSome = true := fun y hy => hsyn y (List.mem_cons_of_mem _ hy)
    by_cases hsel : (hadFiles && !(outputs.lookup (Base path)).isSome) = true
    · obtain ⟨s2, nc, r1, r2, r3, r4, r5, r6, r7, r8, r9, r10⟩ := ih s hsyn2 h0 h1 (by omega)
      refine ⟨s2, nc, ?_, r2, ?_, r4, r5, r6, r7, r8, r9, r10⟩
      · simp only [Main.runLoop, hsel, if_true]
        exact r1
      · rw [r3]
        have hf : Main.selected hadFiles outputs (path, syn) = false := by
          unfold Main.selected
          rw [hsel]
          rfl
        rw [List.filter_cons_of_neg (by rw [hf]; simp)]
    · have hselF : (hadFiles && !(outputs.lookup (Base path)).isSome) = false := by
        simpa using hsel
      have hsome := hsyn (path, syn) (List.mem_cons_self _ _)
      obtain ⟨src, hsrc⟩ := Option.isSome_iff_exists.mp hsome
      simp only at hsrc
      subst hsrc
      obtain ⟨pr, hpr⟩ := Option.isSome_iff_exists.mp
        (hproc src (Main.outputPath env outputs path) s.rs.world)
      obtain ⟨perr, w⟩ := pr
      have hw1 : wrapInt (s.processed + 1) = s.processed + 1 :=
        wrapInt_succ _ (by omega) (by omega)
      have hw2 : wrapInt (s.errored + 1) = s.errored + 1 :=
        wrapInt_succ _ (by omega) (by omega)
      have hselT : Main.selected hadFiles outputs (path, some src) = true := by
        unfold Main.selected
        rw [hselF]
        rfl
      have hfilter : List.filter (Main.selected hadFiles outputs) ((path, some src) :: rest) =
          (path, some src) :: List.filter (Main.selected hadFiles outputs) rest :=
        List.filter_cons_of_pos hselT
      cases perr with
      | none =>
        obtain ⟨s2, nc, r1, r2, r3, r4, r5, r6, r7, r8, r9, r10⟩ :=
          ih (Main.LoopState.mk (s.processed + 1) s.errored s.err
                (RunState.mk w s.rs.loads s.rs.printed
                  (s.rs.calls ++
                    [ProcessCall.mk path src (Main.outputPath env outputs path) none])))
            hsyn2 h0 (by simp only; omega) (by simp only; omega)
        refine ⟨s2, ProcessCall.mk path src (Main.outputPath env outputs path) none :: nc,
          ?_, ?_, ?_, ?_, ?_, ?_, ?_, r8, r9, ?_⟩
        · simp only [Main.runLoop, hselF, hpr, hw1]
          exact r1
        · rw [r2]
          simp
        · rw [hfilter]
          simp [r3]
        · intro c hc
          rcases List.mem_cons.mp hc with rfl | hc2
          · rfl
          · exact r4 c hc2
        · rw [r5]
          simp only [List.length_cons]
          push_cast
          omega
        · rw [r6]
          simp
        · rw [r7]
          simp
        · intro c hc
          rcases List.mem_cons.mp hc with rfl | hc2
          · exact ⟨s.rs.world, w, hpr⟩
          · exact r10 c hc2
      | some e =>
        obtain ⟨s2, nc, r1, r2, r3, r4, r5, r6, r7, r8, r9, r10⟩ :=
          ih (Main.LoopState.mk (s.processed + 1) (s.errored + 1) (s.err ++ [e])
                (RunState.mk w s.rs.loads s.rs.printed
                  (s.rs.calls ++
                    [ProcessCall.mk path src (Main.outputPath env outputs path) (some e)])))
            hsyn2 (by simp only; omega) (by simp only; omega) (by simp only; omega)
        refine ⟨s2, ProcessCall.mk path src (Main.outputPath env outputs path) (some e) :: nc,
          ?_, ?_, ?_, ?_, ?_, ?_, ?_, r8, r9, ?_⟩
        · simp only [Main.runLoop, hselF, hpr, hw1, hw2]
          exact r1
        · rw [r2]
          simp
        · rw [hfilter]
          simp [r3]
        · intro c hc
          rcases List.mem_cons.mp hc with rfl | hc2
          · rfl
          · exact r4 c hc2
        · rw [r5]
          simp only [List.length_cons]
          push_cast
          omega
        · rw [r6]
          simp only [List.filterMap_cons, List.length_cons]
          push_cast
          omega
        · rw [r7]
          simp
        · intro c hc
          rcases List.mem_cons.mp hc with rfl | hc2
          · exact ⟨s.rs.world, w, hpr⟩
          · exact r10 c hc2

theorem lookup_isSome_iff (l : List (String × String)) (k : String) :
    (l.lookup k).isSome = true ↔ k ∈ l.map Prod.fst := by
  induction l with
  | nil => simp
  | cons x rest ih =>
    obtain ⟨a, b⟩ := x
    by_cases hk : k = a
    · subst hk
      simp [List.lookup]
    · have hb : (k == a) = false := by simpa using hk
      simp only [List.lookup, hb, List.map_cons, List.mem_cons, hk, false_or]
      exact ih

theorem lookup_files (files : List Main.file) (k o : String)
    (h : (files.map (fun f => (f.Name, f.OutputPath))).lookup k = some o) :
    ∃ f ∈ files, f.Name = k ∧ f.OutputPath = o := by
  induction files with
  | nil => simp at h
  | cons g rest ih =>
    by_cases hk : k = g.Name
    · subst hk
      simp only [List.map_cons, List.lookup, beq_self_eq_true, Option.some.injEq] at h
      exact ⟨g, List.mem_cons_self _ _, rfl, h⟩
    · have hb : (k == g.Name) = false := by simpa using hk
      simp only [List.map_cons, List.lookup, hb] at h
      obtain ⟨f, hf, h1, h2⟩ := ih h
      exact ⟨f, List.mem_cons_of_mem _ hf, h1, h2⟩

/-- The loop that fills `outputs` ends without an error when the names of the
`--file` options are distinct and none is a key already. -/
theorem buildOutputs_nodup (files : List Main.file) (acc : List (String × String))
    (hdisj : ∀ f ∈ files, f.Name ∉ acc.map Prod.fst)
    (hnd : (files.map (fun f => f.Name)).Nodup) :
    Main.buildOutputs files acc =
      .ok (acc ++ files.map (fun f => (f.Name, f.OutputPath))) := by
  induction files generalizing acc with
  | nil => simp [Main.buildOutputs]
  | cons g rest ih =>
    have hg : (acc.lookup g.Name).isSome = false := by
      have := hdisj g (List.mem_cons_self _ _)
      rw [← lookup_isSome_iff] at this
      exact Bool.eq_false_iff.mpr this
    rw [List.map_cons, List.nodup_cons] at hnd
    simp only [Main.buildOutputs, hg, Bool.false_eq_true, if_false]
    rw [ih (acc ++ [(g.Name, g.OutputPath)]) _ hnd.2]
    · simp
    · intro f hf hmem
      simp only [List.map_append, List.map_cons, List.map_nil, List.mem_append,
        List.mem_singleton] at hmem
      rcases hmem with hmem | hmem
      · exact hdisj f (List.mem_cons_of_mem _ hf) hmem
      · exact hnd.1 (by rw [← hmem]; exact List.mem_map_of_mem (fun f => f.Name) hf)

/-- The loop that fills `outputs` stops at the first `--file` option whose name
was given before. -/
theorem buildOutputs_dup (pre post : List Main.file) (f : Main.file)
    (acc : List (String × String))
    (hdisj : ∀ g ∈ pre, g.Name ∉ acc.map Prod.fst)
    (hnd : (pre.map (fun g => g.Name)).Nodup)
    (hdup : f.Name ∈ acc.map Prod.fst ∨ f.Name ∈ pre.map (fun g => g.Name)) :
    Main.buildOutputs (pre ++ f :: post) acc = .error f := by
  induction pre generalizing acc with
  | nil =>
    have hf : (acc.lookup f.Name).isSome = true := by
      rw [lookup_isSome_iff]
      simpa using hdup
    simp [Main.buildOutputs, hf]
  | cons g rest ih =>
    have hg : (acc.lookup g.Name).isSome = false := by
      have := hdisj g (List.mem_cons_self _ _)
      rw [← lookup_isSome_iff] at this
      exact Bool.eq_false_iff.mpr this
    rw [List.map_cons, List.nodup_cons] at hnd
    simp only [List.cons_append, Main.buildOutputs, hg, Bool.false_eq_true, if_false]
    apply ih (acc ++ [(g.Name, g.OutputPath)]) _ hnd.2
    · simp only [List.map_append, List.map_cons, List.map_nil, List.mem_append,
        List.mem_singleton]
      rcases hdup with h | h
      · exact Or.inl (Or.inl h)
      · rw [List.map_cons, List.mem_cons] at h
        rcases h with h | h
        · exact Or.inl (Or.inr h)
        · exact Or.inr h
    · intro k hk hmem
      simp only [List.map_append, List.map_cons, List.map_nil, List.mem_append,
        List.mem_singleton] at hmem
      rcases hmem with hmem | hmem
      · exact hdisj k (List.mem_cons_of_mem _ hk) hmem
      · exact hnd.1 (by rw [← hmem]; exact List.mem_map_of_mem (fun g => g.Name) hk)

/-- Whether `run` selects a file, in terms of the `--file` options: none was
given, or the base name of the path is the name of one of them. -/
theorem selected_iff (files : List Main.file) (x : String × Option Nat) :
    Main.selected (decide (files.length > 0)) (files.map (fun f => (f.Name, f.OutputPath))) x =
      decide (files = [] ∨ Base x.1 ∈ files.map (fun f => f.Name)) := by
  have hkeys : (files.map (fun f => (f.Name, f.OutputPath))).map Prod.fst =
      files.map (fun f => f.Name) := by
    rw [List.map_map]
    rfl
  have hl := lookup_isSome_iff (files.map (fun f => (f.Name, f.OutputPath))) (Base x.1)
  rw [hkeys] at hl
  unfold Main.selected
  cases files with
  | nil => simp
  | cons g rest =>
    by_cases hm : Base x.1 ∈ (g :: rest).map (fun f => f.Name)
    · rw [hl.mpr hm, decide_eq_true (show (g :: rest = [] ∨
          Base x.1 ∈ (g :: rest).map (fun f => f.Name)) from Or.inr hm)]
      simp
    · have : ((List.map (fun f => (f.Name, f.OutputPath)) (g :: rest)).lookup
          (Base x.1)).isSome = false := by
        rw [Bool.eq_false_iff]
        intro h
        exact hm (hl.mp h)
      rw [this, decide_eq_false (show ¬ (g :: rest = [] ∨
          Base x.1 ∈ (g :: rest).map (fun f => f.Name)) from
            fun h => h.elim (fun e => List.cons_ne_nil _ _ e) hm)]
      simp

/-- The output path of a file for which no `--file` option gives an output:
the directory of the path joined with the base name, its extension replaced by
`_gen.go`. -/
theorem outputPath_default (env : Main.RunEnv) (files : List Main.file) (path : String)
    (h : ∀ f ∈ files, f.Name = Base path → f.OutputPath = "") :
    Main.outputPath env (files.map (fun f => (f.Name, f.OutputPath))) path =
      env.Join (env.Dir path) (TrimSuffix (Base path) (Ext (Base path)) ++ "_gen.go") := by
  have : ((files.map (fun f => (f.Name, f.OutputPath))).lookup (Base path)).getD "" = "" := by
    cases hl : (files.map (fun f => (f.Name, f.OutputPath))).lookup (Base path) with
    | none => rfl
    | some o =>
      obtain ⟨f, hf, h1, h2⟩ := lookup_files files (Base path) o hl
      rw [← h2]
      exact h f hf h1
  simp [Main.outputPath, this]

/-- The extension `Ext name` ends `name`, and `TrimSuffix` removes it. -/
theorem TrimSuffix_Ext (name : String) : TrimSuffix name (Ext name) ++ Ext name = name := by
  have hsuf : (Ext name).data <:+ name.data := by
    unfold Ext
    simp only
    split
    · rename_i hdot
      have h1 : (name.data.reverse.takeWhile (fun c => decide (c ≠ '/'))) <+:
          name.data.reverse := List.takeWhile_prefix _
      have h2 : ∃ t, name.data.reverse.takeWhile (fun c => decide (c ≠ '/')) =
          (name.data.reverse.takeWhile (fun c => decide (c ≠ '/'))).takeWhile
            (fun c => decide (c ≠ '.')) ++ '.' :: t := by
        generalize name.data.reverse.takeWhile (fun c => decide (c ≠ '/')) = l at hdot
        induction l with
        | nil => simp at hdot
        | cons a r ih =>
          by_cases ha : a = '.'
          · subst ha
            exact ⟨r, by simp⟩
          · have hr : '.' ∈ r := by
              rcases List.mem_cons.mp hdot with h | h
              · exact absurd h.symm ha
              · exact h
            obtain ⟨t, ht⟩ := ih hr
            refine ⟨t, ?_⟩
            rw [List.takeWhile_cons_of_pos (by simpa using ha)]
            rw [List.cons_append, ← ht]
      obtain ⟨t, ht⟩ := h2
      obtain ⟨u, hu⟩ := h1
      rw [ht] at hu
      refine ⟨(t ++ u).reverse, ?_⟩
      have := congrArg List.reverse hu
      simp only [List.reverse_append, List.reverse_cons, List.reverse_reverse,
        List.append_assoc, List.singleton_append] at this
      rw [List.reverse_append, List.append_assoc]
      exact this
    · exact List.nil_suffix
  obtain ⟨pre, hpre⟩ := hsuf
  have hd : List.isSuffixOf (Ext name).data name.data = true :=
    List.isSuffixOf_iff_suffix.mpr ⟨pre, hpre⟩
  apply String.ext
  simp only [TrimSuffix, hd, if_true, String.data_append]
  conv_rhs => rw [← hpre]
  rw [← hpre]
  simp

/-- The function `run` when the flags register, the arguments parse to `opts`
with distinct `--file` names, the packages load, every compiled file has its
syntax tree, `Process` does not panic and the files are fewer than `2^63`: it
returns; `Process` is called for the selected files in order, each with its
output path; the error returned is the list of the errors of those calls; the
line logged, unless `--quiet`, carries the number of calls and the number of
errors. -/
theorem run_spec (env : Main.RunEnv) (args : List String) (rs : RunState)
    (opts : Main.options) (pkgs : List LoadedPackage)
    (hreg : env.RegisterFlags = none) (hparse : env.ParseArgs args = .ok opts)
    (hnd : (opts.Files.map (fun f => f.Name)).Nodup)
    (hload : env.Load opts.ImportPath = .ok pkgs)
    (hsyn : ∀ x ∈ Main.compiledFiles pkgs, x.2.isSome = true)
    (hproc : ∀ src out w, (Process env.proc
      { InstrumentAllTasks := opts.InstrumentAllTasks, GenMode := opts.GenMode }
      src out w).isSome = true)
    (hsize : (Main.compiledFiles pkgs).length < 9223372036854775808) :
    ∃ err rs2 newCalls, Main.run env args rs = some (err, rs2) ∧
      rs2.calls = rs.calls ++ newCalls ∧
      newCalls.map (fun c => c.path) =
        ((Main.compiledFiles pkgs).filter (Main.selected (decide (opts.Files.length > 0))
          (opts.Files.map (fun f => (f.Name, f.OutputPath))))).map Prod.fst ∧
      (∀ c ∈ newCalls, c.output =
        Main.outputPath env (opts.Files.map (fun f => (f.Name, f.OutputPath))) c.path) ∧
      err = newCalls.filterMap (fun c => c.result) ∧
      rs2.printed = (if opts.Quiet = true then rs.printed else rs.printed ++
        [Printf.mk "Processed %d files with %d errors"
          [(newCalls.length : Int), ((newCalls.filterMap (fun c => c.result)).length : Int)]]) ∧
      rs2.loads = rs.loads ++ [opts.ImportPath] ∧
      (∀ c ∈ newCalls, ∃ w w2, Process env.proc
        { InstrumentAllTasks := opts.InstrumentAllTasks, GenMode := opts.GenMode }
        c.src c.output w = some (c.result, w2)) := by
  have hbo := buildOutputs_nodup opts.Files [] (by simp) hnd
  rw [List.nil_append] at hbo
  obtain ⟨s2, nc, r1, r2, r3, r4, r5, r6, r7, r8, r9, r10⟩ :=
    runLoop_spec env { InstrumentAllTasks := opts.InstrumentAllTasks, GenMode := opts.GenMode }
      (decide (opts.Files.length > 0)) (opts.Files.map (fun f => (f.Name, f.OutputPath)))
      (Main.compiledFiles pkgs)
      (Main.LoopState.mk 0 0 []
        (RunState.mk rs.world (rs.loads ++ [opts.ImportPath]) rs.printed rs.calls))
      hsyn hproc (le_refl _) (le_refl _) (by simp only; omega)
  simp only [zero_add, List.nil_append] at r2 r5 r6 r7 r8 r9
  by_cases hq : opts.Quiet = true
  · refine ⟨s2.err, s2.rs, nc, ?_, r2, r3, r4, r7, ?_, r9, r10⟩
    · simp [Main.run, hreg, hparse, hbo, hload, r1, hq]
    · rw [if_pos hq]
      exact r8
  · have hqf : opts.Quiet = false := by simpa using hq
    refine ⟨s2.err, RunState.mk s2.rs.world s2.rs.loads (s2.rs.printed ++
        [Printf.mk "Processed %d files with %d errors" [s2.processed, s2.errored]])
        s2.rs.calls, nc, ?_, r2, r3, r4, r7, ?_, r9, r10⟩
    · simp [Main.run, hreg, hparse, hbo, hload, r1, hqf]
    · rw [if_neg hq]
      simp only [r8, r5, r6]

/-- In `processEnvMixedExample`, `Process` in the modifier mode never panics. -/
theorem processEnvMixedExample_total (p : Processor) (hp : p.GenMode.Modifier = true)
    (src : Nat) (out : String) (w : World) :
    (Process processEnvMixedExample p src out w).isSome = true := by
  unfold Process
  cases hc : processEnvMixedExample.CompileFile p src with
  | error e => rfl
  | ok f =>
    simp only [hp, if_true]
    rfl

/-! ## The default output path -/

/-- C23 fails for a compiled file that is not a `.go` file: with no `--file`
option, `run` hands `x/z/d.txt` to `Process` with the output path
`x/z/d_gen.go`, although the extension of `d.txt` is `.txt`. -/
theorem run_txt_file_output_gen_go :
    (Main.run (runEnvExample optionsAllFilesExample) [] runStateExample).map
        (fun r => r.2.calls.map (fun c => (c.path, c.output))) =
      some [("x/y/a.go", "x/y/a_gen.go"), ("x/y/b.go", "x/y/b_gen.go"),
            ("x/z/c.go", "x/z/c_gen.go"), ("x/z/d.txt", "x/z/d_gen.go")] ∧
    Base "x/z/d.txt" = "d.txt" ∧ Ext "d.txt" = ".txt" ∧ TrimSuffix "d.txt" ".txt" = "d" ∧
    dirExample "x/z/d.txt" = "x/z" := by
  decide

/-- C23 as amended: for every file `run` hands to `Process` for which no
`--file` option gives an output, the output path is the directory of the source
joined with the file name made of the stem of the source (its base name without
its extension) followed by `_gen.go`. -/
theorem run_default_output (env : Main.RunEnv) (args : List String) (rs : RunState)
    (opts : Main.options) (pkgs : List LoadedPackage)
    (hreg : env.RegisterFlags = none) (hparse : env.ParseArgs args = .ok opts)
    (hnd : (opts.Files.map (fun f => f.Name)).Nodup)
    (hload : env.Load opts.ImportPath = .ok pkgs)
    (hsyn : ∀ x ∈ Main.compiledFiles pkgs, x.2.isSome = true)
    (hproc : ∀ src out w, (Process env.proc
      { InstrumentAllTasks := opts.InstrumentAllTasks, GenMode := opts.GenMode }
      src out w).isSome = true)
    (hsize : (Main.compiledFiles pkgs).length < 9223372036854775808) :
    ∃ err rs2 newCalls, Main.run env args rs = some (err, rs2) ∧
      rs2.calls = rs.calls ++ newCalls ∧
      ∀ c ∈ newCalls, (∀ f ∈ opts.Files, f.Name = Base c.path → f.OutputPath = "") →
        c.output = env.Join (env.Dir c.path)
          (TrimSuffix (Base c.path) (Ext (Base c.path)) ++ "_gen.go") ∧
        TrimSuffix (Base c.path) (Ext (Base c.path)) ++ Ext (Base c.path) = Base c.path := by
  obtain ⟨err, rs2, nc, r1, r2, _, r4, _⟩ :=
    run_spec env args rs opts pkgs hreg hparse hnd hload hsyn hproc hsize
  refine ⟨err, rs2, nc, r1, r2, ?_⟩
  intro c hc hno
  refine ⟨?_, TrimSuffix_Ext _⟩
  rw [r4 c hc]
  exact outputPath_default env opts.Files c.path hno

theorem run_default_output_witness :
    ∃ err rs2 newCalls, Main.run (runEnvExample optionsExample) [] runStateExample = some (err, rs2) ∧
      rs2.calls = runStateExample.calls ++ newCalls ∧
      ∀ c ∈ newCalls, (∀ f ∈ optionsExample.Files, f.Name = Base c.path → f.OutputPath = "") →
        c.output = (runEnvExample optionsExample).Join ((runEnvExample optionsExample).Dir c.path)
          (TrimSuffix (Base c.path) (Ext (Base c.path)) ++ "_gen.go") ∧
        TrimSuffix (Base c.path) (Ext (Base c.path)) ++ Ext (Base c.path) = Base c.path :=
  run_default_output (runEnvExample optionsExample) [] runStateExample optionsExample
    packagesExample rfl rfl (by decide) rfl (by decide)
    (processEnvMixedExample_total _ rfl) (by decide)

/-! ## The files `run` processes -/

/-- The paths of the selected files, in terms of the `--file` options. -/
theorem selected_paths (files : List Main.file) (l : List (String × Option Nat)) :
    (l.filter (Main.selected (decide (files.length > 0))
      (files.map (fun f => (f.Name, f.OutputPath))))).map Prod.fst =
    (l.map Prod.fst).filter
      (fun path => decide (files = [] ∨ Base path ∈ files.map (fun f => f.Name))) := by
  rw [List.filter_map]
  congr 1
  apply List.filter_congr
  intro x _
  exact selected_iff files x

/-- C24: `run` calls `Process` for the compiled files of the loaded packages,
in order, that are selected: with at least one `--file` option, a compiled file
is processed if and only if its base name is the name of a `--file` option;
with none, every compiled file of every package is processed. -/
theorem run_processes_selected (env : Main.RunEnv) (args : List String) (rs : RunState)
    (opts : Main.options) (pkgs : List LoadedPackage)
    (hreg : env.RegisterFlags = none) (hparse : env.ParseArgs args = .ok opts)
    (hnd : (opts.Files.map (fun f => f.Name)).Nodup)
    (hload : env.Load opts.ImportPath = .ok pkgs)
    (hsyn : ∀ x ∈ Main.compiledFiles pkgs, x.2.isSome = true)
    (hproc : ∀ src out w, (Process env.proc
      { InstrumentAllTasks := opts.InstrumentAllTasks, GenMode := opts.GenMode }
      src out w).isSome = true)
    (hsize : (Main.compiledFiles pkgs).length < 9223372036854775808) :
    ∃ err rs2 newCalls, Main.run env args rs = some (err, rs2) ∧
      rs2.calls = rs.calls ++ newCalls ∧
      newCalls.map (fun c => c.path) =
        ((Main.compiledFiles pkgs).map Prod.fst).filter
          (fun path => decide (opts.Files = [] ∨ Base path ∈ opts.Files.map (fun f => f.Name))) ∧
      (opts.Files ≠ [] → ∀ path, path ∈ newCalls.map (fun c => c.path) ↔
        path ∈ (Main.compiledFiles pkgs).map Prod.fst ∧ ∃ f ∈ opts.Files, f.Name = Base path) ∧
      (opts.Files = [] → newCalls.map (fun c => c.path) =
        (Main.compiledFiles pkgs).map Prod.fst) := by
  obtain ⟨err, rs2, nc, r1, r2, r3, _⟩ :=
    run_spec env args rs opts pkgs hreg hparse hnd hload hsyn hproc hsize
  rw [selected_paths] at r3
  refine ⟨err, rs2, nc, r1, r2, r3, ?_, ?_⟩
  · intro hne path
    rw [r3, List.mem_filter]
    simp [hne]
  · intro he
    rw [r3]
    apply List.filter_eq_self.mpr
    intro a _
    simp [he]

theorem run_processes_selected_witness :
    ∃ err rs2 newCalls, Main.run (runEnvExample optionsExample) [] runStateExample = some (err, rs2) ∧
      rs2.calls = runStateExample.calls ++ newCalls ∧
      newCalls.map (fun c => c.path) =
        ((Main.compiledFiles packagesExample).map Prod.fst).filter
          (fun path => decide (optionsExample.Files = [] ∨ Base path ∈ optionsExample.Files.map (fun f => f.Name))) ∧
      (optionsExample.Files ≠ [] → ∀ path, path ∈ newCalls.map (fun c => c.path) ↔
        path ∈ (Main.compiledFiles packagesExample).map Prod.fst ∧ ∃ f ∈ optionsExample.Files, f.Name = Base path) ∧
      (optionsExample.Files = [] → newCalls.map (fun c => c.path) =
        (Main.compiledFiles packagesExample).map Prod.fst) :=
  run_processes_selected (runEnvExample optionsExample) [] runStateExample optionsExample
    packagesExample rfl rfl (by decide) rfl (by decide)
    (processEnvMixedExample_total _ rfl) (by decide)

/-! ## The error `run` returns -/

/-- C25: after the packages load, `run` calls `Process` for every selected
file, whatever the earlier calls returned, and the error it returns is the list
of the errors of the failing calls in the order of the calls; it is nil (the
empty list) if and only if every call returned nil. -/
theorem run_returns_composite (env : Main.RunEnv) (args : List String) (rs : RunState)
    (opts : Main.options) (pkgs : List LoadedPackage)
    (hreg : env.RegisterFlags = none) (hparse : env.ParseArgs args = .ok opts)
    (hnd : (opts.Files.map (fun f => f.Name)).Nodup)
    (hload : env.Load opts.ImportPath = .ok pkgs)
    (hsyn : ∀ x ∈ Main.compiledFiles pkgs, x.2.isSome = true)
    (hproc : ∀ src out w, (Process env.proc
      { InstrumentAllTasks := opts.InstrumentAllTasks, GenMode := opts.GenMode }
      src out w).isSome = true)
    (hsize : (Main.compiledFiles pkgs).length < 9223372036854775808) :
    ∃ err rs2 newCalls, Main.run env args rs = some (err, rs2) ∧
      rs2.calls = rs.calls ++ newCalls ∧
      newCalls.map (fun c => c.path) =
        ((Main.compiledFiles pkgs).map Prod.fst).filter
          (fun path => decide (opts.Files = [] ∨ Base path ∈ opts.Files.map (fun f => f.Name))) ∧
      (∀ c ∈ newCalls, ∃ w w2, Process env.proc
        { InstrumentAllTasks := opts.InstrumentAllTasks, GenMode := opts.GenMode }
        c.src c.output w = some (c.result, w2)) ∧
      err = newCalls.filterMap (fun c => c.result) ∧
      (err = [] ↔ ∀ c ∈ newCalls, c.result = none) := by
  obtain ⟨err, rs2, nc, r1, r2, r3, _, r5, _, _, r8⟩ :=
    run_spec env args rs opts pkgs hreg hparse hnd hload hsyn hproc hsize
  rw [selected_paths] at r3
  refine ⟨err, rs2, nc, r1, r2, r3, r8, r5, ?_⟩
  rw [r5]
  simp

theorem run_returns_composite_witness :
    ∃ err rs2 newCalls, Main.run (runEnvExample optionsExample) [] runStateExample = some (err, rs2) ∧
      rs2.calls = runStateExample.calls ++ newCalls ∧
      newCalls.map (fun c => c.path) =
        ((Main.compiledFiles packagesExample).map Prod.fst).filter
          (fun path => decide (optionsExample.Files = [] ∨ Base path ∈ optionsExample.Files.map (fun f => f.Name))) ∧
      (∀ c ∈ newCalls, ∃ w w2, Process (runEnvExample optionsExample).proc
        { InstrumentAllTasks := optionsExample.InstrumentAllTasks, GenMode := optionsExample.GenMode }
        c.src c.output w = some (c.result, w2)) ∧
      err = newCalls.filterMap (fun c => c.result) ∧
      (err = [] ↔ ∀ c ∈ newCalls, c.result = none) :=
  run_returns_composite (runEnvExample optionsExample) [] runStateExample optionsExample
    packagesExample rfl rfl (by decide) rfl (by decide)
    (processEnvMixedExample_total _ rfl) (by decide)

/-! ## The line `run` logs -/

/-- C26 fails when `run` returns early: the loader fails, `--quiet` is not
set, and `run` returns the error without logging a line. -/
theorem run_load_error_prints_nothing :
    runEnvLoadFailsExample.ParseArgs [] = .ok optionsAllFilesExample ∧
    optionsAllFilesExample.Quiet = false ∧
    Main.run runEnvLoadFailsExample [] runStateExample =
      some (["load packages: no such package"],
        RunState.mk runStateExample.world ["example.com/pkg"] [] []) :=
  ⟨rfl, rfl, by decide⟩

/-- The loop that fills `outputs` stops with an error when a `--file` name is
a key already. -/
theorem buildOutputs_mem (files : List Main.file) (acc : List (String × String))
    (h : ∃ f ∈ files, f.Name ∈ acc.map Prod.fst) :
    ∃ dup, Main.buildOutputs files acc = .error dup := by
  induction files generalizing acc with
  | nil =>
    obtain ⟨f, hf, _⟩ := h
    exact absurd hf (List.not_mem_nil f)
  | cons g rest ih =>
    by_cases hg : (acc.lookup g.Name).isSome = true
    · exact ⟨g, by simp [Main.buildOutputs, hg]⟩
    · simp only [Main.buildOutputs, hg, if_false]
      apply ih
      obtain ⟨f, hf, hmem⟩ := h
      rcases List.mem_cons.mp hf with rfl | hf2
      · exact absurd ((lookup_isSome_iff acc f.Name).mpr hmem) hg
      · exact ⟨f, hf2, by simp only [List.map_append, List.mem_append]; exact Or.inl hmem⟩

/-- The loop that fills `outputs` stops with an error when two `--file` options
have the same name. -/
theorem buildOutputs_not_nodup (files : List Main.file) (acc : List (String × String))
    (h : ¬ (files.map (fun f => f.Name)).Nodup) :
    ∃ dup, Main.buildOutputs files acc = .error dup := by
  induction files generalizing acc with
  | nil => exact absurd List.nodup_nil h
  | cons g rest ih =>
    by_cases hg : (acc.lookup g.Name).isSome = true
    · exact ⟨g, by simp [Main.buildOutputs, hg]⟩
    · simp only [Main.buildOutputs, hg, if_false]
      by_cases hr : (rest.map (fun f => f.Name)).Nodup
      · have hmem : g.Name ∈ rest.map (fun f => f.Name) := by
          by_contra hno
          exact h (by rw [List.map_cons]; exact List.nodup_cons.mpr ⟨hno, hr⟩)
        obtain ⟨f, hf, hfn⟩ := List.mem_map.mp hmem
        apply buildOutputs_mem
        refine ⟨f, hf, ?_⟩
        simp only [List.map_append, List.map_cons, List.map_nil, List.mem_append,
          List.mem_singleton]
        exact Or.inr hfn
      · exact ih _ hr

/-- C26 as amended: when the flags register, the arguments parse, no `--file`
name is repeated and the packages load, `run` ends by logging, unless `--quiet`
is set, the line "Processed N files with M errors", where N is the number of
files passed to `Process` and M, at most N, the number of those for which
`Process` returned an error; with `--quiet` it logs nothing.  When `run`
returns early, because the flags do not register, the arguments do not parse,
a `--file` name is repeated or the packages do not load, it logs nothing and
processes no file. -/
theorem run_prints_summary (env : Main.RunEnv) (args : List String) (rs : RunState) :
    (∀ opts pkgs, env.RegisterFlags = none → env.ParseArgs args = .ok opts →
      (opts.Files.map (fun f => f.Name)).Nodup →
      env.Load opts.ImportPath = .ok pkgs →
      (∀ x ∈ Main.compiledFiles pkgs, x.2.isSome = true) →
      (∀ src out w, (Process env.proc
        { InstrumentAllTasks := opts.InstrumentAllTasks, GenMode := opts.GenMode }
        src out w).isSome = true) →
      (Main.compiledFiles pkgs).length < 9223372036854775808 →
      ∃ err rs2 newCalls, Main.run env args rs = some (err, rs2) ∧
        rs2.calls = rs.calls ++ newCalls ∧
        rs2.printed = (if opts.Quiet = true then rs.printed else rs.printed ++
          [Printf.mk "Processed %d files with %d errors"
            [(newCalls.length : Int),
             ((newCalls.filterMap (fun c => c.result)).length : Int)]]) ∧
        (newCalls.filterMap (fun c => c.result)).length ≤ newCalls.length) ∧
    (∀ e, env.RegisterFlags = some e → Main.run env args rs = some ([e], rs)) ∧
    (∀ e, env.RegisterFlags = none → env.ParseArgs args = .error e →
      Main.run env args rs = some ([e], rs)) ∧
    (∀ opts, env.RegisterFlags = none → env.ParseArgs args = .ok opts →
      ¬ (opts.Files.map (fun f => f.Name)).Nodup →
      ∃ dup, Main.run env args rs = some (["invalid argument --file=" ++ Main.fmtV dup ++
        ": file already specified before"], rs)) ∧
    (∀ opts e, env.RegisterFlags = none → env.ParseArgs args = .ok opts →
      (opts.Files.map (fun f => f.Name)).Nodup →
      env.Load opts.ImportPath = .error e →
      ∃ rs2, Main.run env args rs = some (["load packages: " ++ e], rs2) ∧
        rs2.printed = rs.printed ∧ rs2.calls = rs.calls ∧ rs2.world = rs.world) := by
  refine ⟨?_, ?_, ?_, ?_, ?_⟩
  · intro opts pkgs hreg hparse hnd hload hsyn hproc hsize
    obtain ⟨err, rs2, nc, r1, r2, _, _, _, r6, _⟩ :=
      run_spec env args rs opts pkgs hreg hparse hnd hload hsyn hproc hsize
    exact ⟨err, rs2, nc, r1, r2, r6, List.length_filterMap_le _ _⟩
  · intro e hreg
    simp [Main.run, hreg]
  · intro e hreg hparse
    simp [Main.run, hreg, hparse]
  · intro opts hreg hparse hnd
    obtain ⟨dup, hdup⟩ := buildOutputs_not_nodup opts.Files [] hnd
    exact ⟨dup, by simp [Main.run, hreg, hparse, hdup]⟩
  · intro opts e hreg hparse hnd hload
    have hbo := buildOutputs_nodup opts.Files [] (by simp) hnd
    rw [List.nil_append] at hbo
    exact ⟨RunState.mk rs.world (rs.loads ++ [opts.ImportPath]) rs.printed rs.calls,
      by simp [Main.run, hreg, hparse, hbo, hload], rfl, rfl, rfl⟩

theorem run_prints_summary_witness :
    ∃ err rs2 newCalls,
      Main.run (runEnvExample optionsExample) [] runStateExample = some (err, rs2) ∧
      rs2.calls = runStateExample.calls ++ newCalls ∧
      rs2.printed = (if optionsExample.Quiet = true then runStateExample.printed
        else runStateExample.printed ++
          [Printf.mk "Processed %d files with %d errors"
            [(newCalls.length : Int),
             ((newCalls.filterMap (fun c => c.result)).length : Int)]]) ∧
      (newCalls.filterMap (fun c => c.result)).length ≤ newCalls.length :=
  (run_prints_summary (runEnvExample optionsExample) [] runStateExample).1 optionsExample
    packagesExample rfl rfl (by decide) rfl (by decide)
    (processEnvMixedExample_total _ rfl) (by decide)

/-! ## A repeated `--file` name -/

/-- C28: when a `--file` option repeats the name of an earlier one, whatever
the outputs of the two, `run` returns the error "invalid argument --file=...:
file already specified before" that names the later option, and has neither
loaded a package nor processed a file. -/
theorem run_duplicate_file (env : Main.RunEnv) (args : List String) (rs : RunState)
    (opts : Main.options) (pre post : List Main.file) (f : Main.file)
    (hreg : env.RegisterFlags = none) (hparse : env.ParseArgs args = .ok opts)
    (hfiles : opts.Files = pre ++ f :: post)
    (hnd : (pre.map (fun g => g.Name)).Nodup)
    (hdup : f.Name ∈ pre.map (fun g => g.Name)) :
    Main.run env args rs =
      some (["invalid argument --file=" ++ Main.fmtV f ++
        ": file already specified before"], rs) := by
  have hbo := buildOutputs_dup pre post f [] (by simp) hnd (Or.inr hdup)
  simp [Main.run, hreg, hparse, hfiles, hbo]

theorem run_duplicate_file_witness :
    Main.run (runEnvExample optionsDuplicateExample) [] runStateExample =
      some (["invalid argument --file=\x7ba.go b.go\x7d: file already specified before"],
        runStateExample) :=
  run_duplicate_file (runEnvExample optionsDuplicateExample) [] runStateExample
    optionsDuplicateExample [⟨"a.go", ""⟩] [] ⟨"a.go", "b.go"⟩ rfl rfl rfl (by decide)
    (by decide)

end Cff
